import Mathlib

/-!
Shallow embedding of the red-black tree visualization core
(`RedBlackTree` class and `diffSnapshots` from the repository's tree module).

Modelling choices, each forced by the move from mutable JS objects to Lean:
* Node objects linked by references become an arena: `TreeState.nodes` maps a
  numeric node id to its record; `parent`/`left`/`right` are `Option Nat` ids.
  The JS ids are the strings `node-0`, `node-1`, ...; we keep the numeric part
  (the `nodeCounter` value at creation), which is in bijection with them.
* Field mutation becomes functional update of the arena; every read is made
  from the state current at the corresponding source line (live reads), so the
  mutation order of the source is preserved exactly.
* `while` loops become fuel recursion.  All loops of the source terminate on
  states reachable by the public API in at most the number of nodes many
  steps, and the number of nodes is bounded by `nodeCounter`, so
  `nodeCounter + 1` fuel is always sufficient there; on garbage states the
  fuel just cuts the recursion.
* Snapshot ids `snap-${Date.now()}-${random}-${snapshots.length}` and the
  operation ids carry a wall-clock timestamp and randomness.  Only the
  deterministic `snapshots.length` component is modelled (`TreeSnapshot.id`);
  no claim mentions the timestamp or random part, and `OperationRecord` keeps
  only `label` and `snapshots`.
* `cloneNodes` exists in the source to defeat aliasing of mutable arrays; in
  a pure model it is the identity and is dropped.
* The TS field names `from`/`to` of recolor entries are Lean keywords and are
  rendered `fromColor`/`toColor`.
-/

namespace RBViz

inductive NodeColor where
  | red
  | black
deriving DecidableEq, Repr

/-- `SerializedNode` of the source: id, value, color and relation ids. -/
structure SerializedNode where
  id : Nat
  value : Int
  color : NodeColor
  parentId : Option Nat
  leftId : Option Nat
  rightId : Option Nat
deriving DecidableEq, Repr

/-- One entry of the `recolored` list (`{ id, value, from, to }`). -/
structure RecoloredEntry where
  id : Nat
  value : Int
  fromColor : NodeColor
  toColor : NodeColor
deriving DecidableEq, Repr

/-- `SnapshotChanges` of the source; `added`/`removed`/`moved` entries are
`{ id, value }` pairs. -/
structure SnapshotChanges where
  added : List (Nat × Int)
  removed : List (Nat × Int)
  recolored : List RecoloredEntry
  moved : List (Nat × Int)
deriving DecidableEq, Repr

/-- `TreeSnapshot` of the source; `id` keeps the `snapshots.length`
component of the snapshot id. -/
structure TreeSnapshot where
  id : Nat
  description : String
  nodes : List SerializedNode
  highlightNodeIds : List Nat
  changes : SnapshotChanges
deriving DecidableEq, Repr

/-- `OperationRecord` of the source, without the timestamp-based `id`. -/
structure OperationRecord where
  label : String
  snapshots : List TreeSnapshot
deriving DecidableEq, Repr

/-- The data of one `RBNode`, with object references replaced by arena ids. -/
structure RBNodeData where
  value : Int
  color : NodeColor
  left : Option Nat
  right : Option Nat
  parent : Option Nat
deriving DecidableEq, Repr

/-- The private state of a `RedBlackTree` instance: the arena of nodes,
`root`, and `nodeCounter`. -/
structure TreeState where
  nodes : Nat → Option RBNodeData
  root : Option Nat
  nodeCounter : Nat

/-- A `new RedBlackTree()`: empty arena, no root, counter 0. -/
def emptyTree : TreeState := ⟨fun _ => none, none, 0⟩

/-- `compact(...ids)`: drop the null entries.  (The JS ids are non-empty
strings, hence truthy exactly when non-null.) -/
def compact (ids : List (Option Nat)) : List Nat :=
  ids.filterMap (fun x => x)

/-- Dereference an optional node id (`maybeNode` in JS terms). -/
def getN (s : TreeState) (oid : Option Nat) : Option RBNodeData :=
  oid.bind s.nodes

/-- `n?.left ?? null` for an optional node id. -/
def leftOf (s : TreeState) (oid : Option Nat) : Option Nat :=
  (getN s oid).bind (fun d => d.left)

/-- `n?.right ?? null` for an optional node id. -/
def rightOf (s : TreeState) (oid : Option Nat) : Option Nat :=
  (getN s oid).bind (fun d => d.right)

/-- `n?.parent ?? null` for an optional node id. -/
def parentOf (s : TreeState) (oid : Option Nat) : Option Nat :=
  (getN s oid).bind (fun d => d.parent)

/-- `n?.color` for an optional node id (`none` when the node is absent). -/
def colorOf (s : TreeState) (oid : Option Nat) : Option NodeColor :=
  (getN s oid).map (fun d => d.color)

/-- Overwrite the record of node `id` in the arena. -/
def setNode (s : TreeState) (id : Nat) (d : RBNodeData) : TreeState :=
  { s with nodes := fun k => if k = id then some d else s.nodes k }

/-- Mutate one field of node `id` (a no-op on an id absent from the arena,
which the source cannot reach: it only mutates live objects). -/
def updNode (s : TreeState) (id : Nat) (f : RBNodeData → RBNodeData) : TreeState :=
  match s.nodes id with
  | none => s
  | some d => setNode s id (f d)

/-- `isBlack(target)` of `fixDelete`: `!target || target.color === 'black'`. -/
def isBlackO (s : TreeState) (oid : Option Nat) : Bool :=
  match getN s oid with
  | none => true
  | some d => d.color = NodeColor.black

/-- The lookup of a JS `Map` built from a keyed list: later entries
overwrite earlier ones, so `get` returns the last record with that id. -/
def lookupById (l : List SerializedNode) (id : Nat) : Option SerializedNode :=
  l.reverse.find? (fun n => n.id = id)

/-- `diffSnapshots(previous, current)`.  The source iterates `current`,
pushing to `added` when the id is absent from the previous map, otherwise
testing color and the three relation ids independently; then iterates
`previous`, pushing to `removed` the ids absent from the current map. -/
def diffSnapshots (previous current : List SerializedNode) : SnapshotChanges :=
  let added := (current.filter (fun n => lookupById previous n.id = none)).map
    (fun n => (n.id, n.value))
  let recolored := current.filterMap (fun n =>
    match lookupById previous n.id with
    | none => none
    | some p =>
      if p.color = n.color then none
      else some ⟨n.id, n.value, p.color, n.color⟩)
  let moved := current.filterMap (fun n =>
    match lookupById previous n.id with
    | none => none
    | some p =>
      if p.parentId = n.parentId ∧ p.leftId = n.leftId ∧ p.rightId = n.rightId
      then none
      else some (n.id, n.value))
  let removed := (previous.filter (fun n => ¬ current.any (fun c => c.id = n.id))).map
    (fun n => (n.id, n.value))
  ⟨added, removed, recolored, moved⟩

/-- The `traverse` closure of `serializeTree`: push the node itself, then
recurse left, then right (pre-order).  Fuel bounds the recursion depth. -/
def serializeAux (s : TreeState) : Nat → Option Nat → List SerializedNode
  | 0, _ => []
  | _, none => []
  | fuel + 1, some id =>
    match s.nodes id with
    | none => []
    | some d =>
      ⟨id, d.value, d.color, d.parent, d.left, d.right⟩
        :: (serializeAux s fuel d.left ++ serializeAux s fuel d.right)

/-- `serializeTree()`: serialize from the root. -/
def serializeTree (s : TreeState) : List SerializedNode :=
  serializeAux s (s.nodeCounter + 1) s.root

/-- The mutable locals of the `record` closure shared by `insert` and
`delete`: the `snapshots` array and `previousNodes`. -/
structure RecState where
  snapshots : List TreeSnapshot
  previousNodes : List SerializedNode
deriving DecidableEq, Repr

/-- One call of the `record(description, highlightNodeIds)` closure:
serialize the live tree, keep only highlights that still exist, diff
against `previousNodes`, append the snapshot, update `previousNodes`. -/
def recordStep (s : TreeState) (r : RecState) (description : String)
    (highlightNodeIds : List Nat) : RecState :=
  let nodes := serializeTree s
  let validHighlights := highlightNodeIds.filter
    (fun i => nodes.any (fun n => n.id = i))
  let changes := diffSnapshots r.previousNodes nodes
  ⟨r.snapshots ++ [⟨r.snapshots.length, description, nodes, validHighlights, changes⟩],
    nodes⟩

/-- The descent loop of `find(value)`. -/
def findAux (s : TreeState) (v : Int) : Nat → Option Nat → Option Nat
  | 0, _ => none
  | _, none => none
  | fuel + 1, some id =>
    match s.nodes id with
    | none => none
    | some d =>
      if v = d.value then some id
      else if v < d.value then findAux s v fuel d.left
      else findAux s v fuel d.right

/-- `find(value)`: returns the id of the node holding `value`, if any. -/
def find (s : TreeState) (v : Int) : Option Nat :=
  findAux s v (s.nodeCounter + 1) s.root

/-- `has(value)`. -/
def has (s : TreeState) (v : Int) : Bool :=
  (find s v).isSome

/-- `reset()`: discard the structure and the id counter. -/
def reset (_s : TreeState) : TreeState := emptyTree

/-- `rotateLeft` line `x.right = y.left`. -/
def rotL1 (s : TreeState) (x y : Nat) : TreeState :=
  updNode s x (fun d => { d with right := leftOf s (some y) })

/-- `rotateLeft` line `if (y.left) { y.left.parent = x }`. -/
def rotL2 (s : TreeState) (x y : Nat) : TreeState :=
  match leftOf s (some y) with
  | some yl => updNode s yl (fun d => { d with parent := some x })
  | none => s

/-- `rotateLeft` line `y.parent = x.parent`. -/
def rotL3 (s : TreeState) (x y : Nat) : TreeState :=
  updNode s y (fun d => { d with parent := parentOf s (some x) })

/-- `rotateLeft` lines reattaching `y` under `x`'s old parent (or as the
root). -/
def rotL4 (s : TreeState) (x y : Nat) : TreeState :=
  match parentOf s (some x) with
  | none => { s with root := some y }
  | some p =>
    if leftOf s (some p) = some x
    then updNode s p (fun d => { d with left := some y })
    else updNode s p (fun d => { d with right := some y })

/-- `rotateLeft` line `y.left = x`. -/
def rotL5 (s : TreeState) (x y : Nat) : TreeState :=
  updNode s y (fun d => { d with left := some x })

/-- `rotateLeft` line `x.parent = y`. -/
def rotL6 (s : TreeState) (x y : Nat) : TreeState :=
  updNode s x (fun d => { d with parent := some y })

/-- `rotateLeft(x)`.  Each assignment of the source is one stage, and
every stage reads from the state current at the corresponding source
line (live reads), so the mutation order of the source is preserved
exactly. -/
def rotateLeft (s0 : TreeState) (x : Nat) : TreeState :=
  match (s0.nodes x).bind (fun d => d.right) with
  | none => s0
  | some y => rotL6 (rotL5 (rotL4 (rotL3 (rotL2 (rotL1 s0 x y) x y) x y) x y) x y) x y

/-- `rotateRight` line `x.left = y.right`. -/
def rotR1 (s : TreeState) (x y : Nat) : TreeState :=
  updNode s x (fun d => { d with left := rightOf s (some y) })

/-- `rotateRight` line `if (y.right) { y.right.parent = x }`. -/
def rotR2 (s : TreeState) (x y : Nat) : TreeState :=
  match rightOf s (some y) with
  | some yr => updNode s yr (fun d => { d with parent := some x })
  | none => s

/-- `rotateRight` line `y.parent = x.parent`. -/
def rotR3 (s : TreeState) (x y : Nat) : TreeState :=
  updNode s y (fun d => { d with parent := parentOf s (some x) })

/-- `rotateRight` lines reattaching `y` under `x`'s old parent (or as the
root). -/
def rotR4 (s : TreeState) (x y : Nat) : TreeState :=
  match parentOf s (some x) with
  | none => { s with root := some y }
  | some p =>
    if rightOf s (some p) = some x
    then updNode s p (fun d => { d with right := some y })
    else updNode s p (fun d => { d with left := some y })

/-- `rotateRight` line `y.right = x`. -/
def rotR5 (s : TreeState) (x y : Nat) : TreeState :=
  updNode s y (fun d => { d with right := some x })

/-- `rotateRight` line `x.parent = y`. -/
def rotR6 (s : TreeState) (x y : Nat) : TreeState :=
  updNode s x (fun d => { d with parent := some y })

/-- `rotateRight(x)`, the mirror image of `rotateLeft`. -/
def rotateRight (s0 : TreeState) (x : Nat) : TreeState :=
  match (s0.nodes x).bind (fun d => d.left) with
  | none => s0
  | some y => rotR6 (rotR5 (rotR4 (rotR3 (rotR2 (rotR1 s0 x y) x y) x y) x y) x y) x y

/-- `transplant(u, v)`: put `v` into `u`'s slot under `u`'s parent (or at
the root), and redirect `v`'s parent pointer. -/
def transplant (s : TreeState) (u : Nat) (v : Option Nat) : TreeState :=
  let uParent := parentOf s (some u)
  let s1 := match uParent with
    | none => { s with root := v }
    | some p =>
      if leftOf s (some p) = some u
      then updNode s p (fun d => { d with left := v })
      else updNode s p (fun d => { d with right := v })
  match v with
  | none => s1
  | some vid => updNode s1 vid (fun d => { d with parent := uParent })

/-- The descent loop of `minimum(node)`. -/
def minimumGo (s : TreeState) : Nat → Nat → Nat
  | 0, cur => cur
  | fuel + 1, cur =>
    match (s.nodes cur).bind (fun d => d.left) with
    | none => cur
    | some l => minimumGo s fuel l

/-- The red-uncle block of the `fixInsert` loop body, shared verbatim by
the two mirrored cases: blacken the parent and the uncle, redden the
grandparent, snapshot, and move `node` up to the grandparent. -/
def fiRecolor (s : TreeState) (r : RecState) (parent uncle grandParent : Nat)
    (pd ud : RBNodeData) : TreeState × RecState × Nat :=
  let s1 := updNode s parent (fun d => { d with color := NodeColor.black })
  let s2 := updNode s1 uncle (fun d => { d with color := NodeColor.black })
  let s3 := updNode s2 grandParent (fun d => { d with color := NodeColor.red })
  let r1 := recordStep s3 r
    ("부모(" ++ toString pd.value ++ ")와 삼촌(" ++ toString ud.value
      ++ ")이 빨강이므로 재색칠")
    [parent, uncle, grandParent]
  (s3, r1, grandParent)

/-- The black-uncle block of the `fixInsert` loop body when the parent is
the grandparent's left child: optional inner left rotation at the parent,
recoloring, and the right rotation at the grandparent. -/
def fiRotCaseL (s : TreeState) (r : RecState) (node parent grandParent : Nat)
    (pd gd : RBNodeData) : TreeState × RecState × Nat :=
  let step1 :=
    if pd.right = some node then
      let s1 := rotateLeft s parent
      let r1 := recordStep s1 r
        ("왼쪽 회전 (축: " ++ toString pd.value ++ ")")
        (compact [some parent, parentOf s1 (some parent)])
      (s1, r1, parent)
    else (s, r, node)
  let s2 := updNode step1.1 parent (fun d => { d with color := NodeColor.black })
  let s3 := updNode s2 grandParent (fun d => { d with color := NodeColor.red })
  let s4 := rotateRight s3 grandParent
  let r2 := recordStep s4 step1.2.1
    ("오른쪽 회전 (축: " ++ toString gd.value ++ ")")
    (compact [some parent, some grandParent, parentOf s4 (some parent)])
  (s4, r2, step1.2.2)

/-- The mirror of `fiRotCaseL`: the parent is the grandparent's right
child, so the optional inner rotation is a right rotation and the closing
rotation at the grandparent is a left rotation. -/
def fiRotCaseR (s : TreeState) (r : RecState) (node parent grandParent : Nat)
    (pd gd : RBNodeData) : TreeState × RecState × Nat :=
  let step1 :=
    if pd.left = some node then
      let s1 := rotateRight s parent
      let r1 := recordStep s1 r
        ("오른쪽 회전 (축: " ++ toString pd.value ++ ")")
        (compact [some parent, parentOf s1 (some parent)])
      (s1, r1, parent)
    else (s, r, node)
  let s2 := updNode step1.1 parent (fun d => { d with color := NodeColor.black })
  let s3 := updNode s2 grandParent (fun d => { d with color := NodeColor.red })
  let s4 := rotateLeft s3 grandParent
  let r2 := recordStep s4 step1.2.1
    ("왼쪽 회전 (축: " ++ toString gd.value ++ ")")
    (compact [some parent, some grandParent, parentOf s4 (some parent)])
  (s4, r2, step1.2.2)

/-- One iteration of the `fixInsert` `while` loop.  `Sum.inl` is loop exit
(the `while` condition failing, or the `if (!grandParent) break`);
`Sum.inr` carries the state and the `node` variable for the next test.
The loop body's blocks are the three functions above. -/
def fixInsertStep (s : TreeState) (r : RecState) (node : Nat) :
    (TreeState × RecState) ⊕ (TreeState × RecState × Nat) :=
  if s.root = some node then .inl (s, r) else
  match (s.nodes node).bind (fun d => d.parent) with
  | none => .inl (s, r)
  | some parent =>
    match s.nodes parent with
    | none => .inl (s, r)
    | some pd =>
      if pd.color ≠ NodeColor.red then .inl (s, r) else
      match pd.parent with
      | none => .inl (s, r)
      | some grandParent =>
        match s.nodes grandParent with
        | none => .inl (s, r)
        | some gd =>
          if gd.left = some parent then
            -- uncle = grandParent.right
            match gd.right with
            | some uncle =>
              match s.nodes uncle with
              | some ud =>
                if ud.color = NodeColor.red then
                  .inr (fiRecolor s r parent uncle grandParent pd ud)
                else
                  .inr (fiRotCaseL s r node parent grandParent pd gd)
              | none => .inr (fiRotCaseL s r node parent grandParent pd gd)
            | none => .inr (fiRotCaseL s r node parent grandParent pd gd)
          else
            -- mirrored: uncle = grandParent.left
            match gd.left with
            | some uncle =>
              match s.nodes uncle with
              | some ud =>
                if ud.color = NodeColor.red then
                  .inr (fiRecolor s r parent uncle grandParent pd ud)
                else
                  .inr (fiRotCaseR s r node parent grandParent pd gd)
              | none => .inr (fiRotCaseR s r node parent grandParent pd gd)
            | none => .inr (fiRotCaseR s r node parent grandParent pd gd)

/-- The `fixInsert` `while` loop, by fuel recursion over `fixInsertStep`. -/
def fixInsertGo : Nat → TreeState → RecState → Nat → TreeState × RecState
  | 0, s, r, _ => (s, r)
  | fuel + 1, s, r, node =>
    match fixInsertStep s r node with
    | .inl res => res
    | .inr (s', r', n') => fixInsertGo fuel s' r' n'

/-- The insertion-point descent of `insert` (`parent`/`current` loop). -/
def findParentGo (s : TreeState) (v : Int) : Nat → Option Nat → Option Nat → Option Nat
  | 0, parent, _ => parent
  | _, parent, none => parent
  | fuel + 1, _, some cur =>
    match s.nodes cur with
    | none => some cur
    | some d =>
      if v < d.value then findParentGo s v fuel (some cur) d.left
      else findParentGo s v fuel (some cur) d.right

/-- `insert(value)`: returns the mutated tree together with the
`OperationRecord` the method returns. -/
def insertOp (s0 : TreeState) (v : Int) : TreeState × OperationRecord :=
  let r0 : RecState := ⟨[], serializeTree s0⟩
  match find s0 v with
  | some existing =>
    let r1 := recordStep s0 r0 (toString v ++ " 이미 트리에 존재합니다.") [existing]
    (s0, ⟨toString v ++ " 삽입 취소", r1.snapshots⟩)
  | none =>
    let newId := s0.nodeCounter
    let s1 := { setNode s0 newId ⟨v, NodeColor.red, none, none, none⟩ with
      nodeCounter := s0.nodeCounter + 1 }
    let parent := findParentGo s1 v (s1.nodeCounter + 1) none s1.root
    let s2 := updNode s1 newId (fun d => { d with parent := parent })
    let attach : TreeState × RecState :=
      match parent with
      | none =>
        let s3 := { s2 with root := some newId }
        (s3, recordStep s3 r0 (toString v ++ "를 루트로 삽입") [newId])
      | some p =>
        match s2.nodes p with
        | none => (s2, r0)
        | some pd =>
          if v < pd.value then
            let s3 := updNode s2 p (fun d => { d with left := some newId })
            (s3, recordStep s3 r0
              (toString v ++ "를 " ++ toString pd.value ++ "의 왼쪽 자식으로 삽입")
              [newId, p])
          else
            let s3 := updNode s2 p (fun d => { d with right := some newId })
            (s3, recordStep s3 r0
              (toString v ++ "를 " ++ toString pd.value ++ "의 오른쪽 자식으로 삽입")
              [newId, p])
    let fixed := fixInsertGo (attach.1.nodeCounter + 1) attach.1 attach.2 newId
    match fixed.1.root with
    | some rt =>
      let s5 := updNode fixed.1 rt (fun d => { d with color := NodeColor.black })
      let r3 := recordStep s5 fixed.2 "루트를 검은색으로 유지" [rt]
      (s5, ⟨toString v ++ " 삽입", r3.snapshots⟩)
    | none => (fixed.1, ⟨toString v ++ " 삽입", fixed.2.snapshots⟩)

/-- The state of `insert` right after `new Node(value)`: the fresh record
in the arena and the bumped counter.  A component of the fresh-value
branch of `insertOp`, definitionally equal to its `s1`. -/
def insFreshState (s0 : TreeState) (v : Int) : TreeState :=
  { setNode s0 s0.nodeCounter ⟨v, NodeColor.red, none, none, none⟩ with
    nodeCounter := s0.nodeCounter + 1 }

/-- The `parent` variable of `insert` after the descent loop
(definitionally equal to the corresponding segment of `insertOp`). -/
def insParent (s0 : TreeState) (v : Int) : Option Nat :=
  findParentGo (insFreshState s0 v) v ((insFreshState s0 v).nodeCounter + 1)
    none (insFreshState s0 v).root

/-- The attachment segment of the fresh-value branch of `insert`: set the
new node's parent pointer, hook it into the tree (or make it the root),
and record the first snapshot.  Definitionally equal to the corresponding
segment of `insertOp`. -/
def insAttach (s0 : TreeState) (v : Int) : TreeState × RecState :=
  let r0 : RecState := ⟨[], serializeTree s0⟩
  let newId := s0.nodeCounter
  let s1 := insFreshState s0 v
  let parent := insParent s0 v
  let s2 := updNode s1 newId (fun d => { d with parent := parent })
  match parent with
  | none =>
    let s3 := { s2 with root := some newId }
    (s3, recordStep s3 r0 (toString v ++ "를 루트로 삽입") [newId])
  | some p =>
    match s2.nodes p with
    | none => (s2, r0)
    | some pd =>
      if v < pd.value then
        let s3 := updNode s2 p (fun d => { d with left := some newId })
        (s3, recordStep s3 r0
          (toString v ++ "를 " ++ toString pd.value ++ "의 왼쪽 자식으로 삽입")
          [newId, p])
      else
        let s3 := updNode s2 p (fun d => { d with right := some newId })
        (s3, recordStep s3 r0
          (toString v ++ "를 " ++ toString pd.value ++ "의 오른쪽 자식으로 삽입")
          [newId, p])

/-- The closing segment of `insert` after the fixup loop: blacken the
root (when there is one) and record the final snapshot.  Definitionally
equal to the corresponding segment of `insertOp`. -/
def insFinish (v : Int) (sr : TreeState × RecState) : TreeState × OperationRecord :=
  match sr.1.root with
  | some rt =>
    let s5 := updNode sr.1 rt (fun d => { d with color := NodeColor.black })
    let r3 := recordStep s5 sr.2 "루트를 검은색으로 유지" [rt]
    (s5, ⟨toString v ++ " 삽입", r3.snapshots⟩)
  | none => (sr.1, ⟨toString v ++ " 삽입", sr.2.snapshots⟩)

/-- `node.value` of a live node (defaulting on an arena miss, which the
source cannot reach); used only to build descriptions. -/
def valueOf (s : TreeState) (id : Nat) : Int :=
  ((s.nodes id).map (fun d => d.value)).getD 0

/-- The `if (sibling.color === 'red')` block of the `fixDelete` loop body,
shared by the two mirrored cases: `side` is `true` in the
current-is-left-child case (where it rotates left), `false` in the mirror
(where it rotates right). -/
def fdRedSibling (s : TreeState) (r : RecState) (curP : Option Nat) (sib0 : Nat)
    (side : Bool) : TreeState × RecState :=
  if colorOf s (some sib0) = some NodeColor.red then
    let s1 := updNode s sib0 (fun d => { d with color := NodeColor.black })
    match curP with
    | some cp =>
      let s2 := updNode s1 cp (fun d => { d with color := NodeColor.red })
      let r1 := recordStep s2 r
        (if side then "형제가 빨강이므로 왼쪽 회전 준비" else "형제가 빨강이므로 오른쪽 회전 준비")
        (compact [some cp, some sib0, leftOf s2 (some sib0), rightOf s2 (some sib0)])
      let s3 := if side then rotateLeft s2 cp else rotateRight s2 cp
      let r2 := recordStep s3 r1
        ((if side then "왼쪽 회전 (축: " else "오른쪽 회전 (축: ")
          ++ toString (valueOf s3 cp) ++ ")")
        (compact [some sib0, some cp, parentOf s3 (some cp),
          leftOf s3 (some sib0), rightOf s3 (some sib0)])
      (s3, r2)
    | none => (s1, r)
  else (s, r)

/-- The `isBlack(sibling.left) && isBlack(sibling.right)` block of the
`fixDelete` loop body: recolor the sibling red (when present), snapshot,
and move the focus up to the parent. -/
def fdBothBlack (s : TreeState) (r : RecState) (curP sib1 : Option Nat) :
    TreeState × RecState × Option Nat × Option Nat :=
  match sib1 with
  | some sb =>
    let s1 := updNode s sb (fun d => { d with color := NodeColor.red })
    let r1 := recordStep s1 r "형제와 그 자식이 모두 검정 -> 형제를 빨강으로"
      (compact [some sb, curP])
    (s1, r1, curP, parentOf s1 curP)
  | none => (s, r, curP, parentOf s curP)

/-- The far-child-is-black block of the `fixDelete` loop body (recolor the
near child and the sibling, rotate the sibling away, re-fetch the
sibling); `side` as in `fdRedSibling`.  When nothing needed doing the
sibling is returned unchanged. -/
def fdNearChild (s : TreeState) (r : RecState) (curP sib1 : Option Nat)
    (side : Bool) : TreeState × RecState × Option Nat :=
  if isBlackO s (if side then rightOf s sib1 else leftOf s sib1) then
    let s1 := match (if side then leftOf s sib1 else rightOf s sib1) with
      | some near => updNode s near (fun d => { d with color := NodeColor.black })
      | none => s
    match sib1 with
    | some sb =>
      let s2 := updNode s1 sb (fun d => { d with color := NodeColor.red })
      let r1 := recordStep s2 r
        (if side then "형제의 왼쪽 자식이 빨강 -> 오른쪽 회전" else "형제의 오른쪽 자식이 빨강 -> 왼쪽 회전")
        (compact [some sb, leftOf s2 (some sb), rightOf s2 (some sb)])
      let s3 := if side then rotateRight s2 sb else rotateLeft s2 sb
      (s3, r1, if side then rightOf s3 curP else leftOf s3 curP)
    | none => (s1, r, if side then rightOf s1 curP else leftOf s1 curP)
  else (s, r, sib1)

/-- The closing block of the `fixDelete` loop body: give the sibling the
parent color, blacken the far child and the parent, snapshot, rotate the
parent toward the sibling; `side` as in `fdRedSibling`. -/
def fdFarChild (s : TreeState) (r : RecState) (curP sib2 : Option Nat)
    (side : Bool) : TreeState × RecState :=
  let s1 := match sib2 with
    | some sb =>
      let sa := updNode s sb
        (fun d => { d with color := (colorOf s curP).getD NodeColor.black })
      match (if side then rightOf sa (some sb) else leftOf sa (some sb)) with
      | some far => updNode sa far (fun d => { d with color := NodeColor.black })
      | none => sa
    | none => s
  match curP with
  | some cp =>
    let s2 := updNode s1 cp (fun d => { d with color := NodeColor.black })
    let r1 := recordStep s2 r
      (if side then "형제의 오른쪽 자식이 빨강 -> 왼쪽 회전" else "형제의 왼쪽 자식이 빨강 -> 오른쪽 회전")
      (if side then compact [some cp, sib2, rightOf s2 sib2, leftOf s2 sib2]
        else compact [some cp, sib2, leftOf s2 sib2, rightOf s2 sib2])
    let s3 := if side then rotateLeft s2 cp else rotateRight s2 cp
    (s3, r1)
  | none => (s1, r)

/-- One iteration of the `fixDelete` `while` loop.  `Sum.inl` is the
`break` path and carries the final `current`; `Sum.inr` carries the new
`current`/`currentParent` for the next condition test.  The two mirrored
halves of the source's loop body are rendered through the `side` flag of
the four block functions above. -/
def fixDeleteStep (s : TreeState) (r : RecState) (cur curP : Option Nat) :
    (TreeState × RecState × Option Nat) ⊕ (TreeState × RecState × Option Nat × Option Nat) :=
  if cur = leftOf s curP then
    -- current === (currentParent?.left ?? null)
    match rightOf s curP with
    | none => .inr (s, r, curP, parentOf s curP)
    | some sib0 =>
      let a := fdRedSibling s r curP sib0 true
      let sib1 := rightOf a.1 curP
      if isBlackO a.1 (leftOf a.1 sib1) ∧ isBlackO a.1 (rightOf a.1 sib1) then
        .inr (fdBothBlack a.1 a.2 curP sib1)
      else
        let nc := fdNearChild a.1 a.2 curP sib1 true
        let fin := fdFarChild nc.1 nc.2.1 curP nc.2.2 true
        .inl (fin.1, fin.2, fin.1.root)
  else
    -- mirrored: current is the right child slot
    match leftOf s curP with
    | none => .inr (s, r, curP, parentOf s curP)
    | some sib0 =>
      let a := fdRedSibling s r curP sib0 false
      let sib1 := leftOf a.1 curP
      if isBlackO a.1 (rightOf a.1 sib1) ∧ isBlackO a.1 (leftOf a.1 sib1) then
        .inr (fdBothBlack a.1 a.2 curP sib1)
      else
        let nc := fdNearChild a.1 a.2 curP sib1 false
        let fin := fdFarChild nc.1 nc.2.1 curP nc.2.2 false
        .inl (fin.1, fin.2, fin.1.root)

/-- The `fixDelete` `while` loop by fuel recursion; returns the final
`current` alongside the state and the recorder. -/
def fixDeleteGo : Nat → TreeState → RecState → Option Nat → Option Nat →
    TreeState × RecState × Option Nat
  | 0, s, r, cur, _ => (s, r, cur)
  | fuel + 1, s, r, cur, curP =>
    if cur = s.root then (s, r, cur)
    else if isBlackO s cur then
      match fixDeleteStep s r cur curP with
      | .inl res => res
      | .inr (s', r', c', p') => fixDeleteGo fuel s' r' c' p'
    else (s, r, cur)

/-- `fixDelete(node, parent, record)`: run the loop, then force the final
`current` black with a closing snapshot when it is a node. -/
def fixDelete (s : TreeState) (r : RecState) (x xParent : Option Nat) :
    TreeState × RecState :=
  let res := fixDeleteGo (s.nodeCounter + 1) s r x xParent
  match res.2.2 with
  | none => (res.1, res.2.1)
  | some c =>
    let s' := updNode res.1 c (fun d => { d with color := NodeColor.black })
    (s', recordStep s' res.2.1 "마지막으로 검정색으로 설정" [c])

/-- The tail shared by all structural branches of `delete`: the
black-vacancy fixup, then the root-blackening (or empty-tree) snapshot. -/
def deleteFinish (s : TreeState) (r : RecState) (v : Int)
    (yOriginalColor : NodeColor) (x xParent : Option Nat) :
    TreeState × OperationRecord :=
  let fr := if yOriginalColor = NodeColor.black then fixDelete s r x xParent else (s, r)
  match fr.1.root with
  | some rt =>
    let s7 := updNode fr.1 rt (fun d => { d with color := NodeColor.black })
    let r7 := recordStep s7 fr.2 "루트를 검은색으로 유지" [rt]
    (s7, ⟨toString v ++ " 삭제", r7.snapshots⟩)
  | none =>
    let r7 := recordStep fr.1 fr.2 "트리가 비어 있습니다." []
    (fr.1, ⟨toString v ++ " 삭제", r7.snapshots⟩)

/-- `delete(value)`: returns the mutated tree together with the
`OperationRecord` the method returns. -/
def deleteOp (s0 : TreeState) (v : Int) : TreeState × OperationRecord :=
  let r0 : RecState := ⟨[], serializeTree s0⟩
  match find s0 v with
  | none =>
    let r1 := recordStep s0 r0 (toString v ++ " 값을 갖는 노드를 찾지 못했습니다.") []
    (s0, ⟨toString v ++ " 삭제 취소", r1.snapshots⟩)
  | some z =>
    let r1 := recordStep s0 r0 (toString v ++ " 노드를 삭제합니다.") [z]
    match s0.nodes z with
    | none => (s0, ⟨toString v ++ " 삭제", r1.snapshots⟩)
    | some zd =>
      match zd.left, zd.right with
      | none, _ =>
        -- x = z.right ; xParent = z.parent ; transplant(z, z.right)
        let s1 := transplant s0 z zd.right
        let r2 := recordStep s1 r1 (toString v ++ "의 오른쪽 자식으로 대체")
          (compact [some z, rightOf s1 (some z), parentOf s1 (some z)])
        deleteFinish s1 r2 v zd.color zd.right zd.parent
      | some _, none =>
        -- x = z.left ; xParent = z.parent ; transplant(z, z.left)
        let s1 := transplant s0 z zd.left
        let r2 := recordStep s1 r1 (toString v ++ "의 왼쪽 자식으로 대체")
          (compact [some z, leftOf s1 (some z), parentOf s1 (some z)])
        deleteFinish s1 r2 v zd.color zd.left zd.parent
      | some _, some zr =>
        -- y = minimum(z.right) ; yOriginalColor = y.color ; x = y.right
        let y := minimumGo s0 (s0.nodeCounter + 1) zr
        let yOriginalColor := ((s0.nodes y).map (fun d => d.color)).getD NodeColor.black
        let x := rightOf s0 (some y)
        let pulled : TreeState × RecState × Option Nat :=
          if parentOf s0 (some y) = some z then
            -- xParent = y ; if (x) x.parent = y
            let s1 := match x with
              | some xi => updNode s0 xi (fun d => { d with parent := some y })
              | none => s0
            (s1, r1, some y)
          else
            -- xParent = y.parent ; transplant(y, y.right) ; snapshot ;
            -- y.right = z.right ; if (y.right) y.right.parent = y
            let xP := parentOf s0 (some y)
            let s1 := transplant s0 y (rightOf s0 (some y))
            let r2 := recordStep s1 r1
              (toString (valueOf s1 y) ++ "를 오른쪽 서브트리에서 끌어올림")
              (compact [some y, rightOf s1 (some y), parentOf s1 (some y)])
            let s2 := updNode s1 y (fun d => { d with right := rightOf s1 (some z) })
            let s3 := match rightOf s2 (some y) with
              | some yr => updNode s2 yr (fun d => { d with parent := some y })
              | none => s2
            (s3, r2, xP)
        let sP := pulled.1
        let rP := pulled.2.1
        let xParent := pulled.2.2
        -- transplant(z, y) ; y.left = z.left ; y.left.parent = y ; y.color = z.color
        let s4 := transplant sP z (some y)
        let s5 := updNode s4 y (fun d => { d with left := leftOf s4 (some z) })
        let s6 := match leftOf s5 (some y) with
          | some yl => updNode s5 yl (fun d => { d with parent := some y })
          | none => s5
        let s7 := updNode s6 y
          (fun d => { d with color := (colorOf s6 (some z)).getD d.color })
        let r3 := recordStep s7 rP
          (toString v ++ " 대신 " ++ toString (valueOf s7 y) ++ "로 대체")
          (compact [some y, leftOf s7 (some y), rightOf s7 (some y)])
        deleteFinish s7 r3 v yOriginalColor x xParent

/-! #### Named components of the two-children `delete` branch

These definitions name the successive states of the `some _, some zr`
branch of `deleteOp`; each is definitionally equal to the corresponding
`let`-bound state of the branch body, giving the proofs stable handles. -/

/-- `y = this.minimum(z.right)` of the two-children branch. -/
def delY (s0 : TreeState) (zr : Nat) : Nat := minimumGo s0 (s0.nodeCounter + 1) zr

/-- The `if (x) x.parent = y` adjustment of the `y === z.right` case. -/
def delPullDirect (s0 : TreeState) (y : Nat) : TreeState :=
  match rightOf s0 (some y) with
  | some xi => updNode s0 xi (fun d => { d with parent := some y })
  | none => s0

/-- `transplant(y, y.right)` of the deep (`y !== z.right`) case. -/
def delPullDeep1 (s0 : TreeState) (y : Nat) : TreeState :=
  transplant s0 y (rightOf s0 (some y))

/-- The deep case after `y.right = z.right; if (y.right) y.right.parent = y`. -/
def delPullDeep (s0 : TreeState) (y z : Nat) : TreeState :=
  let s1 := delPullDeep1 s0 y
  let s2 := updNode s1 y (fun d => { d with right := rightOf s1 (some z) })
  match rightOf s2 (some y) with
  | some yr => updNode s2 yr (fun d => { d with parent := some y })
  | none => s2

/-- The `pulled` triple (state, recorder, `xParent`) of the branch body. -/
def delPulled (s0 : TreeState) (r1 : RecState) (z y : Nat) :
    TreeState × RecState × Option Nat :=
  if parentOf s0 (some y) = some z then
    (delPullDirect s0 y, r1, some y)
  else
    (delPullDeep s0 y z,
      recordStep (delPullDeep1 s0 y) r1
        (toString (valueOf (delPullDeep1 s0 y) y) ++ "를 오른쪽 서브트리에서 끌어올림")
        (compact [some y, rightOf (delPullDeep1 s0 y) (some y),
          parentOf (delPullDeep1 s0 y) (some y)]),
      parentOf s0 (some y))

/-- `transplant(z, y); y.left = z.left; y.left.parent = y; y.color = z.color`:
the shared substitution tail of the two-children branch. -/
def delSubst (sP : TreeState) (z y : Nat) : TreeState :=
  let s4 := transplant sP z (some y)
  let s5 := updNode s4 y (fun d => { d with left := leftOf s4 (some z) })
  let s6 := match leftOf s5 (some y) with
    | some yl => updNode s5 yl (fun d => { d with parent := some y })
    | none => s5
  updNode s6 y (fun d => { d with color := (colorOf s6 (some z)).getD d.color })

/-- The whole two-children branch of `deleteOp`, written with the named
components; definitionally equal to the branch body. -/
def delTwoFinish (s0 : TreeState) (r1 : RecState) (v : Int) (z zr : Nat) :
    TreeState × OperationRecord :=
  deleteFinish (delSubst (delPulled s0 r1 z (delY s0 zr)).1 z (delY s0 zr))
    (recordStep (delSubst (delPulled s0 r1 z (delY s0 zr)).1 z (delY s0 zr))
      (delPulled s0 r1 z (delY s0 zr)).2.1
      (toString v ++ " 대신 " ++
        toString (valueOf
          (delSubst (delPulled s0 r1 z (delY s0 zr)).1 z (delY s0 zr))
          (delY s0 zr)) ++ "로 대체")
      (compact [some (delY s0 zr),
        leftOf (delSubst (delPulled s0 r1 z (delY s0 zr)).1 z (delY s0 zr))
          (some (delY s0 zr)),
        rightOf (delSubst (delPulled s0 r1 z (delY s0 zr)).1 z (delY s0 zr))
          (some (delY s0 zr))]))
    v (((s0.nodes (delY s0 zr)).map (fun d => d.color)).getD NodeColor.black)
    (rightOf s0 (some (delY s0 zr)))
    (delPulled s0 r1 z (delY s0 zr)).2.2

/-! ### Derived notions used to state the claims

The tree extracted from the arena (following `left`/`right` from the root,
exactly the references `serializeTree` follows), its pre-order and in-order
flattenings, red-black validity, and operation sequences.  These are not
part of the source; they are the vocabulary the specification speaks in. -/

/-- A binary tree of export records, as extracted from the arena. -/
inductive ETree where
  | nil : ETree
  | node (nd : SerializedNode) (l r : ETree) : ETree
deriving DecidableEq, Repr

/-- Extract the subtree reachable from an optional id, mirroring the
child references `serializeTree` follows (fuel bounds the depth). -/
def extractT (s : TreeState) : Nat → Option Nat → ETree
  | 0, _ => .nil
  | _, none => .nil
  | fuel + 1, some id =>
    match s.nodes id with
    | none => .nil
    | some d =>
      .node ⟨id, d.value, d.color, d.parent, d.left, d.right⟩
        (extractT s fuel d.left) (extractT s fuel d.right)

/-- The tree extracted from the root with the same fuel `serializeTree`
uses. -/
def extractTree (s : TreeState) : ETree :=
  extractT s (s.nodeCounter + 1) s.root

/-- Pre-order flattening: self, left subtree, right subtree. -/
def preFlat : ETree → List SerializedNode
  | .nil => []
  | .node n l r => n :: (preFlat l ++ preFlat r)

/-- In-order flattening: left subtree, self, right subtree. -/
def inFlat : ETree → List SerializedNode
  | .nil => []
  | .node n l r => inFlat l ++ n :: inFlat r

/-- The in-order value sequence of the tree. -/
def inorderValues (s : TreeState) : List Int :=
  (inFlat (extractTree s)).map (fun n => n.value)

/-- The color of the root of an extracted subtree; an absent subtree
counts as black (invariant 2 of the specification). -/
def topColor : ETree → NodeColor
  | .nil => NodeColor.black
  | .node n _ _ => n.color

/-- Invariant 3: a red node never has a red child. -/
def noRedRed : ETree → Bool
  | .nil => true
  | .node n l r =>
    (n.color = NodeColor.black ∨
      (topColor l = NodeColor.black ∧ topColor r = NodeColor.black)) &&
    noRedRed l && noRedRed r

/-- Invariant 4: `some h` when every root-to-nil path below carries the
same number of black nodes (`h` counts the nil leaf), `none` otherwise. -/
def blackHeight : ETree → Option Nat
  | .nil => some 1
  | .node n l r =>
    match blackHeight l, blackHeight r with
    | some a, some b =>
      if a = b then some (a + (if n.color = NodeColor.black then 1 else 0))
      else none
    | _, _ => none

/-- The five red-black invariants of the specification on an extracted
tree.  Invariants 1 (every node is red or black) and 2 (absent children
count as black) are built into `NodeColor` and `topColor`; 3 is
`noRedRed`, 4 is `blackHeight ≠ none`, 5 is a black top. -/
def rbValid (t : ETree) : Bool :=
  noRedRed t && (blackHeight t).isSome && (topColor t = NodeColor.black)

/-- One public mutation request. -/
inductive TreeOp where
  | ins (v : Int) : TreeOp
  | del (v : Int) : TreeOp
deriving DecidableEq, Repr

/-- Run one operation, keeping the mutated tree. -/
def applyOp (s : TreeState) : TreeOp → TreeState
  | .ins v => (insertOp s v).1
  | .del v => (deleteOp s v).1

/-- Run a sequence of operations from a state. -/
def applyOps (s : TreeState) (ops : List TreeOp) : TreeState :=
  ops.foldl applyOp s

/-- Run a sequence of operations from the empty tree and collect every
snapshot of every operation record, in order. -/
def traceSnapshots (ops : List TreeOp) : List TreeSnapshot :=
  (ops.foldl
    (fun acc op =>
      match op with
      | .ins v =>
        let res := insertOp acc.1 v
        (res.1, acc.2 ++ res.2.snapshots)
      | .del v =>
        let res := deleteOp acc.1 v
        (res.1, acc.2 ++ res.2.snapshots))
    (emptyTree, [])).2

/-- The in-order requirement of claim C4, specialised to the direct left
child: a record's `leftId` may only name a record that appears strictly
earlier in the export list.  (A direct left child is part of the left
subtree, so the claimed in-order layout implies this.) -/
def leftChildBefore (l : List SerializedNode) : Prop :=
  ∀ i j : Fin l.length, (l.get i).leftId = some ((l.get j).id) → (j : Nat) < (i : Nat)

instance (l : List SerializedNode) : Decidable (leftChildBefore l) := by
  unfold leftChildBefore; infer_instance

/-- The invariant carried through one operation's record chain: either
nothing was recorded yet and `previousNodes` is still the serialization
taken at the start of the operation, or the first recorded snapshot was
diffed against exactly that serialization. -/
def firstDiffInv (base : List SerializedNode) (r : RecState) : Prop :=
  (r.snapshots = [] ∧ r.previousNodes = base) ∨
  ((∀ sn ∈ r.snapshots.take 1, sn.changes = diffSnapshots base sn.nodes) ∧
    r.snapshots ≠ [])

/-- The recorder component of a `fixInsertStep` result. -/
def stepRecI : (TreeState × RecState) ⊕ (TreeState × RecState × Nat) → RecState
  | .inl x => x.2
  | .inr x => x.2.1

/-- The recorder component of a `fixDeleteStep` result. -/
def stepRecD : (TreeState × RecState × Option Nat) ⊕
    (TreeState × RecState × Option Nat × Option Nat) → RecState
  | .inl x => x.2.1
  | .inr x => x.2.1

/-- Sample previous-snapshot node list exercising every diff category. -/
def diffSamplePrev : List SerializedNode :=
  [⟨0, 5, NodeColor.red, none, none, none⟩, ⟨1, 6, NodeColor.red, none, none, none⟩]

/-- Sample current-snapshot node list exercising every diff category. -/
def diffSampleCur : List SerializedNode :=
  [⟨0, 5, NodeColor.black, some 9, none, none⟩, ⟨2, 7, NodeColor.red, none, none, none⟩]

/-- The tree built by `insert 10; insert 20; insert 30` (scenario 2). -/
def chain3 : TreeState :=
  (insertOp (insertOp (insertOp emptyTree 10).1 20).1 30).1

/-- The tree built by inserting 10, 5, 15, 3, 7 (scenario 4). -/
def scenario4Tree : TreeState :=
  (insertOp (insertOp (insertOp (insertOp (insertOp emptyTree 10).1 5).1 15).1 3).1 7).1

/-- The shape of the node graph: a binary tree of node ids.  Colors and
values are irrelevant to the structural snapshot invariants. -/
inductive STree where
  | leaf : STree
  | node (id : Nat) (l r : STree) : STree
deriving DecidableEq, Repr

/-- Pre-order id list of a shape tree. -/
def treeIds : STree → List Nat
  | .leaf => []
  | .node i l r => i :: (treeIds l ++ treeIds r)

/-- The id at the top of a shape tree, if any. -/
def topId : STree → Option Nat
  | .leaf => none
  | .node i _ _ => some i

/-- Height of a shape tree. -/
def sHeight : STree → Nat
  | .leaf => 0
  | .node _ l r => max (sHeight l) (sHeight r) + 1

/-- `Repr s par oid t`: starting at the optional id `oid`, the arena of `s`
reads back exactly the shape tree `t`, every node's stored parent pointer
agreeing with its structural parent `par`. -/
inductive ReprT (s : TreeState) : Option Nat → Option Nat → STree → Prop where
  | leaf (par : Option Nat) : ReprT s par none .leaf
  | node (par : Option Nat) (id : Nat) (d : RBNodeData) (tl tr : STree) :
      s.nodes id = some d → d.parent = par →
      ReprT s (some id) d.left tl → ReprT s (some id) d.right tr →
      ReprT s par (some id) (.node id tl tr)

/-- Structural well-formedness of a tree state: the arena reads back as a
shape tree from the root, with pairwise distinct ids all below the id
counter. -/
def WFs (s : TreeState) : Prop :=
  ∃ t : STree, ReprT s none s.root t ∧ (treeIds t).Nodup ∧
    ∀ i ∈ treeIds t, i < s.nodeCounter

/-- The structural snapshot invariants of claim C10 on an export list:
pairwise distinct ids; every child id named by a record resolves to a
record of the same list whose parent pointer points back; and a non-empty
list has exactly one root record (null `parentId`). -/
def exportOk (l : List SerializedNode) : Prop :=
  (l.map (fun n => n.id)).Nodup ∧
  (∀ n ∈ l, ∀ c : Nat, (n.leftId = some c ∨ n.rightId = some c) →
    ∃ m ∈ l, m.id = c ∧ m.parentId = some n.id) ∧
  (l ≠ [] → (l.filter (fun n => n.parentId = none)).length = 1)

/-- The export list determined by a shape tree (pre-order, fields read
from the arena). -/
def sExp (s : TreeState) : STree → List SerializedNode
  | .leaf => []
  | .node i l r =>
    (match s.nodes i with
     | some d => [⟨i, d.value, d.color, d.parent, d.left, d.right⟩]
     | none => []) ++ (sExp s l ++ sExp s r)

/-- `rotateLeft` on the shape tree: rewrite at the (unique) node `x`. -/
def rotAtL : STree → Nat → STree
  | .leaf, _ => .leaf
  | .node n l r, x =>
    if n = x then
      match r with
      | .node y b c => .node y (.node x l b) c
      | .leaf => .node n l r
    else .node n (rotAtL l x) (rotAtL r x)

/-- `rotateRight` on the shape tree: rewrite at the (unique) node `x`. -/
def rotAtR : STree → Nat → STree
  | .leaf, _ => .leaf
  | .node n l r, x =>
    if n = x then
      match l with
      | .node y b c => .node y b (.node x c r)
      | .leaf => .node n l r
    else .node n (rotAtR l x) (rotAtR r x)

/-- Splice out the (unique) node `z` that has at most one child: its only
subtree takes its place. -/
def spliceAt : STree → Nat → STree
  | .leaf, _ => .leaf
  | .node n l r, z =>
    if n = z then
      match l, r with
      | .leaf, rr => rr
      | ll, .leaf => ll
      | ll, rr => .node n ll rr
    else .node n (spliceAt l z) (spliceAt r z)

/-- Substitute the (unique) node `z` by the id `y`, keeping both
subtrees in place. -/
def substAt : STree → Nat → Nat → STree
  | .leaf, _, _ => .leaf
  | .node n l r, z, y =>
    if n = z then .node y l r
    else .node n (substAt l z y) (substAt r z y)

/-- Attach a fresh leaf node `c` as the left child of the (unique) node
`p`: the shape-tree effect of the left-attachment branch of `insert`. -/
def graftL : STree → Nat → Nat → STree
  | .leaf, _, _ => .leaf
  | .node n l r, p, c =>
    if n = p then .node n (.node c .leaf .leaf) r
    else .node n (graftL l p c) (graftL r p c)

/-- Attach a fresh leaf node `c` as the right child of the (unique) node
`p`: the shape-tree effect of the right-attachment branch of `insert`. -/
def graftR : STree → Nat → Nat → STree
  | .leaf, _, _ => .leaf
  | .node n l r, p, c =>
    if n = p then .node n l (.node c .leaf .leaf)
    else .node n (graftR l p c) (graftR r p c)

/-- `WFs` with the witnessing shape tree exposed: the arena reads back
from the root as `t`, with pairwise distinct ids all below the counter. -/
def WFt (s : TreeState) (t : STree) : Prop :=
  ReprT s none s.root t ∧ (treeIds t).Nodup ∧ ∀ i ∈ treeIds t, i < s.nodeCounter

/-- An optional id that, when present, names a node of the shape tree
(the loop variables of `fixDelete` range over these). -/
def inT (o : Option Nat) (t : STree) : Prop :=
  ∀ c, o = some c → c ∈ treeIds t

/-- The recorder invariant of claim C10: every snapshot recorded so far
has a structurally well-formed export list. -/
def snapsOk (r : RecState) : Prop :=
  ∀ sn ∈ r.snapshots, exportOk sn.nodes

/-- The tree holding the single value 10 (used as a witness input). -/
def singleTen : TreeState := (insertOp emptyTree 10).1

/-- The first snapshot of `insert 20` on `singleTen` (with a vacuous
default for `getD`). -/
def c3FirstSnap : TreeSnapshot :=
  ((insertOp singleTen 20).2.snapshots.getD 0 ⟨0, "", [], [], ⟨[], [], [], []⟩⟩)

end RBViz

/-! ### General lemmas -/

namespace RBViz

theorem serializeAux_eq_preFlat (s : TreeState) :
    ∀ (fuel : Nat) (start : Option Nat),
      serializeAux s fuel start = preFlat (extractT s fuel start) := by
  intro fuel
  induction fuel with
  | zero => intro start; cases start <;> rfl
  | succ k ih =>
    intro start
    cases start with
    | none => rfl
    | some id =>
      cases hd : s.nodes id with
      | none => simp [serializeAux, extractT, hd, preFlat]
      | some d => simp [serializeAux, extractT, hd, preFlat, ih]

theorem findAux_mem_serializeAux (s : TreeState) (v : Int) :
    ∀ (fuel : Nat) (start : Option Nat) (nid : Nat),
      findAux s v fuel start = some nid →
      ∃ n ∈ serializeAux s fuel start, n.id = nid := by
  intro fuel
  induction fuel with
  | zero => intro start nid h; simp [findAux] at h
  | succ k ih =>
    intro start nid h
    cases start with
    | none => simp [findAux] at h
    | some id =>
      cases hd : s.nodes id with
      | none => simp [findAux, hd] at h
      | some d =>
        simp only [findAux, hd] at h
        simp only [serializeAux, hd]
        by_cases hv : v = d.value
        · rw [if_pos hv] at h
          cases h
          exact ⟨_, List.mem_cons_self _ _, rfl⟩
        · rw [if_neg hv] at h
          by_cases hlt : v < d.value
          · rw [if_pos hlt] at h
            obtain ⟨n, hn, hid⟩ := ih d.left nid h
            exact ⟨n, List.mem_cons_of_mem _ (List.mem_append_left _ hn), hid⟩
          · rw [if_neg hlt] at h
            obtain ⟨n, hn, hid⟩ := ih d.right nid h
            exact ⟨n, List.mem_cons_of_mem _ (List.mem_append_right _ hn), hid⟩

theorem lookupById_eq_none_iff {l : List SerializedNode} {i : Nat} :
    lookupById l i = none ↔ ∀ n ∈ l, n.id ≠ i := by
  simp [lookupById, List.find?_eq_none, List.mem_reverse]

theorem lookupById_some {l : List SerializedNode} {i : Nat} {p : SerializedNode}
    (h : lookupById l i = some p) : p ∈ l ∧ p.id = i := by
  refine ⟨List.mem_reverse.mp (List.mem_of_find?_eq_some h), ?_⟩
  have := List.find?_some h
  simpa using this

theorem firstDiffInv_empty (base : List SerializedNode) :
    firstDiffInv base ⟨[], base⟩ :=
  Or.inl ⟨rfl, rfl⟩

theorem firstDiffInv_recordStep {base : List SerializedNode} {r : RecState}
    (s : TreeState) (d : String) (h : List Nat) (hr : firstDiffInv base r) :
    firstDiffInv base (recordStep s r d h) := by
  rcases hr with ⟨h1, h2⟩ | ⟨h1, h2⟩
  · right
    refine ⟨?_, by simp [recordStep]⟩
    intro sn hsn
    simp only [recordStep, h1, h2, List.nil_append, List.take_succ_cons,
      List.take_zero, List.mem_singleton] at hsn
    subst hsn
    rfl
  · right
    refine ⟨?_, by simp [recordStep]⟩
    intro sn hsn
    apply h1
    have hlen : 1 ≤ r.snapshots.length := by
      cases hh : r.snapshots with
      | nil => exact absurd hh h2
      | cons a t => simp [hh]
    rw [recordStep] at hsn
    simp only at hsn
    rw [List.take_append_of_le_length hlen] at hsn
    exact hsn

theorem firstDiffInv_take1 {base : List SerializedNode} {r : RecState}
    (hr : firstDiffInv base r) :
    ∀ sn ∈ r.snapshots.take 1, sn.changes = diffSnapshots base sn.nodes := by
  rcases hr with ⟨h1, _⟩ | ⟨h1, _⟩
  · intro sn hsn
    rw [h1] at hsn
    simp at hsn
  · exact h1

theorem firstDiffInv_fiRecolor {base : List SerializedNode}
    (s : TreeState) (r : RecState) (p u g : Nat) (pd ud : RBNodeData)
    (hr : firstDiffInv base r) :
    firstDiffInv base (fiRecolor s r p u g pd ud).2.1 := by
  unfold fiRecolor
  solve_by_elim [firstDiffInv_recordStep]

theorem firstDiffInv_fiRotCaseL {base : List SerializedNode}
    (s : TreeState) (r : RecState) (n p g : Nat) (pd gd : RBNodeData)
    (hr : firstDiffInv base r) :
    firstDiffInv base (fiRotCaseL s r n p g pd gd).2.1 := by
  unfold fiRotCaseL
  repeat' split
  all_goals try dsimp only
  all_goals solve_by_elim [firstDiffInv_recordStep]

theorem firstDiffInv_fiRotCaseR {base : List SerializedNode}
    (s : TreeState) (r : RecState) (n p g : Nat) (pd gd : RBNodeData)
    (hr : firstDiffInv base r) :
    firstDiffInv base (fiRotCaseR s r n p g pd gd).2.1 := by
  unfold fiRotCaseR
  repeat' split
  all_goals try dsimp only
  all_goals solve_by_elim [firstDiffInv_recordStep]

theorem firstDiffInv_fixInsertStep {base : List SerializedNode}
    (s : TreeState) (r : RecState) (n : Nat) (hr : firstDiffInv base r) :
    firstDiffInv base (stepRecI (fixInsertStep s r n)) := by
  unfold fixInsertStep
  repeat' split
  all_goals simp only [stepRecI]
  all_goals first
    | exact hr
    | (with_reducible exact firstDiffInv_fiRecolor _ _ _ _ _ _ _ hr)
    | (with_reducible exact firstDiffInv_fiRotCaseL _ _ _ _ _ _ _ hr)
    | (with_reducible exact firstDiffInv_fiRotCaseR _ _ _ _ _ _ _ hr)

theorem firstDiffInv_fixInsertGo {base : List SerializedNode} :
    ∀ (fuel : Nat) (s : TreeState) (r : RecState) (n : Nat),
      firstDiffInv base r → firstDiffInv base (fixInsertGo fuel s r n).2 := by
  intro fuel
  induction fuel with
  | zero => intro s r n hr; exact hr
  | succ k ih =>
    intro s r n hr
    rw [fixInsertGo]
    cases hstep : fixInsertStep s r n with
    | inl res =>
      have := firstDiffInv_fixInsertStep s r n hr
      rw [hstep] at this
      exact this
    | inr res =>
      have := firstDiffInv_fixInsertStep s r n hr
      rw [hstep] at this
      exact ih res.1 res.2.1 res.2.2 this

theorem firstDiffInv_fdRedSibling {base : List SerializedNode}
    (s : TreeState) (r : RecState) (curP : Option Nat) (sib0 : Nat) (side : Bool)
    (hr : firstDiffInv base r) :
    firstDiffInv base (fdRedSibling s r curP sib0 side).2 := by
  unfold fdRedSibling
  repeat' split
  all_goals try dsimp only
  all_goals solve_by_elim [firstDiffInv_recordStep]

theorem firstDiffInv_fdBothBlack {base : List SerializedNode}
    (s : TreeState) (r : RecState) (curP sib1 : Option Nat)
    (hr : firstDiffInv base r) :
    firstDiffInv base (fdBothBlack s r curP sib1).2.1 := by
  unfold fdBothBlack
  repeat' split
  all_goals try dsimp only
  all_goals solve_by_elim [firstDiffInv_recordStep]

theorem firstDiffInv_fdNearChild {base : List SerializedNode}
    (s : TreeState) (r : RecState) (curP sib1 : Option Nat) (side : Bool)
    (hr : firstDiffInv base r) :
    firstDiffInv base (fdNearChild s r curP sib1 side).2.1 := by
  unfold fdNearChild
  repeat' split
  all_goals try dsimp only
  all_goals solve_by_elim [firstDiffInv_recordStep]

theorem firstDiffInv_fdFarChild {base : List SerializedNode}
    (s : TreeState) (r : RecState) (curP sib2 : Option Nat) (side : Bool)
    (hr : firstDiffInv base r) :
    firstDiffInv base (fdFarChild s r curP sib2 side).2 := by
  unfold fdFarChild
  repeat' split
  all_goals try dsimp only
  all_goals solve_by_elim [firstDiffInv_recordStep]

theorem firstDiffInv_fixDeleteStep {base : List SerializedNode}
    (s : TreeState) (r : RecState) (cur curP : Option Nat) (hr : firstDiffInv base r) :
    firstDiffInv base (stepRecD (fixDeleteStep s r cur curP)) := by
  unfold fixDeleteStep
  repeat' split
  all_goals try dsimp only [stepRecD]
  all_goals try repeat' split
  all_goals try (rename_i heq; split at heq <;> cases heq)
  all_goals try dsimp only
  all_goals solve_by_elim [firstDiffInv_recordStep, firstDiffInv_fdRedSibling,
    firstDiffInv_fdBothBlack, firstDiffInv_fdNearChild, firstDiffInv_fdFarChild]

theorem firstDiffInv_fixDeleteGo {base : List SerializedNode} :
    ∀ (fuel : Nat) (s : TreeState) (r : RecState) (cur curP : Option Nat),
      firstDiffInv base r → firstDiffInv base (fixDeleteGo fuel s r cur curP).2.1 := by
  intro fuel
  induction fuel with
  | zero => intro s r cur curP hr; exact hr
  | succ k ih =>
    intro s r cur curP hr
    rw [fixDeleteGo]
    by_cases h1 : cur = s.root
    · simp only [if_pos h1]; exact hr
    · simp only [if_neg h1]
      by_cases h2 : isBlackO s cur
      · simp only [if_pos h2]
        cases hstep : fixDeleteStep s r cur curP with
        | inl res =>
          have := firstDiffInv_fixDeleteStep s r cur curP hr
          rw [hstep] at this
          exact this
        | inr res =>
          have := firstDiffInv_fixDeleteStep s r cur curP hr
          rw [hstep] at this
          exact ih res.1 res.2.1 res.2.2.1 res.2.2.2 this
      · simp only [if_neg h2]; exact hr

theorem firstDiffInv_fixDelete {base : List SerializedNode}
    (s : TreeState) (r : RecState) (x xP : Option Nat) (hr : firstDiffInv base r) :
    firstDiffInv base (fixDelete s r x xP).2 := by
  unfold fixDelete
  dsimp only
  split
  · exact firstDiffInv_fixDeleteGo _ _ _ _ _ hr
  · exact firstDiffInv_recordStep _ _ _ (firstDiffInv_fixDeleteGo _ _ _ _ _ hr)

theorem firstDiffInv_deleteFinish {base : List SerializedNode}
    (s : TreeState) (r : RecState) (v : Int) (c : NodeColor) (x xP : Option Nat)
    (hr : firstDiffInv base r) :
    ∀ sn ∈ (deleteFinish s r v c x xP).2.snapshots.take 1,
      sn.changes = diffSnapshots base sn.nodes := by
  unfold deleteFinish
  dsimp only
  repeat' split
  all_goals try dsimp only
  all_goals
    refine firstDiffInv_take1 ?_
    solve_by_elim [firstDiffInv_recordStep, firstDiffInv_fixDelete]

end RBViz

/-! ### Claim theorems -/

namespace RBViz

/-- Claim C2, counterexample: `insert(10)` on an empty tree does NOT return
exactly one snapshot — the attachment snapshot is followed by the
unconditional root-blackening snapshot, so there are two. -/
theorem c2_counterexample :
    ¬ ((insertOp emptyTree 10).2.snapshots.length = 1) := by decide

/-- Claim C2 (amended): `insert(10)` on an empty tree returns exactly two
snapshots: the attachment snapshot, whose single exported node has value
10 and color red, and the closing root-blackening snapshot, whose single
exported node has value 10 and color black. -/
theorem c2_amended :
    (insertOp emptyTree 10).2.snapshots.map (fun sn => sn.nodes) =
      [[⟨0, 10, NodeColor.red, none, none, none⟩],
       [⟨0, 10, NodeColor.black, none, none, none⟩]] ∧
    (insertOp emptyTree 10).2.label = "10 삽입" := by decide

/-- Claim C3, counterexample: inserting 20 into the tree that already
holds 10, the very first snapshot of the operation is not diffed against
the empty node set: node 0 is exported but not in `added`, and `moved` is
not empty (node 0 gained a right child relative to the pre-operation
serialization the diff was actually taken against). -/
theorem c3_counterexample :
    ¬ (∀ sn ∈ ((insertOp singleTen 20).2.snapshots.take 1),
        (∀ n ∈ sn.nodes, ∃ e ∈ sn.changes.added, e.1 = n.id) ∧
        sn.changes.removed = [] ∧ sn.changes.recolored = [] ∧
        sn.changes.moved = []) := by decide

/-- Claim C3 (amended): for every operation (insert or delete), the diff
attached to the very first snapshot of the operation is computed against
the serialization of the tree taken at the start of the operation (which
is the empty node set only when the tree was empty). -/
theorem c3_first_snapshot_diff (s : TreeState) (v : Int) :
    (∀ sn ∈ (insertOp s v).2.snapshots.take 1,
      sn.changes = diffSnapshots (serializeTree s) sn.nodes) ∧
    (∀ sn ∈ (deleteOp s v).2.snapshots.take 1,
      sn.changes = diffSnapshots (serializeTree s) sn.nodes) := by
  constructor
  · unfold insertOp
    dsimp only
    repeat' split
    all_goals try dsimp only
    all_goals
      refine firstDiffInv_take1 ?_
      solve_by_elim [firstDiffInv_recordStep, firstDiffInv_fixInsertGo, firstDiffInv_empty]
  · unfold deleteOp
    dsimp only
    repeat' split
    all_goals try dsimp only
    all_goals
      first
        | (refine firstDiffInv_take1 ?_
           solve_by_elim [firstDiffInv_recordStep, firstDiffInv_empty])
        | (refine firstDiffInv_deleteFinish _ _ _ _ _ _ ?_
           solve_by_elim [firstDiffInv_recordStep, firstDiffInv_empty])

/-- Claim C3, witness: the amended theorem applied to the concrete
operation `insert 20` on the tree holding 10. -/
theorem c3_witness :
    c3FirstSnap ∈ (insertOp singleTen 20).2.snapshots.take 1 ∧
    c3FirstSnap.changes = diffSnapshots (serializeTree singleTen) c3FirstSnap.nodes :=
  ⟨by decide, (c3_first_snapshot_diff singleTen 20).1 c3FirstSnap (by decide)⟩

/-- Claim C4, counterexample: the serializer is not in-order.  In the tree
built by inserting 10, 20, 30 the export list is [20, 10, 30]: the root's
left child (the node holding 10, part of its left subtree) appears after
it, refuting even the direct-left-child consequence of the claim. -/
theorem c4_counterexample : ¬ leftChildBefore (serializeTree chain3) := by decide

/-- Claim C4 (amended): for every tree state the serializer exports the
node records in pre-order: each node first, then its whole left subtree,
then its whole right subtree (the flattening of the extracted tree). -/
theorem c4_serializer_preorder (s : TreeState) :
    serializeTree s = preFlat (extractTree s) :=
  serializeAux_eq_preFlat s (s.nodeCounter + 1) s.root

/-- Claim C5: inserting a value already present leaves the tree state
completely unchanged and returns a single-snapshot record whose label
marks the insertion as cancelled and whose snapshot highlights exactly
the existing node holding that value. -/
theorem c5_insert_present_noop (s : TreeState) (v : Int) (nid : Nat)
    (h : find s v = some nid) :
    (insertOp s v).1 = s ∧
    (insertOp s v).2.label = toString v ++ " 삽입 취소" ∧
    ∃ sn, (insertOp s v).2.snapshots = [sn] ∧ sn.highlightNodeIds = [nid] := by
  obtain ⟨n, hn, hid⟩ := findAux_mem_serializeAux s v _ _ _ h
  have hany : ((serializeTree s).any fun m => m.id = nid) = true :=
    List.any_eq_true.mpr ⟨n, hn, by simp [hid]⟩
  unfold insertOp
  rw [h]
  refine ⟨rfl, rfl, ⟨_, rfl, ?_⟩⟩
  simp [recordStep, serializeTree] at hany ⊢
  exact hany

/-- Claim C5, witness: inserting 10 into the tree that already holds 10
(as node 0). -/
theorem c5_witness :
    find singleTen 10 = some 0 ∧
    ((insertOp singleTen 10).1 = singleTen ∧
     (insertOp singleTen 10).2.label = toString (10 : Int) ++ " 삽입 취소" ∧
     ∃ sn, (insertOp singleTen 10).2.snapshots = [sn] ∧ sn.highlightNodeIds = [0]) :=
  ⟨by decide, c5_insert_present_noop singleTen 10 0 (by decide)⟩

/-- Claim C6: deleting an absent value leaves the tree state (hence its
in-order value sequence) unchanged and returns a single informational
snapshot under a label marking the deletion as cancelled. -/
theorem c6_delete_absent_noop (s : TreeState) (v : Int) (h : find s v = none) :
    (deleteOp s v).1 = s ∧
    inorderValues (deleteOp s v).1 = inorderValues s ∧
    (deleteOp s v).2.label = toString v ++ " 삭제 취소" ∧
    ∃ sn, (deleteOp s v).2.snapshots = [sn] ∧
      sn.description = toString v ++ " 값을 갖는 노드를 찾지 못했습니다." ∧
      sn.highlightNodeIds = [] := by
  unfold deleteOp
  rw [h]
  exact ⟨rfl, rfl, rfl, ⟨_, rfl, rfl, rfl⟩⟩

/-- Claim C6, witness: deleting 99 from the tree holding only 10. -/
theorem c6_witness :
    find singleTen 99 = none ∧
    ((deleteOp singleTen 99).1 = singleTen ∧
     inorderValues (deleteOp singleTen 99).1 = inorderValues singleTen ∧
     (deleteOp singleTen 99).2.label = toString (99 : Int) ++ " 삭제 취소" ∧
     ∃ sn, (deleteOp singleTen 99).2.snapshots = [sn] ∧
       sn.description = toString (99 : Int) ++ " 값을 갖는 노드를 찾지 못했습니다." ∧
       sn.highlightNodeIds = []) :=
  ⟨by decide, c6_delete_absent_noop singleTen 99 (by decide)⟩

/-- Claim C7: soundness of the diff engine.  Every `added` id occurs in
the current list and not in the previous one; every `removed` id occurs
in the previous list and not in the current one; every `recolored` and
`moved` id occurs in both, with a differing color respectively a
differing relation; and a node with both a color change and a relation
change lands in both `recolored` and `moved`. -/
theorem c7_diff_sound (previous current : List SerializedNode) :
    (∀ e ∈ (diffSnapshots previous current).added,
      (∃ n ∈ current, n.id = e.1) ∧ ∀ n ∈ previous, n.id ≠ e.1) ∧
    (∀ e ∈ (diffSnapshots previous current).removed,
      (∃ n ∈ previous, n.id = e.1) ∧ ∀ n ∈ current, n.id ≠ e.1) ∧
    (∀ e ∈ (diffSnapshots previous current).recolored,
      ∃ p ∈ previous, ∃ c ∈ current, p.id = e.id ∧ c.id = e.id ∧ p.color ≠ c.color) ∧
    (∀ e ∈ (diffSnapshots previous current).moved,
      ∃ p ∈ previous, ∃ c ∈ current, p.id = e.1 ∧ c.id = e.1 ∧
        (p.parentId ≠ c.parentId ∨ p.leftId ≠ c.leftId ∨ p.rightId ≠ c.rightId)) ∧
    (∀ c' p', c' ∈ current → lookupById previous c'.id = some p' →
      p'.color ≠ c'.color →
      ¬(p'.parentId = c'.parentId ∧ p'.leftId = c'.leftId ∧ p'.rightId = c'.rightId) →
      c'.id ∈ (diffSnapshots previous current).recolored.map RecoloredEntry.id ∧
      c'.id ∈ (diffSnapshots previous current).moved.map Prod.fst) := by
  refine ⟨?_, ?_, ?_, ?_, ?_⟩
  · intro e he
    simp only [diffSnapshots, List.mem_map, List.mem_filter] at he
    obtain ⟨n, ⟨hcur, hpred⟩, rfl⟩ := he
    have hnone : lookupById previous n.id = none := by simpa using hpred
    exact ⟨⟨n, hcur, rfl⟩, fun m hm => lookupById_eq_none_iff.mp hnone m hm⟩
  · intro e he
    simp only [diffSnapshots, List.mem_map, List.mem_filter] at he
    obtain ⟨n, ⟨hprev, hpred⟩, rfl⟩ := he
    refine ⟨⟨n, hprev, rfl⟩, fun m hm => ?_⟩
    have hno : ¬ (current.any fun c => c.id = n.id) = true := by simpa using hpred
    simp only [List.any_eq_true, not_exists] at hno
    intro hmid
    exact absurd (by simpa [hmid] using hno m) (by simp [hm])
  · intro e he
    simp only [diffSnapshots, List.mem_filterMap] at he
    obtain ⟨c, hc, hgc⟩ := he
    split at hgc
    · simp at hgc
    · rename_i p hl
      split at hgc
      · simp at hgc
      · rename_i hcol
        obtain ⟨hp, hpid⟩ := lookupById_some hl
        cases hgc
        exact ⟨p, hp, c, hc, hpid, rfl, hcol⟩
  · intro e he
    simp only [diffSnapshots, List.mem_filterMap] at he
    obtain ⟨c, hc, hgc⟩ := he
    split at hgc
    · simp at hgc
    · rename_i p hl
      split at hgc
      · simp at hgc
      · rename_i hrel
        obtain ⟨hp, hpid⟩ := lookupById_some hl
        cases hgc
        refine ⟨p, hp, c, hc, hpid, rfl, ?_⟩
        by_cases h1 : p.parentId = c.parentId
        · by_cases h2 : p.leftId = c.leftId
          · exact Or.inr (Or.inr (fun h3 => hrel ⟨h1, h2, h3⟩))
          · exact Or.inr (Or.inl h2)
        · exact Or.inl h1
  · intro c' p' hc hl hcol hrel
    constructor
    · refine List.mem_map.mpr ⟨⟨c'.id, c'.value, p'.color, c'.color⟩, ?_, rfl⟩
      refine List.mem_filterMap.mpr ⟨c', hc, ?_⟩
      rw [hl]
      simp [hcol]
    · refine List.mem_map.mpr ⟨(c'.id, c'.value), ?_, rfl⟩
      refine List.mem_filterMap.mpr ⟨c', hc, ?_⟩
      rw [hl]
      simp [hrel]

/-- Claim C7, witness: the theorem applied to a concrete snapshot pair in
which node 2 is added, node 1 removed, and node 0 is both recolored and
moved. -/
theorem c7_witness :
    ((∃ n ∈ diffSampleCur, n.id = 2) ∧ ∀ n ∈ diffSamplePrev, n.id ≠ 2) ∧
    (0 ∈ (diffSnapshots diffSamplePrev diffSampleCur).recolored.map RecoloredEntry.id ∧
     0 ∈ (diffSnapshots diffSamplePrev diffSampleCur).moved.map Prod.fst) :=
  ⟨(c7_diff_sound diffSamplePrev diffSampleCur).1 (2, 7) (by decide),
   (c7_diff_sound diffSamplePrev diffSampleCur).2.2.2.2
     ⟨0, 5, NodeColor.black, some 9, none, none⟩
     ⟨0, 5, NodeColor.red, none, none, none⟩
     (by decide) (by decide) (by decide) (by decide)⟩

/-- Claim C8: after inserting 10, 20, 30 into an empty tree, the final
tree has 20 at the root colored black with red children 10 and 30, and
the third insertion's record contains a snapshot taken around the
rotation (the left rotation pivoted at 10). -/
theorem c8_chain_insert_rotation :
    extractTree chain3 =
      .node ⟨1, 20, NodeColor.black, none, some 0, some 2⟩
        (.node ⟨0, 10, NodeColor.red, some 1, none, none⟩ .nil .nil)
        (.node ⟨2, 30, NodeColor.red, some 1, none, none⟩ .nil .nil) ∧
    ∃ sn ∈ (insertOp (insertOp (insertOp emptyTree 10).1 20).1 30).2.snapshots,
      sn.description = "왼쪽 회전 (축: 10)" := by decide

/-- Claim C9: in the {10,5,15,3,7} tree, 10 (node 0) is the black root
with right child node 2 (value 15); deleting 10 relines the in-order
successor 15 — the minimum of 10's right subtree — into 10's former
root position with 10's former color black (visible in the substitution
snapshot), and the in-order value sequence afterwards is 3, 5, 7, 15. -/
theorem c9_two_children_delete :
    scenario4Tree.root = some 0 ∧
    colorOf scenario4Tree (some 0) = some NodeColor.black ∧
    rightOf scenario4Tree (some 0) = some 2 ∧
    minimumGo scenario4Tree (scenario4Tree.nodeCounter + 1) 2 = 2 ∧
    valueOf scenario4Tree 2 = 15 ∧
    (∃ sn ∈ (deleteOp scenario4Tree 10).2.snapshots,
      sn.description = "10 대신 15로 대체" ∧
      ∃ n ∈ sn.nodes, n.id = 2 ∧ n.parentId = none ∧ n.color = NodeColor.black) ∧
    inorderValues (deleteOp scenario4Tree 10).1 = [3, 5, 7, 15] := by decide

end RBViz

/-! ### Structural well-formedness: base lemmas -/

namespace RBViz

theorem nodes_updNode (s : TreeState) (i : Nat) (f : RBNodeData → RBNodeData) (j : Nat) :
    (updNode s i f).nodes j = if j = i then Option.map f (s.nodes j) else s.nodes j := by
  unfold updNode setNode
  cases hi : s.nodes i with
  | none =>
    by_cases hj : j = i
    · subst hj; simp [hi]
    · simp [hj]
  | some d =>
    by_cases hj : j = i
    · subst hj; simp [hi]
    · simp [hj]

theorem root_updNode (s : TreeState) (i : Nat) (f : RBNodeData → RBNodeData) :
    (updNode s i f).root = s.root := by
  unfold updNode setNode
  cases s.nodes i <;> rfl

theorem counter_updNode (s : TreeState) (i : Nat) (f : RBNodeData → RBNodeData) :
    (updNode s i f).nodeCounter = s.nodeCounter := by
  unfold updNode setNode
  cases s.nodes i <;> rfl

theorem ReprT.frame {s s' : TreeState} {par oid : Option Nat} {t : STree}
    (h : ReprT s par oid t)
    (hf : ∀ i ∈ treeIds t, s'.nodes i = s.nodes i) :
    ReprT s' par oid t := by
  induction h with
  | leaf p => exact .leaf p
  | node p id d tl tr hid hp hl hr ihl ihr =>
    refine .node p id d tl tr ?_ hp ?_ ?_
    · rw [hf id (by simp [treeIds])]; exact hid
    · exact ihl (fun i hi => hf i (by simp [treeIds, hi]))
    · exact ihr (fun i hi => hf i (by simp [treeIds, hi]))

theorem ReprT.shapeUpd {s : TreeState} {par oid : Option Nat} {t : STree}
    (h : ReprT s par oid t) (j : Nat) (f : RBNodeData → RBNodeData)
    (hf : ∀ d, (f d).left = d.left ∧ (f d).right = d.right ∧ (f d).parent = d.parent) :
    ReprT (updNode s j f) par oid t := by
  induction h with
  | leaf p => exact .leaf p
  | node p id d tl tr hid hp hl hr ihl ihr =>
    by_cases hij : id = j
    · subst hij
      refine .node p id (f d) tl tr ?_ ?_ ?_ ?_
      · rw [nodes_updNode]; simp [hid]
      · rw [(hf d).2.2, hp]
      · rw [(hf d).1]; exact ihl
      · rw [(hf d).2.1]; exact ihr
    · refine .node p id d tl tr ?_ hp ihl ihr
      rw [nodes_updNode]
      simp [hij, hid]

theorem ReprT.mem_record {s : TreeState} {par oid : Option Nat} {t : STree}
    (h : ReprT s par oid t) {i : Nat} (hi : i ∈ treeIds t) :
    ∃ d, s.nodes i = some d := by
  induction h with
  | leaf p => simp [treeIds] at hi
  | node p id d tl tr hid hp hl hr ihl ihr =>
    simp only [treeIds, List.mem_cons, List.mem_append] at hi
    rcases hi with rfl | hi | hi
    · exact ⟨d, hid⟩
    · exact ihl hi
    · exact ihr hi

theorem ReprT.parent_mem {s : TreeState} {par oid : Option Nat} {t : STree}
    (h : ReprT s par oid t) {i : Nat} (hi : i ∈ treeIds t) :
    (some i = oid ∧ ∃ d, s.nodes i = some d ∧ d.parent = par) ∨
    (∃ j ∈ treeIds t, ∃ d, s.nodes i = some d ∧ d.parent = some j) := by
  induction h with
  | leaf p => simp [treeIds] at hi
  | node p id d tl tr hid hp hl hr ihl ihr =>
    simp only [treeIds, List.mem_cons, List.mem_append] at hi
    rcases hi with rfl | hi | hi
    · exact Or.inl ⟨rfl, d, hid, hp⟩
    · rcases ihl hi with ⟨htop, dd, hdd, hdp⟩ | ⟨j, hj, dd, hdd, hdp⟩
      · exact Or.inr ⟨id, by simp [treeIds], dd, hdd, hdp⟩
      · exact Or.inr ⟨j, by simp [treeIds, hj], dd, hdd, hdp⟩
    · rcases ihr hi with ⟨htop, dd, hdd, hdp⟩ | ⟨j, hj, dd, hdd, hdp⟩
      · exact Or.inr ⟨id, by simp [treeIds], dd, hdd, hdp⟩
      · exact Or.inr ⟨j, by simp [treeIds, hj], dd, hdd, hdp⟩

theorem treeIds_rotAtL_perm (t : STree) (x : Nat) :
    List.Perm (treeIds (rotAtL t x)) (treeIds t) := by
  induction t with
  | leaf => simp [rotAtL]
  | node n l r ihl ihr =>
    by_cases hn : n = x
    · subst hn
      cases r with
      | leaf => simp [rotAtL]
      | node y b c =>
        simp only [rotAtL, if_pos rfl, treeIds]
        apply List.perm_iff_count.mpr
        intro a
        simp only [List.count_cons, List.count_append]
        split_ifs <;> omega
    · simp only [rotAtL, if_neg hn, treeIds]
      exact List.Perm.cons n (List.Perm.append ihl ihr)

theorem treeIds_rotAtR_perm (t : STree) (x : Nat) :
    List.Perm (treeIds (rotAtR t x)) (treeIds t) := by
  induction t with
  | leaf => simp [rotAtR]
  | node n l r ihl ihr =>
    by_cases hn : n = x
    · subst hn
      cases l with
      | leaf => simp [rotAtR]
      | node y b c =>
        simp only [rotAtR, if_pos rfl, treeIds]
        apply List.perm_iff_count.mpr
        intro a
        simp only [List.count_cons, List.count_append]
        split_ifs <;> omega
    · simp only [rotAtR, if_neg hn, treeIds]
      exact List.Perm.cons n (List.Perm.append ihl ihr)

theorem treeIds_spliceAt_sublist (t : STree) (z : Nat) :
    List.Sublist (treeIds (spliceAt t z)) (treeIds t) := by
  induction t with
  | leaf => simp [spliceAt]
  | node n l r ihl ihr =>
    by_cases hn : n = z
    · subst hn
      cases l with
      | leaf =>
        simp only [spliceAt, if_pos rfl, treeIds, List.nil_append]
        exact List.Sublist.cons _ (List.Sublist.refl _)
      | node a al ar =>
        cases r with
        | leaf =>
          simp only [spliceAt, if_pos rfl, treeIds, List.append_nil]
          exact List.Sublist.cons _ (List.Sublist.refl _)
        | node b bl br =>
          simp only [spliceAt, if_pos rfl]
          exact List.Sublist.refl _
    · simp only [spliceAt, if_neg hn, treeIds]
      exact List.Sublist.cons₂ n (List.Sublist.append ihl ihr)

theorem substAt_not_mem {t : STree} {z : Nat} (h : z ∉ treeIds t) (y : Nat) :
    substAt t z y = t := by
  induction t with
  | leaf => rfl
  | node n l r ihl ihr =>
    simp only [treeIds, List.mem_cons, List.mem_append] at h
    push_neg at h
    simp only [substAt, if_neg (Ne.symm h.1)]
    rw [ihl h.2.1, ihr h.2.2]

theorem rotAtL_not_mem {t : STree} {x : Nat} (h : x ∉ treeIds t) :
    rotAtL t x = t := by
  induction t with
  | leaf => rfl
  | node n l r ihl ihr =>
    simp only [treeIds, List.mem_cons, List.mem_append] at h
    push_neg at h
    simp only [rotAtL, if_neg (Ne.symm h.1)]
    rw [ihl h.2.1, ihr h.2.2]

theorem rotAtR_not_mem {t : STree} {x : Nat} (h : x ∉ treeIds t) :
    rotAtR t x = t := by
  induction t with
  | leaf => rfl
  | node n l r ihl ihr =>
    simp only [treeIds, List.mem_cons, List.mem_append] at h
    push_neg at h
    simp only [rotAtR, if_neg (Ne.symm h.1)]
    rw [ihl h.2.1, ihr h.2.2]

theorem spliceAt_not_mem {t : STree} {z : Nat} (h : z ∉ treeIds t) :
    spliceAt t z = t := by
  induction t with
  | leaf => rfl
  | node n l r ihl ihr =>
    simp only [treeIds, List.mem_cons, List.mem_append] at h
    push_neg at h
    simp only [spliceAt, if_neg (Ne.symm h.1)]
    rw [ihl h.2.1, ihr h.2.2]

theorem treeIds_substAt_subset (t : STree) (z y : Nat) :
    ∀ i ∈ treeIds (substAt t z y), i = y ∨ i ∈ treeIds t := by
  induction t with
  | leaf => intro i hi; simp [substAt, treeIds] at hi
  | node n l r ihl ihr =>
    intro i hi
    by_cases hn : n = z
    · subst hn
      simp only [substAt, if_pos rfl, treeIds, List.mem_cons, List.mem_append] at hi
      rcases hi with rfl | hi | hi
      · exact Or.inl rfl
      · exact Or.inr (by simp [treeIds, hi])
      · exact Or.inr (by simp [treeIds, hi])
    · simp only [substAt, if_neg hn, treeIds, List.mem_cons, List.mem_append] at hi
      rcases hi with rfl | hi | hi
      · exact Or.inr (by simp [treeIds])
      · rcases ihl i hi with h | h
        · exact Or.inl h
        · exact Or.inr (by simp [treeIds, h])
      · rcases ihr i hi with h | h
        · exact Or.inl h
        · exact Or.inr (by simp [treeIds, h])

theorem sHeight_le_length (t : STree) : sHeight t ≤ (treeIds t).length := by
  induction t with
  | leaf => simp [sHeight, treeIds]
  | node n l r ihl ihr =>
    simp only [sHeight, treeIds, List.length_cons, List.length_append]
    omega

theorem nodup_bound_length {d : List Nat} (hnd : d.Nodup) {n : Nat}
    (hb : ∀ i ∈ d, i < n) : d.length ≤ n := by
  have h1 : d.toFinset.card = d.length := List.toFinset_card_of_nodup hnd
  have h2 : d.toFinset ⊆ Finset.range n := by
    intro i hi
    simp only [List.mem_toFinset] at hi
    simpa using hb i hi
  have := Finset.card_le_card h2
  simpa [h1] using this

end RBViz

/-! ### Structural well-formedness: serialization -/

namespace RBViz

theorem sExp_map_id {s : TreeState} {par oid : Option Nat} {t : STree}
    (h : ReprT s par oid t) :
    (sExp s t).map (fun n => n.id) = treeIds t := by
  induction h with
  | leaf p => rfl
  | node p i d tl tr hid hp hl hr ihl ihr =>
    simp [sExp, hid, treeIds, ihl, ihr]

theorem sExp_top {s : TreeState} {par : Option Nat} {i : Nat} {t : STree}
    (h : ReprT s par (some i) t) :
    ∃ d tl tr, t = .node i tl tr ∧ s.nodes i = some d ∧ d.parent = par ∧
      sExp s t = ⟨i, d.value, d.color, d.parent, d.left, d.right⟩ ::
        (sExp s tl ++ sExp s tr) := by
  cases h with
  | node _ _ d tl tr hid hp hl hr =>
    exact ⟨d, tl, tr, rfl, hid, hp, by simp [sExp, hid]⟩

theorem mem_sExp_left {s : TreeState} {i : Nat} {l r : STree} {n : SerializedNode}
    (h : n ∈ sExp s l) : n ∈ sExp s (.node i l r) := by
  show n ∈ (match s.nodes i with
    | some d => [⟨i, d.value, d.color, d.parent, d.left, d.right⟩]
    | none => []) ++ (sExp s l ++ sExp s r)
  exact List.mem_append.mpr (Or.inr (List.mem_append_left _ h))

theorem mem_sExp_right {s : TreeState} {i : Nat} {l r : STree} {n : SerializedNode}
    (h : n ∈ sExp s r) : n ∈ sExp s (.node i l r) := by
  show n ∈ (match s.nodes i with
    | some d => [⟨i, d.value, d.color, d.parent, d.left, d.right⟩]
    | none => []) ++ (sExp s l ++ sExp s r)
  exact List.mem_append.mpr (Or.inr (List.mem_append_right _ h))

theorem sExp_coherent {s : TreeState} {par oid : Option Nat} {t : STree}
    (h : ReprT s par oid t) :
    ∀ n ∈ sExp s t, ∀ c : Nat, (n.leftId = some c ∨ n.rightId = some c) →
      ∃ m ∈ sExp s t, m.id = c ∧ m.parentId = some n.id := by
  induction h with
  | leaf p => intro n hn; simp [sExp] at hn
  | node p i d tl tr hid hp hl hr ihl ihr =>
    intro n hn c hc
    simp only [sExp, hid, List.singleton_append, List.mem_cons, List.mem_append] at hn
    rcases hn with rfl | hn | hn
    · rcases hc with hc | hc
      · simp only at hc
        rw [hc] at hl
        obtain ⟨dd, ul, ur, rfl, hdd, hdp, hexp⟩ := sExp_top hl
        refine ⟨⟨c, dd.value, dd.color, dd.parent, dd.left, dd.right⟩, ?_, rfl, by simp [hdp]⟩
        refine mem_sExp_left ?_
        rw [hexp]
        exact List.mem_cons_self _ _
      · simp only at hc
        rw [hc] at hr
        obtain ⟨dd, ul, ur, rfl, hdd, hdp, hexp⟩ := sExp_top hr
        refine ⟨⟨c, dd.value, dd.color, dd.parent, dd.left, dd.right⟩, ?_, rfl, by simp [hdp]⟩
        refine mem_sExp_right ?_
        rw [hexp]
        exact List.mem_cons_self _ _
    · obtain ⟨m, hm, hmc, hmp⟩ := ihl n hn c hc
      exact ⟨m, mem_sExp_left hm, hmc, hmp⟩
    · obtain ⟨m, hm, hmc, hmp⟩ := ihr n hn c hc
      exact ⟨m, mem_sExp_right hm, hmc, hmp⟩

theorem sExp_parent_none {s : TreeState} {par oid : Option Nat} {t : STree}
    (h : ReprT s par oid t) :
    ∀ n ∈ sExp s t, n.parentId = none → par = none ∧ some n.id = oid := by
  induction h with
  | leaf p => intro n hn; simp [sExp] at hn
  | node p i d tl tr hid hp hl hr ihl ihr =>
    intro n hn hpn
    simp only [sExp, hid, List.singleton_append, List.mem_cons, List.mem_append] at hn
    rcases hn with rfl | hn | hn
    · simp only at hpn
      exact ⟨by rw [← hp, hpn], rfl⟩
    · exact absurd (ihl n hn hpn).1 (by simp)
    · exact absurd (ihr n hn hpn).1 (by simp)

theorem serializeAux_eq_sExp {s : TreeState} {par oid : Option Nat} {t : STree}
    (h : ReprT s par oid t) :
    ∀ fuel, sHeight t ≤ fuel → serializeAux s fuel oid = sExp s t := by
  induction h with
  | leaf p =>
    intro fuel hf
    cases fuel <;> rfl
  | node p i d tl tr hid hp hl hr ihl ihr =>
    intro fuel hf
    cases fuel with
    | zero => simp [sHeight] at hf
    | succ f =>
      simp only [sHeight, Nat.succ_le_succ_iff, max_le_iff] at hf
      simp only [serializeAux, hid, sExp]
      rw [ihl f hf.1, ihr f hf.2]
      simp

theorem ReprT.node_inv {s : TreeState} {par oid : Option Nat} {i : Nat} {tl tr : STree}
    (h : ReprT s par oid (.node i tl tr)) :
    ∃ d, oid = some i ∧ s.nodes i = some d ∧ d.parent = par ∧
      ReprT s (some i) d.left tl ∧ ReprT s (some i) d.right tr := by
  cases h with
  | node _ _ d _ _ hid hp hl hr => exact ⟨d, rfl, hid, hp, hl, hr⟩

theorem exportOk_of_ReprT_root {s : TreeState} {t : STree}
    (h : ReprT s none s.root t) (hnd : (treeIds t).Nodup)
    (hexp : serializeTree s = sExp s t) :
    exportOk (serializeTree s) := by
  rw [hexp]
  refine ⟨by rw [sExp_map_id h]; exact hnd, sExp_coherent h, ?_⟩
  intro hne
  cases t with
  | leaf => simp [sExp] at hne
  | node i tl tr =>
    obtain ⟨d, hoid, hid, hp, hl, hr⟩ := ReprT.node_inv h
    have hsexp : sExp s (.node i tl tr) =
        ⟨i, d.value, d.color, d.parent, d.left, d.right⟩ :: (sExp s tl ++ sExp s tr) := by
      simp [sExp, hid]
    rw [hsexp, List.filter_cons]
    have hroot : ((⟨i, d.value, d.color, d.parent, d.left, d.right⟩ : SerializedNode).parentId = none) := by
      simpa using hp
    have hrest : ((sExp s tl ++ sExp s tr).filter (fun n => n.parentId = none)) = [] := by
      rw [List.filter_eq_nil_iff]
      intro n hn
      simp only [decide_eq_true_eq]
      intro hpn
      have hn' : n ∈ sExp s tl ∨ n ∈ sExp s tr := List.mem_append.mp hn
      have hmem : n ∈ sExp s (.node i tl tr) := by
        rcases hn' with hh | hh
        · exact mem_sExp_left hh
        · exact mem_sExp_right hh
      obtain ⟨h1, h2⟩ := sExp_parent_none h n hmem hpn
      have hni : n.id = i := by
        rw [hoid] at h2
        cases h2
        rfl
      have hmm : n.id ∈ ((sExp s tl ++ sExp s tr).map (fun m => m.id)) :=
        List.mem_map.mpr ⟨n, hn, rfl⟩
      rw [List.map_append, sExp_map_id hl, sExp_map_id hr] at hmm
      rw [hni] at hmm
      simp only [treeIds, List.nodup_cons] at hnd
      exact hnd.1 hmm
    rw [hrest]
    simp [hp]

end RBViz

/-! ### Structural well-formedness: mutation specifications -/

namespace RBViz

theorem WFs_exportOk_serialize {s : TreeState} (h : WFs s) : exportOk (serializeTree s) := by
  obtain ⟨t, hrep, hnd, hb⟩ := h
  have hlen : (treeIds t).length ≤ s.nodeCounter := nodup_bound_length hnd hb
  have hh : sHeight t ≤ s.nodeCounter + 1 := le_trans (sHeight_le_length t) (by omega)
  exact exportOk_of_ReprT_root hrep hnd (serializeAux_eq_sExp hrep _ hh)

theorem rotateLeft_spec {s : TreeState} {x y : Nat} {xd yd : RBNodeData}
    (hx : s.nodes x = some xd) (hxr : xd.right = some y) (hy : s.nodes y = some yd)
    (hxy : x ≠ y)
    (hbx : ∀ b, yd.left = some b → b ≠ x ∧ b ≠ y)
    (hpx : ∀ p, xd.parent = some p → p ≠ x ∧ p ≠ y ∧ ∀ b, yd.left = some b → p ≠ b) :
    (rotateLeft s x).nodes x = some { xd with right := yd.left, parent := some y } ∧
    (rotateLeft s x).nodes y = some { yd with left := some x, parent := xd.parent } ∧
    (∀ b bd, yd.left = some b → s.nodes b = some bd →
      (rotateLeft s x).nodes b = some { bd with parent := some x }) ∧
    (∀ p pd, xd.parent = some p → s.nodes p = some pd →
      (rotateLeft s x).nodes p = some (if pd.left = some x then { pd with left := some y }
        else { pd with right := some y })) ∧
    (∀ j, j ≠ x → j ≠ y → yd.left ≠ some j → xd.parent ≠ some j →
      (rotateLeft s x).nodes j = s.nodes j) ∧
    (rotateLeft s x).root = (if xd.parent = none then some y else s.root) ∧
    (rotateLeft s x).nodeCounter = s.nodeCounter := by
  have e0 : (s.nodes x).bind (fun d => d.right) = some y := by rw [hx]; simpa using hxr
  have hyx : y ≠ x := Ne.symm hxy
  have hylx : yd.left ≠ some x := fun hh => (hbx x hh).1 rfl
  have hyly : yd.left ≠ some y := fun hh => (hbx y hh).2 rfl
  have hxpx : xd.parent ≠ some x := fun hh => (hpx x hh).1 rfl
  have hxpy : xd.parent ≠ some y := fun hh => (hpx y hh).2.1 rfl
  have hrw : rotateLeft s x =
      rotL6 (rotL5 (rotL4 (rotL3 (rotL2 (rotL1 s x y) x y) x y) x y) x y) x y := by
    simp only [rotateLeft, e0]
  rw [hrw]
  set sA := rotL1 s x y with hsA
  set sB := rotL2 sA x y with hsB
  set sC := rotL3 sB x y with hsC
  set sD := rotL4 sC x y with hsD
  set sE := rotL5 sD x y with hsE
  -- stage A
  have hAn : ∀ j, sA.nodes j =
      if j = x then some { xd with right := yd.left } else s.nodes j := by
    intro j
    rw [hsA]; unfold rotL1; rw [nodes_updNode]
    by_cases hj : j = x
    · subst hj; simp [hx, leftOf, getN, hy]
    · simp [hj]
  have hAroot : sA.root = s.root := by rw [hsA]; unfold rotL1; exact root_updNode _ _ _
  have hAcnt : sA.nodeCounter = s.nodeCounter := by
    rw [hsA]; unfold rotL1; exact counter_updNode _ _ _
  -- stage B
  have hreadB : leftOf sA (some y) = yd.left := by
    simp [leftOf, getN, hAn y, hyx, hy]
  have hBn1 : ∀ j, yd.left ≠ some j → sB.nodes j = sA.nodes j := by
    intro j hj
    rw [hsB]; unfold rotL2; rw [hreadB]
    cases hc : yd.left with
    | none => rfl
    | some b =>
      simp only [nodes_updNode]
      rw [if_neg]
      intro hh; subst hh; rw [hc] at hj; exact hj rfl
  have hBn2 : ∀ j, yd.left = some j →
      sB.nodes j = Option.map (fun d => { d with parent := some x }) (sA.nodes j) := by
    intro j hj
    rw [hsB]; unfold rotL2; rw [hreadB, hj]
    simp [nodes_updNode]
  have hBroot : sB.root = sA.root := by
    rw [hsB]; unfold rotL2; rw [hreadB]
    cases yd.left with
    | none => rfl
    | some b => exact root_updNode _ _ _
  have hBcnt : sB.nodeCounter = sA.nodeCounter := by
    rw [hsB]; unfold rotL2; rw [hreadB]
    cases yd.left with
    | none => rfl
    | some b => exact counter_updNode _ _ _
  have hBx : sB.nodes x = some { xd with right := yd.left } := by
    rw [hBn1 x hylx, hAn]; simp
  -- stage C
  have hreadC : parentOf sB (some x) = xd.parent := by
    simp [parentOf, getN, hBx]
  have hCn : ∀ j, sC.nodes j =
      if j = y then Option.map (fun d => { d with parent := xd.parent }) (sB.nodes j)
      else sB.nodes j := by
    intro j
    rw [hsC]; unfold rotL3; rw [hreadC, nodes_updNode]
  have hCroot : sC.root = sB.root := by rw [hsC]; unfold rotL3; exact root_updNode _ _ _
  have hCcnt : sC.nodeCounter = sB.nodeCounter := by
    rw [hsC]; unfold rotL3; exact counter_updNode _ _ _
  have hCx : sC.nodes x = some { xd with right := yd.left } := by
    rw [hCn]; simp [hxy, hBx]
  -- stage D
  have hreadD : parentOf sC (some x) = xd.parent := by
    simp [parentOf, getN, hCx]
  have hDn1 : ∀ j, xd.parent ≠ some j → sD.nodes j = sC.nodes j := by
    intro j hj
    rw [hsD]; unfold rotL4; rw [hreadD]
    cases hc : xd.parent with
    | none => rfl
    | some p =>
      have hjp : j ≠ p := by intro hh; subst hh; rw [hc] at hj; exact hj rfl
      simp only
      split
      · rw [nodes_updNode, if_neg hjp]
      · rw [nodes_updNode, if_neg hjp]
  have hDn2 : ∀ j, xd.parent = some j →
      sD.nodes j = (if leftOf sC (some j) = some x
        then Option.map (fun d => { d with left := some y }) (sC.nodes j)
        else Option.map (fun d => { d with right := some y }) (sC.nodes j)) := by
    intro j hj
    rw [hsD]; unfold rotL4; rw [hreadD, hj]
    simp only
    split
    · simp [nodes_updNode]
    · simp [nodes_updNode]
  have hDroot : sD.root = if xd.parent = none then some y else sC.root := by
    rw [hsD]; unfold rotL4; rw [hreadD]
    cases xd.parent with
    | none => rfl
    | some p =>
      simp only
      split
      · rw [root_updNode]; simp
      · rw [root_updNode]; simp
  have hDcnt : sD.nodeCounter = sC.nodeCounter := by
    rw [hsD]; unfold rotL4; rw [hreadD]
    cases xd.parent with
    | none => rfl
    | some p =>
      simp only
      split
      · exact counter_updNode _ _ _
      · exact counter_updNode _ _ _
  -- stage E and final
  have hEn : ∀ j, sE.nodes j =
      if j = y then Option.map (fun d => { d with left := some x }) (sD.nodes j)
      else sD.nodes j := by
    intro j
    rw [hsE]; unfold rotL5; rw [nodes_updNode]
  have hEroot : sE.root = sD.root := by rw [hsE]; unfold rotL5; exact root_updNode _ _ _
  have hEcnt : sE.nodeCounter = sD.nodeCounter := by
    rw [hsE]; unfold rotL5; exact counter_updNode _ _ _
  have hFn : ∀ j, (rotL6 sE x y).nodes j =
      if j = x then Option.map (fun d => { d with parent := some y }) (sE.nodes j)
      else sE.nodes j := by
    intro j
    unfold rotL6; rw [nodes_updNode]
  refine ⟨?_, ?_, ?_, ?_, ?_, ?_, ?_⟩
  · rw [hFn, if_pos rfl, hEn, if_neg hxy, hDn1 x hxpx, hCn, if_neg hxy,
      hBn1 x hylx, hAn, if_pos rfl]
    rfl
  · rw [hFn, if_neg hyx, hEn, if_pos rfl, hDn1 y hxpy, hCn, if_pos rfl,
      hBn1 y hyly, hAn, if_neg hyx, hy]
    rfl
  · intro b bd hbl hbd
    obtain ⟨hb1, hb2⟩ := hbx b hbl
    have hb3 : xd.parent ≠ some b := by
      intro hh
      exact (hpx b hh).2.2 b hbl rfl
    rw [hFn, if_neg hb1, hEn, if_neg hb2, hDn1 b hb3, hCn, if_neg hb2,
      hBn2 b hbl, hAn, if_neg hb1, hbd]
    rfl
  · intro p pd hp hpd
    obtain ⟨hp1, hp2, hp3⟩ := hpx p hp
    have hylp : yd.left ≠ some p := by
      intro hh
      exact hp3 p hh rfl
    have hCp : sC.nodes p = some pd := by
      rw [hCn, if_neg hp2, hBn1 p hylp, hAn, if_neg hp1, hpd]
    rw [hFn, if_neg hp1, hEn, if_neg hp2, hDn2 p hp]
    rw [show leftOf sC (some p) = pd.left from by simp [leftOf, getN, hCp]]
    by_cases hsl : pd.left = some x
    · rw [if_pos hsl, if_pos hsl, hCp]; rfl
    · rw [if_neg hsl, if_neg hsl, hCp]; rfl
  · intro j hj1 hj2 hj3 hj4
    rw [hFn, if_neg hj1, hEn, if_neg hj2, hDn1 j hj4, hCn, if_neg hj2,
      hBn1 j hj3, hAn, if_neg hj1]
  · rw [show (rotL6 sE x y).root = sE.root from root_updNode _ _ _, hEroot, hDroot,
      hCroot, hBroot, hAroot]
  · rw [show (rotL6 sE x y).nodeCounter = sE.nodeCounter from counter_updNode _ _ _,
      hEcnt, hDcnt, hCcnt, hBcnt, hAcnt]

theorem rotateRight_spec {s : TreeState} {x y : Nat} {xd yd : RBNodeData}
    (hx : s.nodes x = some xd) (hxl : xd.left = some y) (hy : s.nodes y = some yd)
    (hxy : x ≠ y)
    (hbx : ∀ b, yd.right = some b → b ≠ x ∧ b ≠ y)
    (hpx : ∀ p, xd.parent = some p → p ≠ x ∧ p ≠ y ∧ ∀ b, yd.right = some b → p ≠ b) :
    (rotateRight s x).nodes x = some { xd with left := yd.right, parent := some y } ∧
    (rotateRight s x).nodes y = some { yd with right := some x, parent := xd.parent } ∧
    (∀ b bd, yd.right = some b → s.nodes b = some bd →
      (rotateRight s x).nodes b = some { bd with parent := some x }) ∧
    (∀ p pd, xd.parent = some p → s.nodes p = some pd →
      (rotateRight s x).nodes p = some (if pd.right = some x then { pd with right := some y }
        else { pd with left := some y })) ∧
    (∀ j, j ≠ x → j ≠ y → yd.right ≠ some j → xd.parent ≠ some j →
      (rotateRight s x).nodes j = s.nodes j) ∧
    (rotateRight s x).root = (if xd.parent = none then some y else s.root) ∧
    (rotateRight s x).nodeCounter = s.nodeCounter := by
  have e0 : (s.nodes x).bind (fun d => d.left) = some y := by rw [hx]; simpa using hxl
  have hyx : y ≠ x := Ne.symm hxy
  have hylx : yd.right ≠ some x := fun hh => (hbx x hh).1 rfl
  have hyly : yd.right ≠ some y := fun hh => (hbx y hh).2 rfl
  have hxpx : xd.parent ≠ some x := fun hh => (hpx x hh).1 rfl
  have hxpy : xd.parent ≠ some y := fun hh => (hpx y hh).2.1 rfl
  have hrw : rotateRight s x =
      rotR6 (rotR5 (rotR4 (rotR3 (rotR2 (rotR1 s x y) x y) x y) x y) x y) x y := by
    simp only [rotateRight, e0]
  rw [hrw]
  set sA := rotR1 s x y with hsA
  set sB := rotR2 sA x y with hsB
  set sC := rotR3 sB x y with hsC
  set sD := rotR4 sC x y with hsD
  set sE := rotR5 sD x y with hsE
  -- stage A
  have hAn : ∀ j, sA.nodes j =
      if j = x then some { xd with left := yd.right } else s.nodes j := by
    intro j
    rw [hsA]; unfold rotR1; rw [nodes_updNode]
    by_cases hj : j = x
    · subst hj; simp [hx, rightOf, getN, hy]
    · simp [hj]
  have hAroot : sA.root = s.root := by rw [hsA]; unfold rotR1; exact root_updNode _ _ _
  have hAcnt : sA.nodeCounter = s.nodeCounter := by
    rw [hsA]; unfold rotR1; exact counter_updNode _ _ _
  -- stage B
  have hreadB : rightOf sA (some y) = yd.right := by
    simp [rightOf, getN, hAn y, hyx, hy]
  have hBn1 : ∀ j, yd.right ≠ some j → sB.nodes j = sA.nodes j := by
    intro j hj
    rw [hsB]; unfold rotR2; rw [hreadB]
    cases hc : yd.right with
    | none => rfl
    | some b =>
      simp only [nodes_updNode]
      rw [if_neg]
      intro hh; subst hh; rw [hc] at hj; exact hj rfl
  have hBn2 : ∀ j, yd.right = some j →
      sB.nodes j = Option.map (fun d => { d with parent := some x }) (sA.nodes j) := by
    intro j hj
    rw [hsB]; unfold rotR2; rw [hreadB, hj]
    simp [nodes_updNode]
  have hBroot : sB.root = sA.root := by
    rw [hsB]; unfold rotR2; rw [hreadB]
    cases yd.right with
    | none => rfl
    | some b => exact root_updNode _ _ _
  have hBcnt : sB.nodeCounter = sA.nodeCounter := by
    rw [hsB]; unfold rotR2; rw [hreadB]
    cases yd.right with
    | none => rfl
    | some b => exact counter_updNode _ _ _
  have hBx : sB.nodes x = some { xd with left := yd.right } := by
    rw [hBn1 x hylx, hAn]; simp
  -- stage C
  have hreadC : parentOf sB (some x) = xd.parent := by
    simp [parentOf, getN, hBx]
  have hCn : ∀ j, sC.nodes j =
      if j = y then Option.map (fun d => { d with parent := xd.parent }) (sB.nodes j)
      else sB.nodes j := by
    intro j
    rw [hsC]; unfold rotR3; rw [hreadC, nodes_updNode]
  have hCroot : sC.root = sB.root := by rw [hsC]; unfold rotR3; exact root_updNode _ _ _
  have hCcnt : sC.nodeCounter = sB.nodeCounter := by
    rw [hsC]; unfold rotR3; exact counter_updNode _ _ _
  have hCx : sC.nodes x = some { xd with left := yd.right } := by
    rw [hCn]; simp [hxy, hBx]
  -- stage D
  have hreadD : parentOf sC (some x) = xd.parent := by
    simp [parentOf, getN, hCx]
  have hDn1 : ∀ j, xd.parent ≠ some j → sD.nodes j = sC.nodes j := by
    intro j hj
    rw [hsD]; unfold rotR4; rw [hreadD]
    cases hc : xd.parent with
    | none => rfl
    | some p =>
      have hjp : j ≠ p := by intro hh; subst hh; rw [hc] at hj; exact hj rfl
      simp only
      split
      · rw [nodes_updNode, if_neg hjp]
      · rw [nodes_updNode, if_neg hjp]
  have hDn2 : ∀ j, xd.parent = some j →
      sD.nodes j = (if rightOf sC (some j) = some x
        then Option.map (fun d => { d with right := some y }) (sC.nodes j)
        else Option.map (fun d => { d with left := some y }) (sC.nodes j)) := by
    intro j hj
    rw [hsD]; unfold rotR4; rw [hreadD, hj]
    simp only
    split
    · simp [nodes_updNode]
    · simp [nodes_updNode]
  have hDroot : sD.root = if xd.parent = none then some y else sC.root := by
    rw [hsD]; unfold rotR4; rw [hreadD]
    cases xd.parent with
    | none => rfl
    | some p =>
      simp only
      split
      · rw [root_updNode]; simp
      · rw [root_updNode]; simp
  have hDcnt : sD.nodeCounter = sC.nodeCounter := by
    rw [hsD]; unfold rotR4; rw [hreadD]
    cases xd.parent with
    | none => rfl
    | some p =>
      simp only
      split
      · exact counter_updNode _ _ _
      · exact counter_updNode _ _ _
  -- stage E and final
  have hEn : ∀ j, sE.nodes j =
      if j = y then Option.map (fun d => { d with right := some x }) (sD.nodes j)
      else sD.nodes j := by
    intro j
    rw [hsE]; unfold rotR5; rw [nodes_updNode]
  have hEroot : sE.root = sD.root := by rw [hsE]; unfold rotR5; exact root_updNode _ _ _
  have hEcnt : sE.nodeCounter = sD.nodeCounter := by
    rw [hsE]; unfold rotR5; exact counter_updNode _ _ _
  have hFn : ∀ j, (rotR6 sE x y).nodes j =
      if j = x then Option.map (fun d => { d with parent := some y }) (sE.nodes j)
      else sE.nodes j := by
    intro j
    unfold rotR6; rw [nodes_updNode]
  refine ⟨?_, ?_, ?_, ?_, ?_, ?_, ?_⟩
  · rw [hFn, if_pos rfl, hEn, if_neg hxy, hDn1 x hxpx, hCn, if_neg hxy,
      hBn1 x hylx, hAn, if_pos rfl]
    rfl
  · rw [hFn, if_neg hyx, hEn, if_pos rfl, hDn1 y hxpy, hCn, if_pos rfl,
      hBn1 y hyly, hAn, if_neg hyx, hy]
    rfl
  · intro b bd hbl hbd
    obtain ⟨hb1, hb2⟩ := hbx b hbl
    have hb3 : xd.parent ≠ some b := by
      intro hh
      exact (hpx b hh).2.2 b hbl rfl
    rw [hFn, if_neg hb1, hEn, if_neg hb2, hDn1 b hb3, hCn, if_neg hb2,
      hBn2 b hbl, hAn, if_neg hb1, hbd]
    rfl
  · intro p pd hp hpd
    obtain ⟨hp1, hp2, hp3⟩ := hpx p hp
    have hylp : yd.right ≠ some p := by
      intro hh
      exact hp3 p hh rfl
    have hCp : sC.nodes p = some pd := by
      rw [hCn, if_neg hp2, hBn1 p hylp, hAn, if_neg hp1, hpd]
    rw [hFn, if_neg hp1, hEn, if_neg hp2, hDn2 p hp]
    rw [show rightOf sC (some p) = pd.right from by simp [rightOf, getN, hCp]]
    by_cases hsl : pd.right = some x
    · rw [if_pos hsl, if_pos hsl, hCp]; rfl
    · rw [if_neg hsl, if_neg hsl, hCp]; rfl
  · intro j hj1 hj2 hj3 hj4
    rw [hFn, if_neg hj1, hEn, if_neg hj2, hDn1 j hj4, hCn, if_neg hj2,
      hBn1 j hj3, hAn, if_neg hj1]
  · rw [show (rotR6 sE x y).root = sE.root from root_updNode _ _ _, hEroot, hDroot,
      hCroot, hBroot, hAroot]
  · rw [show (rotR6 sE x y).nodeCounter = sE.nodeCounter from counter_updNode _ _ _,
      hEcnt, hDcnt, hCcnt, hBcnt, hAcnt]

end RBViz

/-! ### Structural well-formedness: representation helpers -/

namespace RBViz

theorem ReprT.none_inv {s : TreeState} {par : Option Nat} {u : STree}
    (h : ReprT s par none u) : u = .leaf := by
  cases h
  rfl

theorem treeIds_nodup_node {n : Nat} {ul ur : STree}
    (h : (treeIds (STree.node n ul ur)).Nodup) :
    (treeIds ul).Nodup ∧ (treeIds ur).Nodup ∧ n ∉ treeIds ul ∧ n ∉ treeIds ur ∧
      ∀ i ∈ treeIds ul, i ∉ treeIds ur := by
  simp only [treeIds, List.nodup_cons, List.mem_append, List.nodup_append] at h
  obtain ⟨hn, hl, hr, hd⟩ := h
  push_neg at hn
  exact ⟨hl, hr, hn.1, hn.2, fun i hi => hd hi⟩

theorem ReprT.reparent {s s' : TreeState} {oldpar newpar oid : Option Nat} {u : STree}
    (h : ReprT s oldpar oid u) (hnd : (treeIds u).Nodup)
    (htop : ∀ i d, oid = some i → s.nodes i = some d →
      s'.nodes i = some { d with parent := newpar })
    (hrest : ∀ i ∈ treeIds u, oid ≠ some i → s'.nodes i = s.nodes i) :
    ReprT s' newpar oid u := by
  cases h with
  | leaf p => exact .leaf newpar
  | node p id d tl tr hid hp hl hr =>
    obtain ⟨hndl, hndr, hnl, hnr, _⟩ := treeIds_nodup_node hnd
    refine .node newpar id { d with parent := newpar } tl tr (htop id d rfl hid) rfl ?_ ?_
    · refine hl.frame ?_
      intro i hi
      refine hrest i (by simp [treeIds, hi]) ?_
      intro hh
      cases hh
      exact hnl hi
    · refine hr.frame ?_
      intro i hi
      refine hrest i (by simp [treeIds, hi]) ?_
      intro hh
      cases hh
      exact hnr hi

theorem ReprT.subtree {s : TreeState} {par oid : Option Nat} {t : STree}
    (h : ReprT s par oid t) (hnd : (treeIds t).Nodup)
    (hpar : ∀ q, par = some q → q ∉ treeIds t)
    {x : Nat} (hx : x ∈ treeIds t) :
    ∃ (xpar : Option Nat) (tl tr : STree),
      ReprT s xpar (some x) (.node x tl tr) ∧
      (treeIds (STree.node x tl tr)).Nodup ∧
      (∀ i ∈ treeIds (STree.node x tl tr), i ∈ treeIds t) ∧
      (∀ q, xpar = some q → q ∉ treeIds (STree.node x tl tr)) ∧
      ((xpar = par ∧ oid = some x) ∨ ∃ q, xpar = some q ∧ q ∈ treeIds t) := by
  induction h with
  | leaf p => simp [treeIds] at hx
  | node p id d tl tr hid hp hl hr ihl ihr =>
    obtain ⟨hndl, hndr, hnl, hnr, hdisj⟩ := treeIds_nodup_node hnd
    simp only [treeIds, List.mem_cons, List.mem_append] at hx
    rcases hx with rfl | hx | hx
    · exact ⟨p, tl, tr, .node p x d tl tr hid hp hl hr, hnd, fun i hi => hi,
        hpar, Or.inl ⟨rfl, rfl⟩⟩
    · obtain ⟨xpar, ul, ur, hsub, hsubnd, hsubmem, hsubpar, hloc⟩ := ihl hndl
        (by intro q hq; cases hq; exact hnl) hx
      refine ⟨xpar, ul, ur, hsub, hsubnd,
        fun i hi => by simp [treeIds, hsubmem i hi], hsubpar, ?_⟩
      rcases hloc with ⟨hxp, _⟩ | ⟨q, hq, hqm⟩
      · exact Or.inr ⟨id, hxp, by simp [treeIds]⟩
      · exact Or.inr ⟨q, hq, by simp [treeIds, hsubmem, hqm]⟩
    · obtain ⟨xpar, ul, ur, hsub, hsubnd, hsubmem, hsubpar, hloc⟩ := ihr hndr
        (by intro q hq; cases hq; exact hnr) hx
      refine ⟨xpar, ul, ur, hsub, hsubnd,
        fun i hi => by simp [treeIds, hsubmem i hi], hsubpar, ?_⟩
      rcases hloc with ⟨hxp, _⟩ | ⟨q, hq, hqm⟩
      · exact Or.inr ⟨id, hxp, by simp [treeIds]⟩
      · exact Or.inr ⟨q, hq, by simp [treeIds, hsubmem, hqm]⟩

end RBViz

/-! ### Structural well-formedness: rotation preservation -/

namespace RBViz

theorem ReprT.some_inv {s : TreeState} {par : Option Nat} {i : Nat} {u : STree}
    (h : ReprT s par (some i) u) :
    ∃ d tl tr, u = .node i tl tr ∧ s.nodes i = some d ∧ d.parent = par ∧
      ReprT s (some i) d.left tl ∧ ReprT s (some i) d.right tr := by
  cases h with
  | node _ _ d tl tr hid hp hl hr => exact ⟨d, tl, tr, rfl, hid, hp, hl, hr⟩

theorem ReprT.topId_eq {s : TreeState} {par oid : Option Nat} {u : STree}
    (h : ReprT s par oid u) : oid = topId u := by
  cases h with
  | leaf p => rfl
  | node _ _ d tl tr hid hp hl hr => rfl

theorem topId_mem {u : STree} {i : Nat} (h : topId u = some i) : i ∈ treeIds u := by
  cases u with
  | leaf => simp [topId] at h
  | node m l r =>
    simp only [topId, Option.some.injEq] at h
    subst h
    simp [treeIds]

theorem topId_rotAtL_ne {u : STree} {x : Nat} (h : topId u ≠ some x) :
    topId (rotAtL u x) = topId u := by
  cases u with
  | leaf => rfl
  | node m l r =>
    have hm : m ≠ x := by intro hh; subst hh; exact h rfl
    simp [rotAtL, hm, topId]

theorem ReprT.pivot_parts {s : TreeState} {par : Option Nat} {u : STree} {x y : Nat}
    {xd yd : RBNodeData} (hx : s.nodes x = some xd) (hxr : xd.right = some y)
    (hy : s.nodes y = some yd) (h : ReprT s par (some x) u) :
    y ∈ treeIds u ∧ (∀ b, yd.left = some b → b ∈ treeIds u) ∧
      topId (rotAtL u x) = some y := by
  obtain ⟨xd2, tl, tr, rfl, hx2, _, _, htr⟩ := h.some_inv
  rw [hx] at hx2
  injection hx2 with hx2
  subst hx2
  rw [hxr] at htr
  obtain ⟨yd2, rl, rr, rfl, hy2, _, hyl, _⟩ := htr.some_inv
  rw [hy] at hy2
  injection hy2 with hy2
  subst hy2
  refine ⟨by simp [treeIds], ?_, by simp [rotAtL, topId]⟩
  intro b hb
  rw [hb] at hyl
  obtain ⟨_, _, _, rfl, _⟩ := hyl.some_inv
  simp [treeIds]

theorem ReprT.rotL_aux {s s' : TreeState} {x y : Nat} {xd yd : RBNodeData}
    (hx : s.nodes x = some xd) (hxr : xd.right = some y) (hy : s.nodes y = some yd)
    (SP1 : s'.nodes x = some { xd with right := yd.left, parent := some y })
    (SP2 : s'.nodes y = some { yd with left := some x, parent := xd.parent })
    (SP3 : ∀ b bd, yd.left = some b → s.nodes b = some bd →
      s'.nodes b = some { bd with parent := some x })
    (SP4 : ∀ p pd, xd.parent = some p → s.nodes p = some pd →
      s'.nodes p = some (if pd.left = some x then { pd with left := some y }
        else { pd with right := some y }))
    (SP5 : ∀ j, j ≠ x → j ≠ y → yd.left ≠ some j → xd.parent ≠ some j →
      s'.nodes j = s.nodes j) :
    ∀ {u : STree} {par oid : Option Nat}, ReprT s par oid u → (treeIds u).Nodup →
      x ∈ treeIds u → (∀ q, par = some q → q ∉ treeIds u) →
      ReprT s' par (topId (rotAtL u x)) (rotAtL u x) := by
  intro u
  induction u with
  | leaf => intro par oid h hnd hxu hpar; simp [treeIds] at hxu
  | node n ul ur ihl ihr =>
    intro par oid h hnd hxu hpar
    obtain ⟨d, hoid, hn, hp, hl, hr⟩ := h.node_inv
    obtain ⟨hndl, hndr, hnl, hnr, hdisj⟩ := treeIds_nodup_node hnd
    by_cases hnx : n = x
    · -- the pivot node itself
      subst hnx
      rw [hx] at hn
      injection hn with hn
      subst hn
      rw [hxr] at hr
      obtain ⟨yd2, rl, rr, rfl, hy2, hyp, hyl, hyr⟩ := hr.some_inv
      rw [hy] at hy2
      injection hy2 with hy2
      subst hy2
      have hys : y ∈ treeIds (STree.node y rl rr) := by simp [treeIds]
      obtain ⟨hndrl, hndrr, hynrl, hynrr, hdisjr⟩ := treeIds_nodup_node hndr
      have hbrl : ∀ b, yd.left = some b → b ∈ treeIds rl := by
        intro b hb
        rw [hb] at hyl
        obtain ⟨_, _, _, rfl, _⟩ := hyl.some_inv
        simp [treeIds]
      have hrwt : rotAtL (STree.node n ul (STree.node y rl rr)) n =
          .node y (.node n ul rl) rr := by
        simp [rotAtL]
      rw [hrwt]
      refine .node par y { yd with left := some n, parent := xd.parent } (.node n ul rl) rr
        SP2 (by simpa using hp) ?_ ?_
      · refine .node (some y) n { xd with right := yd.left, parent := some y } ul rl
          SP1 rfl ?_ ?_
        · refine hl.frame ?_
          intro i hi
          refine SP5 i (fun hh => hnl (hh ▸ hi)) (fun hh => hdisj i hi (hh ▸ hys)) ?_ ?_
          · intro hh
            exact hdisj i hi (by simp [treeIds, hbrl i hh])
          · intro hh
            rw [hp] at hh
            cases hh
            exact hpar i rfl (by simp [treeIds, hi])
        · refine hyl.reparent hndrl (fun i dd hi hdd => SP3 i dd hi hdd) ?_
          intro i hi hne
          refine SP5 i ?_ ?_ hne ?_
          · intro hh
            subst hh
            exact hnr (by simp [treeIds, hi])
          · intro hh
            subst hh
            exact hynrl hi
          · intro hh
            rw [hp] at hh
            cases hh
            exact hpar i rfl (by simp [treeIds, hi])
      · refine hyr.frame ?_
        intro i hi
        refine SP5 i ?_ ?_ ?_ ?_
        · intro hh
          subst hh
          exact hnr (by simp [treeIds, hi])
        · intro hh
          subst hh
          exact hynrr hi
        · intro hh
          exact hdisjr i (hbrl i hh) hi
        · intro hh
          rw [hp] at hh
          cases hh
          exact hpar i rfl (by simp [treeIds, hi])
    · -- above or beside the pivot
      have hxu' : x ∈ treeIds ul ∨ x ∈ treeIds ur := by
        simp only [treeIds, List.mem_cons, List.mem_append] at hxu
        rcases hxu with rfl | hxu | hxu
        · exact absurd rfl hnx
        · exact Or.inl hxu
        · exact Or.inr hxu
      rcases hxu' with hxl | hxr'
      · -- x is in the left subtree
        obtain ⟨xpar, sl, sr, hsub, hsubnd, hsubmem, hsubpar, hloc⟩ :=
          hl.subtree hndl (by intro q hq; cases hq; exact hnl) hxl
        obtain ⟨xd2, sl2, sr2, hsubeq, hx2, hxp2, _, _⟩ := hsub.some_inv
        rw [hx] at hx2
        injection hx2 with hx2
        subst hx2
        obtain ⟨hymem0, hbmem0, _⟩ := hsub.pivot_parts hx hxr hy
        have hymem : y ∈ treeIds ul := hsubmem y hymem0
        have hbmem : ∀ b, yd.left = some b → b ∈ treeIds ul :=
          fun b hb => hsubmem b (hbmem0 b hb)
        have hrwt : rotAtL (STree.node n ul ur) x =
            .node n (rotAtL ul x) (rotAtL ur x) := by
          simp [rotAtL, hnx]
        have hurx : rotAtL ur x = ur := rotAtL_not_mem (fun hh => hdisj x hxl hh)
        rw [hrwt, hurx]
        simp only [topId]
        have hframe_ur : ReprT s' (some n) d.right ur := by
          refine hr.frame ?_
          intro i hi
          refine SP5 i (fun hh => hdisj x hxl (hh ▸ hi)) ?_ ?_ ?_
          · intro hh
            exact hdisj y hymem (hh ▸ hi)
          · intro hh
            exact hdisj i (hbmem i hh) hi
          · intro hh
            rw [hxp2] at hh
            rcases hloc with ⟨hxp3, _⟩ | ⟨q, hq, hqm⟩
            · rw [hxp3] at hh
              cases hh
              exact hnr hi
            · rw [hq] at hh
              cases hh
              exact hdisj i hqm hi
        have hih : ReprT s' (some n) (topId (rotAtL ul x)) (rotAtL ul x) :=
          ihl hl hndl hxl (by intro q hq; cases hq; exact hnl)
        rcases hloc with ⟨hxp3, hdl⟩ | ⟨q, hq, hqm⟩
        · -- x is n's direct left child: n's record gains left := some y
          have hxpn : xd.parent = some n := hxp2.trans hxp3
          have hrecn := SP4 n d hxpn hn
          rw [if_pos hdl] at hrecn
          have htop2 : topId (rotAtL ul x) = some y := by
            rw [hdl] at hl
            exact (hl.pivot_parts hx hxr hy).2.2
          refine .node par n { d with left := some y } (rotAtL ul x) ur hrecn
            (by simpa using hp) ?_ (by simpa using hframe_ur)
          rw [htop2] at hih
          exact hih
        · -- x is deeper in the left subtree: n's record is untouched
          have hxpq : xd.parent = some q := hxp2.trans hq
          have hqn : q ≠ n := fun hh => hnl (hh ▸ hqm)
          have hxpn' : xd.parent ≠ some n := by
            rw [hxpq]
            intro hh
            injection hh with hh
            exact hqn hh
          have htop1 : topId (rotAtL ul x) = topId ul := by
            refine topId_rotAtL_ne ?_
            intro hh
            have htl := hl.topId_eq
            rw [hh] at htl
            rw [htl] at hl
            obtain ⟨xd3, _, _, _, hx3, hxp3, _, _⟩ := hl.some_inv
            rw [hx] at hx3
            injection hx3 with hx3
            subst hx3
            rw [hxpq] at hxp3
            injection hxp3 with hxp3
            exact hqn hxp3
          have hrecn : s'.nodes n = some d := by
            rw [SP5 n (fun hh => hnx hh) (fun hh => hnl (hh ▸ hymem))
              (fun hh => hnl (hbmem n hh)) hxpn']
            exact hn
          refine .node par n d (rotAtL ul x) ur hrecn (by simpa using hp) ?_
            (by simpa using hframe_ur)
          rw [htop1, ← hl.topId_eq] at hih
          exact hih
      · -- x is in the right subtree (mirror)
        obtain ⟨xpar, sl, sr, hsub, hsubnd, hsubmem, hsubpar, hloc⟩ :=
          hr.subtree hndr (by intro q hq; cases hq; exact hnr) hxr'
        obtain ⟨xd2, sl2, sr2, hsubeq, hx2, hxp2, _, _⟩ := hsub.some_inv
        rw [hx] at hx2
        injection hx2 with hx2
        subst hx2
        obtain ⟨hymem0, hbmem0, _⟩ := hsub.pivot_parts hx hxr hy
        have hymem : y ∈ treeIds ur := hsubmem y hymem0
        have hbmem : ∀ b, yd.left = some b → b ∈ treeIds ur :=
          fun b hb => hsubmem b (hbmem0 b hb)
        have hrwt : rotAtL (STree.node n ul ur) x =
            .node n (rotAtL ul x) (rotAtL ur x) := by
          simp [rotAtL, hnx]
        have hulx : rotAtL ul x = ul := rotAtL_not_mem (fun hh => hdisj x hh hxr')
        rw [hrwt, hulx]
        simp only [topId]
        have hframe_ul : ReprT s' (some n) d.left ul := by
          refine hl.frame ?_
          intro i hi
          refine SP5 i (fun hh => hdisj i hi (hh ▸ hxr')) ?_ ?_ ?_
          · intro hh
            exact hdisj i hi (hh ▸ hymem)
          · intro hh
            exact hdisj i hi (hbmem i hh)
          · intro hh
            rw [hxp2] at hh
            rcases hloc with ⟨hxp3, _⟩ | ⟨q, hq, hqm⟩
            · rw [hxp3] at hh
              cases hh
              exact hnl hi
            · rw [hq] at hh
              cases hh
              exact hdisj i hi hqm
        have hih : ReprT s' (some n) (topId (rotAtL ur x)) (rotAtL ur x) :=
          ihr hr hndr hxr' (by intro q hq; cases hq; exact hnr)
        rcases hloc with ⟨hxp3, hdr⟩ | ⟨q, hq, hqm⟩
        · -- x is n's direct right child: n's record gains right := some y
          have hxpn : xd.parent = some n := hxp2.trans hxp3
          have hdlnx : d.left ≠ some x := by
            intro hh
            have := topId_mem (show topId ul = some x from by rw [← hl.topId_eq, hh])
            exact hdisj x this hxr'
          have hrecn := SP4 n d hxpn hn
          rw [if_neg hdlnx] at hrecn
          have htop2 : topId (rotAtL ur x) = some y := by
            rw [hdr] at hr
            exact (hr.pivot_parts hx hxr hy).2.2
          refine .node par n { d with right := some y } ul (rotAtL ur x) hrecn
            (by simpa using hp) (by simpa using hframe_ul) ?_
          rw [htop2] at hih
          exact hih
        · -- x is deeper in the right subtree: n's record is untouched
          have hxpq : xd.parent = some q := hxp2.trans hq
          have hqn : q ≠ n := fun hh => hnr (hh ▸ hqm)
          have hxpn' : xd.parent ≠ some n := by
            rw [hxpq]
            intro hh
            injection hh with hh
            exact hqn hh
          have htop1 : topId (rotAtL ur x) = topId ur := by
            refine topId_rotAtL_ne ?_
            intro hh
            have htl := hr.topId_eq
            rw [hh] at htl
            rw [htl] at hr
            obtain ⟨xd3, _, _, _, hx3, hxp3, _, _⟩ := hr.some_inv
            rw [hx] at hx3
            injection hx3 with hx3
            subst hx3
            rw [hxpq] at hxp3
            injection hxp3 with hxp3
            exact hqn hxp3
          have hrecn : s'.nodes n = some d := by
            rw [SP5 n (fun hh => hnx hh) (fun hh => hnr (hh ▸ hymem))
              (fun hh => hnr (hbmem n hh)) hxpn']
            exact hn
          refine .node par n d ul (rotAtL ur x) hrecn (by simpa using hp)
            (by simpa using hframe_ul) ?_
          rw [htop1, ← hr.topId_eq] at hih
          exact hih

end RBViz

namespace RBViz

theorem rotAtL_noop {s : TreeState} {x : Nat} {xd : RBNodeData}
    (hx : s.nodes x = some xd) (hxr : xd.right = none) :
    ∀ {u : STree} {par oid : Option Nat}, ReprT s par oid u → rotAtL u x = u := by
  intro u
  induction u with
  | leaf => intro par oid h; rfl
  | node n ul ur ihl ihr =>
    intro par oid h
    obtain ⟨d, hoid, hn, hp, hl, hr⟩ := h.node_inv
    by_cases hnx : n = x
    · subst hnx
      rw [hx] at hn
      injection hn with hn
      subst hn
      rw [hxr] at hr
      rw [hr.none_inv]
      simp [rotAtL]
    · simp only [rotAtL, if_neg hnx]
      rw [ihl hl, ihr hr]

theorem ReprT.rotateLeft_pres {s : TreeState} {t : STree}
    (h : ReprT s none s.root t) (hnd : (treeIds t).Nodup) {x : Nat}
    (hxt : x ∈ treeIds t) :
    ReprT (rotateLeft s x) none (rotateLeft s x).root (rotAtL t x) ∧
    (rotateLeft s x).nodeCounter = s.nodeCounter := by
  obtain ⟨xpar, sl, sr, hsub, hsubnd, hsubmem, hsubpar, hloc⟩ :=
    h.subtree hnd (by simp) hxt
  obtain ⟨xd, sl2, sr2, hsubeq, hx, hxp, hsl, hsr⟩ := hsub.some_inv
  injection hsubeq with e1 e2 e3
  subst e2
  subst e3
  cases hrt : xd.right with
  | none =>
    have hnoop : rotateLeft s x = s := by
      unfold rotateLeft
      rw [hx]
      simp [hrt]
    rw [hnoop, rotAtL_noop hx hrt h]
    exact ⟨h, rfl⟩
  | some y =>
    rw [hrt] at hsr
    obtain ⟨yd, rl, rr, hsreq, hy, hyp, hyl, hyr⟩ := hsr.some_inv
    subst hsreq
    obtain ⟨hndsl, hndsr, hxnsl, hxnsr, hdisjs⟩ := treeIds_nodup_node hsubnd
    obtain ⟨hndrl, hndrr, hynrl, hynrr, hdisjr⟩ := treeIds_nodup_node hndsr
    have hymem : y ∈ treeIds (STree.node y rl rr) := by simp [treeIds]
    have hxy : x ≠ y := fun hh => hxnsr (hh ▸ hymem)
    have hbin : ∀ b, yd.left = some b → b ∈ treeIds rl := by
      intro b hb
      rw [hb] at hyl
      obtain ⟨_, _, _, hbeq, _⟩ := hyl.some_inv
      rw [hbeq]
      simp [treeIds]
    have hbx : ∀ b, yd.left = some b → b ≠ x ∧ b ≠ y := by
      intro b hb
      refine ⟨fun hh => hxnsr ?_, fun hh => hynrl (hh ▸ hbin b hb)⟩
      subst hh
      simp [treeIds, hbin b hb]
    have hpx : ∀ p, xd.parent = some p → p ≠ x ∧ p ≠ y ∧
        ∀ b, yd.left = some b → p ≠ b := by
      intro p hp
      rw [hxp] at hp
      have hnot := hsubpar p hp
      refine ⟨fun hh => hnot (by subst hh; simp [treeIds]),
        fun hh => hnot (by subst hh; simp [treeIds, hymem]), ?_⟩
      intro b hb hh
      subst hh
      exact hnot (by simp [treeIds, hbin p hb])
    obtain ⟨SP1, SP2, SP3, SP4, SP5, SP6, SP7⟩ := rotateLeft_spec hx hrt hy hxy hbx hpx
    have haux := ReprT.rotL_aux hx hrt hy SP1 SP2 SP3 SP4 SP5 h hnd hxt (by simp)
    have hroot : (rotateLeft s x).root = topId (rotAtL t x) := by
      rw [SP6]
      cases hxpc : xd.parent with
      | none =>
        rw [if_pos rfl]
        rcases hloc with ⟨hxp3, hoid⟩ | ⟨q, hq, hqm⟩
        · rw [hoid] at h
          exact ((h.pivot_parts hx hrt hy).2.2).symm
        · rw [hxp] at hxpc
          rw [hxpc] at hq
          cases hq
      | some p =>
        rw [if_neg (by simp)]
        have htne : topId t ≠ some x := by
          intro hh
          have := h.topId_eq
          rw [hh] at this
          rw [this] at h
          obtain ⟨xd3, _, _, _, hx3, hxp3, _, _⟩ := h.some_inv
          rw [hx] at hx3
          injection hx3 with hx3
          subst hx3
          rw [hxpc] at hxp3
          cases hxp3
        rw [topId_rotAtL_ne htne, ← h.topId_eq]
    rw [hroot]
    exact ⟨haux, SP7⟩

end RBViz

namespace RBViz

theorem topId_rotAtR_ne {u : STree} {x : Nat} (h : topId u ≠ some x) :
    topId (rotAtR u x) = topId u := by
  cases u with
  | leaf => rfl
  | node m l r =>
    have hm : m ≠ x := by intro hh; subst hh; exact h rfl
    simp [rotAtR, hm, topId]

theorem ReprT.pivot_parts_r {s : TreeState} {par : Option Nat} {u : STree} {x y : Nat}
    {xd yd : RBNodeData} (hx : s.nodes x = some xd) (hxl : xd.left = some y)
    (hy : s.nodes y = some yd) (h : ReprT s par (some x) u) :
    y ∈ treeIds u ∧ (∀ b, yd.right = some b → b ∈ treeIds u) ∧
      topId (rotAtR u x) = some y := by
  obtain ⟨xd2, tl, tr, rfl, hx2, _, htl, _⟩ := h.some_inv
  rw [hx] at hx2
  injection hx2 with hx2
  subst hx2
  rw [hxl] at htl
  obtain ⟨yd2, rl, rr, rfl, hy2, _, _, hyr⟩ := htl.some_inv
  rw [hy] at hy2
  injection hy2 with hy2
  subst hy2
  refine ⟨by simp [treeIds], ?_, by simp [rotAtR, topId]⟩
  intro b hb
  rw [hb] at hyr
  obtain ⟨_, _, _, rfl, _⟩ := hyr.some_inv
  simp [treeIds]

theorem ReprT.rotR_aux {s s' : TreeState} {x y : Nat} {xd yd : RBNodeData}
    (hx : s.nodes x = some xd) (hxl : xd.left = some y) (hy : s.nodes y = some yd)
    (SP1 : s'.nodes x = some { xd with left := yd.right, parent := some y })
    (SP2 : s'.nodes y = some { yd with right := some x, parent := xd.parent })
    (SP3 : ∀ b bd, yd.right = some b → s.nodes b = some bd →
      s'.nodes b = some { bd with parent := some x })
    (SP4 : ∀ p pd, xd.parent = some p → s.nodes p = some pd →
      s'.nodes p = some (if pd.right = some x then { pd with right := some y }
        else { pd with left := some y }))
    (SP5 : ∀ j, j ≠ x → j ≠ y → yd.right ≠ some j → xd.parent ≠ some j →
      s'.nodes j = s.nodes j) :
    ∀ {u : STree} {par oid : Option Nat}, ReprT s par oid u → (treeIds u).Nodup →
      x ∈ treeIds u → (∀ q, par = some q → q ∉ treeIds u) →
      ReprT s' par (topId (rotAtR u x)) (rotAtR u x) := by
  intro u
  induction u with
  | leaf => intro par oid h hnd hxu hpar; simp [treeIds] at hxu
  | node n ul ur ihl ihr =>
    intro par oid h hnd hxu hpar
    obtain ⟨d, hoid, hn, hp, hl, hr⟩ := h.node_inv
    obtain ⟨hndl, hndr, hnl, hnr, hdisj⟩ := treeIds_nodup_node hnd
    by_cases hnx : n = x
    · -- the pivot node itself
      subst hnx
      rw [hx] at hn
      injection hn with hn
      subst hn
      rw [hxl] at hl
      obtain ⟨yd2, rl, rr, rfl, hy2, hyp, hyl, hyr⟩ := hl.some_inv
      rw [hy] at hy2
      injection hy2 with hy2
      subst hy2
      have hys : y ∈ treeIds (STree.node y rl rr) := by simp [treeIds]
      obtain ⟨hndrl, hndrr, hynrl, hynrr, hdisjr⟩ := treeIds_nodup_node hndl
      have hbrr : ∀ b, yd.right = some b → b ∈ treeIds rr := by
        intro b hb
        rw [hb] at hyr
        obtain ⟨_, _, _, rfl, _⟩ := hyr.some_inv
        simp [treeIds]
      have hrwt : rotAtR (STree.node n (STree.node y rl rr) ur) n =
          .node y rl (.node n rr ur) := by
        simp [rotAtR]
      rw [hrwt]
      refine .node par y { yd with right := some n, parent := xd.parent } rl (.node n rr ur)
        SP2 (by simpa using hp) ?_ ?_
      · refine hyl.frame ?_
        intro i hi
        refine SP5 i ?_ ?_ ?_ ?_
        · intro hh
          subst hh
          exact hnl (by simp [treeIds, hi])
        · intro hh
          subst hh
          exact hynrl hi
        · intro hh
          exact hdisjr i hi (hbrr i hh)
        · intro hh
          rw [hp] at hh
          cases hh
          exact hpar i rfl (by simp [treeIds, hi])
      · refine .node (some y) n { xd with left := yd.right, parent := some y } rr ur
          SP1 rfl ?_ ?_
        · refine hyr.reparent hndrr (fun i dd hi hdd => SP3 i dd hi hdd) ?_
          intro i hi hne
          refine SP5 i ?_ ?_ hne ?_
          · intro hh
            subst hh
            exact hnl (by simp [treeIds, hi])
          · intro hh
            subst hh
            exact hynrr hi
          · intro hh
            rw [hp] at hh
            cases hh
            exact hpar i rfl (by simp [treeIds, hi])
        · refine hr.frame ?_
          intro i hi
          refine SP5 i (fun hh => hnr (hh ▸ hi)) (fun hh => hdisj y hys (hh ▸ hi)) ?_ ?_
          · intro hh
            exact hdisj i (by simp [treeIds, hbrr i hh]) hi
          · intro hh
            rw [hp] at hh
            cases hh
            exact hpar i rfl (by simp [treeIds, hi])
    · -- above or beside the pivot
      have hxu' : x ∈ treeIds ul ∨ x ∈ treeIds ur := by
        simp only [treeIds, List.mem_cons, List.mem_append] at hxu
        rcases hxu with rfl | hxu | hxu
        · exact absurd rfl hnx
        · exact Or.inl hxu
        · exact Or.inr hxu
      rcases hxu' with hxl' | hxr'
      · -- x is in the left subtree
        obtain ⟨xpar, sl, sr, hsub, hsubnd, hsubmem, hsubpar, hloc⟩ :=
          hl.subtree hndl (by intro q hq; cases hq; exact hnl) hxl'
        obtain ⟨xd2, sl2, sr2, hsubeq, hx2, hxp2, _, _⟩ := hsub.some_inv
        rw [hx] at hx2
        injection hx2 with hx2
        subst hx2
        obtain ⟨hymem0, hbmem0, _⟩ := hsub.pivot_parts_r hx hxl hy
        have hymem : y ∈ treeIds ul := hsubmem y hymem0
        have hbmem : ∀ b, yd.right = some b → b ∈ treeIds ul :=
          fun b hb => hsubmem b (hbmem0 b hb)
        have hrwt : rotAtR (STree.node n ul ur) x =
            .node n (rotAtR ul x) (rotAtR ur x) := by
          simp [rotAtR, hnx]
        have hurx : rotAtR ur x = ur := rotAtR_not_mem (fun hh => hdisj x hxl' hh)
        rw [hrwt, hurx]
        simp only [topId]
        have hframe_ur : ReprT s' (some n) d.right ur := by
          refine hr.frame ?_
          intro i hi
          refine SP5 i (fun hh => hdisj x hxl' (hh ▸ hi)) ?_ ?_ ?_
          · intro hh
            exact hdisj y hymem (hh ▸ hi)
          · intro hh
            exact hdisj i (hbmem i hh) hi
          · intro hh
            rw [hxp2] at hh
            rcases hloc with ⟨hxp3, _⟩ | ⟨q, hq, hqm⟩
            · rw [hxp3] at hh
              cases hh
              exact hnr hi
            · rw [hq] at hh
              cases hh
              exact hdisj i hqm hi
        have hih : ReprT s' (some n) (topId (rotAtR ul x)) (rotAtR ul x) :=
          ihl hl hndl hxl' (by intro q hq; cases hq; exact hnl)
        rcases hloc with ⟨hxp3, hdl⟩ | ⟨q, hq, hqm⟩
        · -- x is n's direct left child: n's record gains left := some y
          have hxpn : xd.parent = some n := hxp2.trans hxp3
          have hdrnx : d.right ≠ some x := by
            intro hh
            have := topId_mem (show topId ur = some x from by rw [← hr.topId_eq, hh])
            exact hdisj x hxl' this
          have hrecn := SP4 n d hxpn hn
          rw [if_neg hdrnx] at hrecn
          have htop2 : topId (rotAtR ul x) = some y := by
            rw [hdl] at hl
            exact (hl.pivot_parts_r hx hxl hy).2.2
          refine .node par n { d with left := some y } (rotAtR ul x) ur hrecn
            (by simpa using hp) ?_ (by simpa using hframe_ur)
          rw [htop2] at hih
          exact hih
        · -- x is deeper in the left subtree: n's record is untouched
          have hxpq : xd.parent = some q := hxp2.trans hq
          have hqn : q ≠ n := fun hh => hnl (hh ▸ hqm)
          have hxpn' : xd.parent ≠ some n := by
            rw [hxpq]
            intro hh
            injection hh with hh
            exact hqn hh
          have htop1 : topId (rotAtR ul x) = topId ul := by
            refine topId_rotAtR_ne ?_
            intro hh
            have htl := hl.topId_eq
            rw [hh] at htl
            rw [htl] at hl
            obtain ⟨xd3, _, _, _, hx3, hxp3, _, _⟩ := hl.some_inv
            rw [hx] at hx3
            injection hx3 with hx3
            subst hx3
            rw [hxpq] at hxp3
            injection hxp3 with hxp3
            exact hqn hxp3
          have hrecn : s'.nodes n = some d := by
            rw [SP5 n (fun hh => hnx hh) (fun hh => hnl (hh ▸ hymem))
              (fun hh => hnl (hbmem n hh)) hxpn']
            exact hn
          refine .node par n d (rotAtR ul x) ur hrecn (by simpa using hp) ?_
            (by simpa using hframe_ur)
          rw [htop1, ← hl.topId_eq] at hih
          exact hih
      · -- x is in the right subtree
        obtain ⟨xpar, sl, sr, hsub, hsubnd, hsubmem, hsubpar, hloc⟩ :=
          hr.subtree hndr (by intro q hq; cases hq; exact hnr) hxr'
        obtain ⟨xd2, sl2, sr2, hsubeq, hx2, hxp2, _, _⟩ := hsub.some_inv
        rw [hx] at hx2
        injection hx2 with hx2
        subst hx2
        obtain ⟨hymem0, hbmem0, _⟩ := hsub.pivot_parts_r hx hxl hy
        have hymem : y ∈ treeIds ur := hsubmem y hymem0
        have hbmem : ∀ b, yd.right = some b → b ∈ treeIds ur :=
          fun b hb => hsubmem b (hbmem0 b hb)
        have hrwt : rotAtR (STree.node n ul ur) x =
            .node n (rotAtR ul x) (rotAtR ur x) := by
          simp [rotAtR, hnx]
        have hulx : rotAtR ul x = ul := rotAtR_not_mem (fun hh => hdisj x hh hxr')
        rw [hrwt, hulx]
        simp only [topId]
        have hframe_ul : ReprT s' (some n) d.left ul := by
          refine hl.frame ?_
          intro i hi
          refine SP5 i (fun hh => hdisj i hi (hh ▸ hxr')) ?_ ?_ ?_
          · intro hh
            exact hdisj i hi (hh ▸ hymem)
          · intro hh
            exact hdisj i hi (hbmem i hh)
          · intro hh
            rw [hxp2] at hh
            rcases hloc with ⟨hxp3, _⟩ | ⟨q, hq, hqm⟩
            · rw [hxp3] at hh
              cases hh
              exact hnl hi
            · rw [hq] at hh
              cases hh
              exact hdisj i hi hqm
        have hih : ReprT s' (some n) (topId (rotAtR ur x)) (rotAtR ur x) :=
          ihr hr hndr hxr' (by intro q hq; cases hq; exact hnr)
        rcases hloc with ⟨hxp3, hdr⟩ | ⟨q, hq, hqm⟩
        · -- x is n's direct right child: n's record gains right := some y
          have hxpn : xd.parent = some n := hxp2.trans hxp3
          have hrecn := SP4 n d hxpn hn
          rw [if_pos hdr] at hrecn
          have htop2 : topId (rotAtR ur x) = some y := by
            rw [hdr] at hr
            exact (hr.pivot_parts_r hx hxl hy).2.2
          refine .node par n { d with right := some y } ul (rotAtR ur x) hrecn
            (by simpa using hp) (by simpa using hframe_ul) ?_
          rw [htop2] at hih
          exact hih
        · -- x is deeper in the right subtree: n's record is untouched
          have hxpq : xd.parent = some q := hxp2.trans hq
          have hqn : q ≠ n := fun hh => hnr (hh ▸ hqm)
          have hxpn' : xd.parent ≠ some n := by
            rw [hxpq]
            intro hh
            injection hh with hh
            exact hqn hh
          have htop1 : topId (rotAtR ur x) = topId ur := by
            refine topId_rotAtR_ne ?_
            intro hh
            have htl := hr.topId_eq
            rw [hh] at htl
            rw [htl] at hr
            obtain ⟨xd3, _, _, _, hx3, hxp3, _, _⟩ := hr.some_inv
            rw [hx] at hx3
            injection hx3 with hx3
            subst hx3
            rw [hxpq] at hxp3
            injection hxp3 with hxp3
            exact hqn hxp3
          have hrecn : s'.nodes n = some d := by
            rw [SP5 n (fun hh => hnx hh) (fun hh => hnr (hh ▸ hymem))
              (fun hh => hnr (hbmem n hh)) hxpn']
            exact hn
          refine .node par n d ul (rotAtR ur x) hrecn (by simpa using hp)
            (by simpa using hframe_ul) ?_
          rw [htop1, ← hr.topId_eq] at hih
          exact hih

theorem rotAtR_noop {s : TreeState} {x : Nat} {xd : RBNodeData}
    (hx : s.nodes x = some xd) (hxl : xd.left = none) :
    ∀ {u : STree} {par oid : Option Nat}, ReprT s par oid u → rotAtR u x = u := by
  intro u
  induction u with
  | leaf => intro par oid h; rfl
  | node n ul ur ihl ihr =>
    intro par oid h
    obtain ⟨d, hoid, hn, hp, hl, hr⟩ := h.node_inv
    by_cases hnx : n = x
    · subst hnx
      rw [hx] at hn
      injection hn with hn
      subst hn
      rw [hxl] at hl
      rw [hl.none_inv]
      simp [rotAtR]
    · simp only [rotAtR, if_neg hnx]
      rw [ihl hl, ihr hr]

theorem ReprT.rotateRight_pres {s : TreeState} {t : STree}
    (h : ReprT s none s.root t) (hnd : (treeIds t).Nodup) {x : Nat}
    (hxt : x ∈ treeIds t) :
    ReprT (rotateRight s x) none (rotateRight s x).root (rotAtR t x) ∧
    (rotateRight s x).nodeCounter = s.nodeCounter := by
  obtain ⟨xpar, sl, sr, hsub, hsubnd, hsubmem, hsubpar, hloc⟩ :=
    h.subtree hnd (by simp) hxt
  obtain ⟨xd, sl2, sr2, hsubeq, hx, hxp, hsl, hsr⟩ := hsub.some_inv
  injection hsubeq with e1 e2 e3
  subst e2
  subst e3
  cases hlt : xd.left with
  | none =>
    have hnoop : rotateRight s x = s := by
      unfold rotateRight
      rw [hx]
      simp [hlt]
    rw [hnoop, rotAtR_noop hx hlt h]
    exact ⟨h, rfl⟩
  | some y =>
    rw [hlt] at hsl
    obtain ⟨yd, rl, rr, hsleq, hy, hyp, hyl, hyr⟩ := hsl.some_inv
    subst hsleq
    obtain ⟨hndsl, hndsr, hxnsl, hxnsr, hdisjs⟩ := treeIds_nodup_node hsubnd
    obtain ⟨hndrl, hndrr, hynrl, hynrr, hdisjr⟩ := treeIds_nodup_node hndsl
    have hymem : y ∈ treeIds (STree.node y rl rr) := by simp [treeIds]
    have hxy : x ≠ y := fun hh => hxnsl (hh ▸ hymem)
    have hbin : ∀ b, yd.right = some b → b ∈ treeIds rr := by
      intro b hb
      rw [hb] at hyr
      obtain ⟨_, _, _, hbeq, _⟩ := hyr.some_inv
      rw [hbeq]
      simp [treeIds]
    have hbx : ∀ b, yd.right = some b → b ≠ x ∧ b ≠ y := by
      intro b hb
      refine ⟨fun hh => hxnsl ?_, fun hh => hynrr (hh ▸ hbin b hb)⟩
      subst hh
      simp [treeIds, hbin b hb]
    have hpx : ∀ p, xd.parent = some p → p ≠ x ∧ p ≠ y ∧
        ∀ b, yd.right = some b → p ≠ b := by
      intro p hp
      rw [hxp] at hp
      have hnot := hsubpar p hp
      refine ⟨fun hh => hnot (by subst hh; simp [treeIds]),
        fun hh => hnot (by subst hh; simp [treeIds, hymem]), ?_⟩
      intro b hb hh
      subst hh
      exact hnot (by simp [treeIds, hbin p hb])
    obtain ⟨SP1, SP2, SP3, SP4, SP5, SP6, SP7⟩ := rotateRight_spec hx hlt hy hxy hbx hpx
    have haux := ReprT.rotR_aux hx hlt hy SP1 SP2 SP3 SP4 SP5 h hnd hxt (by simp)
    have hroot : (rotateRight s x).root = topId (rotAtR t x) := by
      rw [SP6]
      cases hxpc : xd.parent with
      | none =>
        rw [if_pos rfl]
        rcases hloc with ⟨hxp3, hoid⟩ | ⟨q, hq, hqm⟩
        · rw [hoid] at h
          exact ((h.pivot_parts_r hx hlt hy).2.2).symm
        · rw [hxp] at hxpc
          rw [hxpc] at hq
          cases hq
      | some p =>
        rw [if_neg (by simp)]
        have htne : topId t ≠ some x := by
          intro hh
          have := h.topId_eq
          rw [hh] at this
          rw [this] at h
          obtain ⟨xd3, _, _, _, hx3, hxp3, _, _⟩ := h.some_inv
          rw [hx] at hx3
          injection hx3 with hx3
          subst hx3
          rw [hxpc] at hxp3
          cases hxp3
        rw [topId_rotAtR_ne htne, ← h.topId_eq]
    rw [hroot]
    exact ⟨haux, SP7⟩

end RBViz

namespace RBViz

theorem nodes_setNode (s : TreeState) (i : Nat) (d : RBNodeData) (j : Nat) :
    (setNode s i d).nodes j = if j = i then some d else s.nodes j := rfl

theorem recordStep_snapshots (s : TreeState) (r : RecState) (d : String)
    (hl : List Nat) :
    (recordStep s r d hl).snapshots =
      r.snapshots ++ [⟨r.snapshots.length, d, serializeTree s,
        hl.filter (fun i => (serializeTree s).any (fun n => n.id = i)),
        diffSnapshots r.previousNodes (serializeTree s)⟩] := rfl

theorem WFt.wfs {s : TreeState} {t : STree} (h : WFt s t) : WFs s := ⟨t, h⟩

theorem snapsOk_recordStep {s : TreeState} {r : RecState} {d : String}
    {hl : List Nat} (hs : WFs s) (hr : snapsOk r) :
    snapsOk (recordStep s r d hl) := by
  intro sn hsn
  rw [recordStep_snapshots, List.mem_append, List.mem_singleton] at hsn
  rcases hsn with hsn | rfl
  · exact hr sn hsn
  · exact WFs_exportOk_serialize hs

theorem ReprT.child_mem2 {s : TreeState} {par oid : Option Nat} {u : STree}
    (h : ReprT s par oid u) {i : Nat} (hi : i ∈ treeIds u) {d : RBNodeData}
    (hd : s.nodes i = some d) {c : Nat}
    (hc : d.left = some c ∨ d.right = some c) : c ∈ treeIds u := by
  induction h with
  | leaf p => simp [treeIds] at hi
  | node p id dd tl tr hid hp hl hr ihl ihr =>
    simp only [treeIds, List.mem_cons, List.mem_append] at hi ⊢
    rcases hi with rfl | hi | hi
    · rw [hid] at hd
      injection hd with hd
      subst hd
      rcases hc with hc | hc
      · rw [hc] at hl
        exact Or.inr (Or.inl (topId_mem hl.topId_eq.symm))
      · rw [hc] at hr
        exact Or.inr (Or.inr (topId_mem hr.topId_eq.symm))
    · exact Or.inr (Or.inl (ihl hi))
    · exact Or.inr (Or.inr (ihr hi))

theorem ReprT.parentField {s : TreeState} {par oid : Option Nat} {u : STree}
    (h : ReprT s par oid u) {i : Nat} (hi : i ∈ treeIds u) {d : RBNodeData}
    (hd : s.nodes i = some d) {p : Nat} (hp : d.parent = some p) :
    p ∈ treeIds u ∨ par = some p := by
  induction h with
  | leaf p0 => simp [treeIds] at hi
  | node p0 id dd tl tr hid hpp hl hr ihl ihr =>
    simp only [treeIds, List.mem_cons, List.mem_append] at hi
    rcases hi with rfl | hi | hi
    · rw [hid] at hd
      injection hd with hd
      subst hd
      right
      rw [← hpp, hp]
    · rcases ihl hi with h1 | h1
      · left; simp [treeIds, h1]
      · left
        injection h1 with h1
        simp [treeIds, h1]
    · rcases ihr hi with h1 | h1
      · left; simp [treeIds, h1]
      · left
        injection h1 with h1
        simp [treeIds, h1]

theorem WFt.root_mem {s : TreeState} {t : STree} (h : WFt s t) {rt : Nat}
    (hrt : s.root = some rt) : rt ∈ treeIds t := by
  have h1 := h.1.topId_eq
  rw [hrt] at h1
  exact topId_mem h1.symm

theorem WFt.child_mem {s : TreeState} {t : STree} (h : WFt s t) {i : Nat}
    (hi : i ∈ treeIds t) {d : RBNodeData} (hd : s.nodes i = some d) {c : Nat}
    (hc : d.left = some c ∨ d.right = some c) : c ∈ treeIds t :=
  h.1.child_mem2 hi hd hc

theorem WFt.parent_mem2 {s : TreeState} {t : STree} (h : WFt s t) {i : Nat}
    (hi : i ∈ treeIds t) {d : RBNodeData} (hd : s.nodes i = some d) {p : Nat}
    (hp : d.parent = some p) : p ∈ treeIds t := by
  rcases h.1.parentField hi hd hp with h1 | h1
  · exact h1
  · cases h1

theorem WFt.updShape {s : TreeState} {t : STree} (h : WFt s t) (j : Nat)
    (f : RBNodeData → RBNodeData)
    (hf : ∀ d, (f d).left = d.left ∧ (f d).right = d.right ∧
      (f d).parent = d.parent) : WFt (updNode s j f) t := by
  obtain ⟨h1, h2, h3⟩ := h
  refine ⟨?_, h2, ?_⟩
  · rw [root_updNode]
    exact h1.shapeUpd j f hf
  · intro i hi
    rw [counter_updNode]
    exact h3 i hi

theorem WFt.rotL {s : TreeState} {t : STree} {x : Nat} (h : WFt s t)
    (hx : x ∈ treeIds t) :
    WFt (rotateLeft s x) (rotAtL t x) ∧
      (rotateLeft s x).nodeCounter = s.nodeCounter := by
  obtain ⟨h1, h2, h3⟩ := h
  obtain ⟨hrep, hc⟩ := ReprT.rotateLeft_pres h1 h2 hx
  have hperm := treeIds_rotAtL_perm t x
  refine ⟨⟨hrep, hperm.nodup_iff.mpr h2, ?_⟩, hc⟩
  intro i hi
  rw [hc]
  exact h3 i (hperm.mem_iff.mp hi)

theorem WFt.rotR {s : TreeState} {t : STree} {x : Nat} (h : WFt s t)
    (hx : x ∈ treeIds t) :
    WFt (rotateRight s x) (rotAtR t x) ∧
      (rotateRight s x).nodeCounter = s.nodeCounter := by
  obtain ⟨h1, h2, h3⟩ := h
  obtain ⟨hrep, hc⟩ := ReprT.rotateRight_pres h1 h2 hx
  have hperm := treeIds_rotAtR_perm t x
  refine ⟨⟨hrep, hperm.nodup_iff.mpr h2, ?_⟩, hc⟩
  intro i hi
  rw [hc]
  exact h3 i (hperm.mem_iff.mp hi)

theorem graftL_not_mem {u : STree} {p : Nat} (h : p ∉ treeIds u) (c : Nat) :
    graftL u p c = u := by
  induction u with
  | leaf => rfl
  | node n l r ihl ihr =>
    simp only [treeIds, List.mem_cons, List.mem_append] at h
    push_neg at h
    rw [graftL, if_neg (fun hh => h.1 hh.symm), ihl h.2.1, ihr h.2.2]

theorem graftR_not_mem {u : STree} {p : Nat} (h : p ∉ treeIds u) (c : Nat) :
    graftR u p c = u := by
  induction u with
  | leaf => rfl
  | node n l r ihl ihr =>
    simp only [treeIds, List.mem_cons, List.mem_append] at h
    push_neg at h
    rw [graftR, if_neg (fun hh => h.1 hh.symm), ihl h.2.1, ihr h.2.2]

theorem mem_graftL {u : STree} {p : Nat} (hp : p ∈ treeIds u) (c : Nat) :
    c ∈ treeIds (graftL u p c) := by
  induction u with
  | leaf => simp [treeIds] at hp
  | node n l r ihl ihr =>
    by_cases hn : n = p
    · simp [graftL, hn, treeIds]
    · simp only [treeIds, List.mem_cons, List.mem_append] at hp
      rcases hp with rfl | hp | hp
      · exact absurd rfl hn
      · simp [graftL, hn, treeIds, ihl hp]
      · simp [graftL, hn, treeIds, ihr hp]

theorem mem_graftR {u : STree} {p : Nat} (hp : p ∈ treeIds u) (c : Nat) :
    c ∈ treeIds (graftR u p c) := by
  induction u with
  | leaf => simp [treeIds] at hp
  | node n l r ihl ihr =>
    by_cases hn : n = p
    · simp [graftR, hn, treeIds]
    · simp only [treeIds, List.mem_cons, List.mem_append] at hp
      rcases hp with rfl | hp | hp
      · exact absurd rfl hn
      · simp [graftR, hn, treeIds, ihl hp]
      · simp [graftR, hn, treeIds, ihr hp]

theorem treeIds_graftL_subset (u : STree) (p c : Nat) :
    treeIds (graftL u p c) ⊆ c :: treeIds u := by
  induction u with
  | leaf => simp [graftL, treeIds]
  | node n l r ihl ihr =>
    by_cases hn : n = p
    · subst hn
      simp only [graftL, if_pos rfl]
      intro a ha
      simp only [treeIds, List.mem_cons, List.mem_append, List.append_nil,
        List.mem_singleton, List.not_mem_nil, or_false] at ha ⊢
      tauto
    · simp only [graftL, if_neg hn]
      intro a ha
      simp only [treeIds, List.mem_cons, List.mem_append] at ha ⊢
      rcases ha with rfl | ha | ha
      · tauto
      · have := ihl ha
        simp only [List.mem_cons] at this
        tauto
      · have := ihr ha
        simp only [List.mem_cons] at this
        tauto

theorem treeIds_graftR_subset (u : STree) (p c : Nat) :
    treeIds (graftR u p c) ⊆ c :: treeIds u := by
  induction u with
  | leaf => simp [graftR, treeIds]
  | node n l r ihl ihr =>
    by_cases hn : n = p
    · subst hn
      simp only [graftR, if_pos rfl]
      intro a ha
      simp only [treeIds, List.mem_cons, List.mem_append, List.append_nil,
        List.mem_singleton, List.not_mem_nil, or_false] at ha ⊢
      tauto
    · simp only [graftR, if_neg hn]
      intro a ha
      simp only [treeIds, List.mem_cons, List.mem_append] at ha ⊢
      rcases ha with rfl | ha | ha
      · tauto
      · have := ihl ha
        simp only [List.mem_cons] at this
        tauto
      · have := ihr ha
        simp only [List.mem_cons] at this
        tauto

theorem treeIds_graftL_nodup {u : STree} {p c : Nat} (hc : c ∉ treeIds u)
    (hnd : (treeIds u).Nodup) : (treeIds (graftL u p c)).Nodup := by
  induction u with
  | leaf => simp [graftL, treeIds]
  | node n l r ihl ihr =>
    obtain ⟨hndl, hndr, hnl, hnr, hdisj⟩ := treeIds_nodup_node hnd
    simp only [treeIds, List.mem_cons, List.mem_append] at hc
    push_neg at hc
    obtain ⟨hcn, hcl, hcr⟩ := hc
    by_cases hnp : n = p
    · subst hnp
      have hids : treeIds (graftL (STree.node n l r) n c) = n :: c :: treeIds r := by
        simp [graftL, treeIds]
      rw [hids]
      refine List.nodup_cons.mpr ⟨?_, List.nodup_cons.mpr ⟨hcr, hndr⟩⟩
      simp only [List.mem_cons]
      rintro (h1 | h1)
      · exact hcn h1.symm
      · exact hnr h1
    · simp only [graftL, if_neg hnp, treeIds]
      by_cases hpl : p ∈ treeIds l
      · rw [graftL_not_mem (hdisj p hpl) c]
        refine List.nodup_cons.mpr ⟨?_, List.Nodup.append (ihl hcl hndl) hndr ?_⟩
        · simp only [List.mem_append]
          rintro (h1 | h1)
          · have := treeIds_graftL_subset l p c h1
            simp only [List.mem_cons] at this
            rcases this with rfl | this
            · exact hcn rfl
            · exact hnl this
          · exact hnr h1
        · intro a ha hb
          have := treeIds_graftL_subset l p c ha
          simp only [List.mem_cons] at this
          rcases this with rfl | this
          · exact hcr hb
          · exact hdisj a this hb
      · rw [graftL_not_mem hpl c]
        refine List.nodup_cons.mpr ⟨?_, List.Nodup.append hndl (ihr hcr hndr) ?_⟩
        · simp only [List.mem_append]
          rintro (h1 | h1)
          · exact hnl h1
          · have := treeIds_graftL_subset r p c h1
            simp only [List.mem_cons] at this
            rcases this with rfl | this
            · exact hcn rfl
            · exact hnr this
        · intro a ha hb
          have := treeIds_graftL_subset r p c hb
          simp only [List.mem_cons] at this
          rcases this with rfl | this
          · exact hcl ha
          · exact hdisj a ha this

theorem treeIds_graftR_nodup {u : STree} {p c : Nat} (hc : c ∉ treeIds u)
    (hnd : (treeIds u).Nodup) : (treeIds (graftR u p c)).Nodup := by
  induction u with
  | leaf => simp [graftR, treeIds]
  | node n l r ihl ihr =>
    obtain ⟨hndl, hndr, hnl, hnr, hdisj⟩ := treeIds_nodup_node hnd
    simp only [treeIds, List.mem_cons, List.mem_append] at hc
    push_neg at hc
    obtain ⟨hcn, hcl, hcr⟩ := hc
    by_cases hnp : n = p
    · subst hnp
      have hids : treeIds (graftR (STree.node n l r) n c) =
          n :: (treeIds l ++ [c]) := by
        simp [graftR, treeIds]
      rw [hids]
      refine List.nodup_cons.mpr ⟨?_, ?_⟩
      · simp only [List.mem_append, List.mem_singleton]
        rintro (h1 | h1)
        · exact hnl h1
        · exact hcn h1.symm
      · refine List.Nodup.append hndl (List.nodup_singleton c) ?_
        intro a ha hb
        rw [List.mem_singleton] at hb
        subst hb
        exact hcl ha
    · simp only [graftR, if_neg hnp, treeIds]
      by_cases hpl : p ∈ treeIds l
      · rw [graftR_not_mem (hdisj p hpl) c]
        refine List.nodup_cons.mpr ⟨?_, List.Nodup.append (ihl hcl hndl) hndr ?_⟩
        · simp only [List.mem_append]
          rintro (h1 | h1)
          · have := treeIds_graftR_subset l p c h1
            simp only [List.mem_cons] at this
            rcases this with rfl | this
            · exact hcn rfl
            · exact hnl this
          · exact hnr h1
        · intro a ha hb
          have := treeIds_graftR_subset l p c ha
          simp only [List.mem_cons] at this
          rcases this with rfl | this
          · exact hcr hb
          · exact hdisj a this hb
      · rw [graftR_not_mem hpl c]
        refine List.nodup_cons.mpr ⟨?_, List.Nodup.append hndl (ihr hcr hndr) ?_⟩
        · simp only [List.mem_append]
          rintro (h1 | h1)
          · exact hnl h1
          · have := treeIds_graftR_subset r p c h1
            simp only [List.mem_cons] at this
            rcases this with rfl | this
            · exact hcn rfl
            · exact hnr this
        · intro a ha hb
          have := treeIds_graftR_subset r p c hb
          simp only [List.mem_cons] at this
          rcases this with rfl | this
          · exact hcl ha
          · exact hdisj a ha this

theorem ReprT.graftL_aux {s s' : TreeState} {p c : Nat} {pd : RBNodeData}
    (hp : s.nodes p = some pd) (hpl : pd.left = none)
    (S1 : s'.nodes p = some { pd with left := some c })
    (S2 : ∃ cd, s'.nodes c = some cd ∧ cd.parent = some p ∧ cd.left = none ∧
      cd.right = none)
    (S5 : ∀ j, j ≠ p → j ≠ c → s'.nodes j = s.nodes j) :
    ∀ {u : STree} {par oid : Option Nat}, ReprT s par oid u →
      (treeIds u).Nodup → c ∉ treeIds u → ReprT s' par oid (graftL u p c) := by
  intro u
  induction u with
  | leaf =>
    intro par oid h hnd hc
    have : oid = none := h.topId_eq
    subst this
    exact .leaf par
  | node n l r ihl ihr =>
    intro par oid h hnd hc
    obtain ⟨d, hoid, hn, hparent, hl, hr⟩ := h.node_inv
    obtain ⟨hndl, hndr, hnl, hnr, hdisj⟩ := treeIds_nodup_node hnd
    simp only [treeIds, List.mem_cons, List.mem_append] at hc
    push_neg at hc
    obtain ⟨hcn, hcl, hcr⟩ := hc
    by_cases hnp : n = p
    · subst hnp
      rw [hp] at hn
      injection hn with hn
      subst hn
      rw [hpl] at hl
      have hleaf := hl.none_inv
      subst hleaf
      obtain ⟨cd, hcd, hcdp, hcdl, hcdr⟩ := S2
      simp only [graftL, if_pos rfl]
      rw [hoid]
      refine .node par n { pd with left := some c } (.node c .leaf .leaf) r S1
        (by simpa using hparent) ?_ ?_
      · show ReprT s' (some n) (some c) (.node c .leaf .leaf)
        refine .node (some n) c cd .leaf .leaf hcd (by rw [hcdp]) ?_ ?_
        · rw [hcdl]; exact .leaf _
        · rw [hcdr]; exact .leaf _
      · show ReprT s' (some n) pd.right r
        refine hr.frame ?_
        intro i hi
        exact S5 i (fun hh => hnr (hh ▸ hi)) (fun hh => hcr (hh ▸ hi))
    · simp only [graftL, if_neg hnp]
      rw [hoid]
      refine .node par n d (graftL l p c) (graftL r p c) ?_ hparent
        (ihl hl hndl hcl) (ihr hr hndr hcr)
      rw [S5 n (fun hh => hnp hh) (fun hh => hcn hh.symm)]
      exact hn

theorem ReprT.graftR_aux {s s' : TreeState} {p c : Nat} {pd : RBNodeData}
    (hp : s.nodes p = some pd) (hpr : pd.right = none)
    (S1 : s'.nodes p = some { pd with right := some c })
    (S2 : ∃ cd, s'.nodes c = some cd ∧ cd.parent = some p ∧ cd.left = none ∧
      cd.right = none)
    (S5 : ∀ j, j ≠ p → j ≠ c → s'.nodes j = s.nodes j) :
    ∀ {u : STree} {par oid : Option Nat}, ReprT s par oid u →
      (treeIds u).Nodup → c ∉ treeIds u → ReprT s' par oid (graftR u p c) := by
  intro u
  induction u with
  | leaf =>
    intro par oid h hnd hc
    have : oid = none := h.topId_eq
    subst this
    exact .leaf par
  | node n l r ihl ihr =>
    intro par oid h hnd hc
    obtain ⟨d, hoid, hn, hparent, hl, hr⟩ := h.node_inv
    obtain ⟨hndl, hndr, hnl, hnr, hdisj⟩ := treeIds_nodup_node hnd
    simp only [treeIds, List.mem_cons, List.mem_append] at hc
    push_neg at hc
    obtain ⟨hcn, hcl, hcr⟩ := hc
    by_cases hnp : n = p
    · subst hnp
      rw [hp] at hn
      injection hn with hn
      subst hn
      rw [hpr] at hr
      have hleaf := hr.none_inv
      subst hleaf
      obtain ⟨cd, hcd, hcdp, hcdl, hcdr⟩ := S2
      simp only [graftR, if_pos rfl]
      rw [hoid]
      refine .node par n { pd with right := some c } l (.node c .leaf .leaf) S1
        (by simpa using hparent) ?_ ?_
      · show ReprT s' (some n) pd.left l
        refine hl.frame ?_
        intro i hi
        exact S5 i (fun hh => hnl (hh ▸ hi)) (fun hh => hcl (hh ▸ hi))
      · show ReprT s' (some n) (some c) (.node c .leaf .leaf)
        refine .node (some n) c cd .leaf .leaf hcd (by rw [hcdp]) ?_ ?_
        · rw [hcdl]; exact .leaf _
        · rw [hcdr]; exact .leaf _
    · simp only [graftR, if_neg hnp]
      rw [hoid]
      refine .node par n d (graftR l p c) (graftR r p c) ?_ hparent
        (ihl hl hndl hcl) (ihr hr hndr hcr)
      rw [S5 n (fun hh => hnp hh) (fun hh => hcn hh.symm)]
      exact hn

end RBViz

namespace RBViz

theorem memb_chain {s : TreeState} {t : STree} (h : WFt s t) {n parent g : Nat}
    {pd : RBNodeData} (hn : n ∈ treeIds t)
    (hbind : (s.nodes n).bind (fun d => d.parent) = some parent)
    (hpd : s.nodes parent = some pd) (hgp : pd.parent = some g) :
    parent ∈ treeIds t ∧ g ∈ treeIds t := by
  rw [Option.bind_eq_some] at hbind
  obtain ⟨d, hd, hdp⟩ := hbind
  have hp : parent ∈ treeIds t := h.parent_mem2 hn hd hdp
  exact ⟨hp, h.parent_mem2 hp hpd hgp⟩

theorem fiRecolor_inv {s : TreeState} {t : STree} {r : RecState}
    {p u g : Nat} {pd ud : RBNodeData} (h : WFt s t) (hr : snapsOk r)
    (hg : g ∈ treeIds t) :
    ∃ t', WFt (fiRecolor s r p u g pd ud).1 t' ∧
      (treeIds t').Perm (treeIds t) ∧
      snapsOk (fiRecolor s r p u g pd ud).2.1 ∧
      (fiRecolor s r p u g pd ud).2.2 ∈ treeIds t' ∧
      (fiRecolor s r p u g pd ud).1.nodeCounter = s.nodeCounter := by
  unfold fiRecolor
  dsimp only
  have h3 : WFt (updNode (updNode (updNode s p
      (fun d => { d with color := NodeColor.black })) u
      (fun d => { d with color := NodeColor.black })) g
      (fun d => { d with color := NodeColor.red })) t :=
    ((h.updShape p (fun d => { d with color := NodeColor.black })
      (fun d => ⟨rfl, rfl, rfl⟩)).updShape u
      (fun d => { d with color := NodeColor.black })
      (fun d => ⟨rfl, rfl, rfl⟩)).updShape g
      (fun d => { d with color := NodeColor.red }) (fun d => ⟨rfl, rfl, rfl⟩)
  refine ⟨t, h3, List.Perm.refl _, snapsOk_recordStep h3.wfs hr, hg, ?_⟩
  rw [counter_updNode, counter_updNode, counter_updNode]

theorem fiRotCaseL_inv {s : TreeState} {t : STree} {r : RecState}
    {node parent g : Nat} {pd gd : RBNodeData} (h : WFt s t) (hr : snapsOk r)
    (hn : node ∈ treeIds t) (hp : parent ∈ treeIds t) (hg : g ∈ treeIds t) :
    ∃ t', WFt (fiRotCaseL s r node parent g pd gd).1 t' ∧
      (treeIds t').Perm (treeIds t) ∧
      snapsOk (fiRotCaseL s r node parent g pd gd).2.1 ∧
      (fiRotCaseL s r node parent g pd gd).2.2 ∈ treeIds t' ∧
      (fiRotCaseL s r node parent g pd gd).1.nodeCounter = s.nodeCounter := by
  by_cases hc : pd.right = some node
  · simp only [fiRotCaseL, if_pos hc]
    obtain ⟨h1, hcnt1⟩ := h.rotL hp
    have h2 : WFt (updNode (updNode (rotateLeft s parent) parent
        (fun d => { d with color := NodeColor.black })) g
        (fun d => { d with color := NodeColor.red })) (rotAtL t parent) :=
      (h1.updShape parent (fun d => { d with color := NodeColor.black })
        (fun d => ⟨rfl, rfl, rfl⟩)).updShape g
        (fun d => { d with color := NodeColor.red }) (fun d => ⟨rfl, rfl, rfl⟩)
    have hg1 : g ∈ treeIds (rotAtL t parent) :=
      (treeIds_rotAtL_perm t parent).mem_iff.mpr hg
    obtain ⟨h4, hcnt4⟩ := h2.rotR hg1
    refine ⟨rotAtR (rotAtL t parent) g, h4,
      (treeIds_rotAtR_perm _ g).trans (treeIds_rotAtL_perm t parent),
      snapsOk_recordStep h4.wfs (snapsOk_recordStep h1.wfs hr), ?_, ?_⟩
    · exact (treeIds_rotAtR_perm _ g).mem_iff.mpr
        ((treeIds_rotAtL_perm t parent).mem_iff.mpr hp)
    · rw [hcnt4, counter_updNode, counter_updNode, hcnt1]
  · simp only [fiRotCaseL, if_neg hc]
    have h2 : WFt (updNode (updNode s parent
        (fun d => { d with color := NodeColor.black })) g
        (fun d => { d with color := NodeColor.red })) t :=
      (h.updShape parent (fun d => { d with color := NodeColor.black })
        (fun d => ⟨rfl, rfl, rfl⟩)).updShape g
        (fun d => { d with color := NodeColor.red }) (fun d => ⟨rfl, rfl, rfl⟩)
    obtain ⟨h4, hcnt4⟩ := h2.rotR hg
    refine ⟨rotAtR t g, h4, treeIds_rotAtR_perm t g,
      snapsOk_recordStep h4.wfs hr, ?_, ?_⟩
    · exact (treeIds_rotAtR_perm t g).mem_iff.mpr hn
    · rw [hcnt4, counter_updNode, counter_updNode]

theorem fiRotCaseR_inv {s : TreeState} {t : STree} {r : RecState}
    {node parent g : Nat} {pd gd : RBNodeData} (h : WFt s t) (hr : snapsOk r)
    (hn : node ∈ treeIds t) (hp : parent ∈ treeIds t) (hg : g ∈ treeIds t) :
    ∃ t', WFt (fiRotCaseR s r node parent g pd gd).1 t' ∧
      (treeIds t').Perm (treeIds t) ∧
      snapsOk (fiRotCaseR s r node parent g pd gd).2.1 ∧
      (fiRotCaseR s r node parent g pd gd).2.2 ∈ treeIds t' ∧
      (fiRotCaseR s r node parent g pd gd).1.nodeCounter = s.nodeCounter := by
  by_cases hc : pd.left = some node
  · simp only [fiRotCaseR, if_pos hc]
    obtain ⟨h1, hcnt1⟩ := h.rotR hp
    have h2 : WFt (updNode (updNode (rotateRight s parent) parent
        (fun d => { d with color := NodeColor.black })) g
        (fun d => { d with color := NodeColor.red })) (rotAtR t parent) :=
      (h1.updShape parent (fun d => { d with color := NodeColor.black })
        (fun d => ⟨rfl, rfl, rfl⟩)).updShape g
        (fun d => { d with color := NodeColor.red }) (fun d => ⟨rfl, rfl, rfl⟩)
    have hg1 : g ∈ treeIds (rotAtR t parent) :=
      (treeIds_rotAtR_perm t parent).mem_iff.mpr hg
    obtain ⟨h4, hcnt4⟩ := h2.rotL hg1
    refine ⟨rotAtL (rotAtR t parent) g, h4,
      (treeIds_rotAtL_perm _ g).trans (treeIds_rotAtR_perm t parent),
      snapsOk_recordStep h4.wfs (snapsOk_recordStep h1.wfs hr), ?_, ?_⟩
    · exact (treeIds_rotAtL_perm _ g).mem_iff.mpr
        ((treeIds_rotAtR_perm t parent).mem_iff.mpr hp)
    · rw [hcnt4, counter_updNode, counter_updNode, hcnt1]
  · simp only [fiRotCaseR, if_neg hc]
    have h2 : WFt (updNode (updNode s parent
        (fun d => { d with color := NodeColor.black })) g
        (fun d => { d with color := NodeColor.red })) t :=
      (h.updShape parent (fun d => { d with color := NodeColor.black })
        (fun d => ⟨rfl, rfl, rfl⟩)).updShape g
        (fun d => { d with color := NodeColor.red }) (fun d => ⟨rfl, rfl, rfl⟩)
    obtain ⟨h4, hcnt4⟩ := h2.rotL hg
    refine ⟨rotAtL t g, h4, treeIds_rotAtL_perm t g,
      snapsOk_recordStep h4.wfs hr, ?_, ?_⟩
    · exact (treeIds_rotAtL_perm t g).mem_iff.mpr hn
    · rw [hcnt4, counter_updNode, counter_updNode]

theorem fixInsertStep_inl {s : TreeState} {r : RecState} {n : Nat}
    {res : TreeState × RecState} (he : fixInsertStep s r n = .inl res) :
    res = (s, r) := by
  unfold fixInsertStep at he
  repeat' split at he
  all_goals try (exact Sum.noConfusion he)
  all_goals injection he with h2
  all_goals exact h2.symm

theorem fixInsertStep_inr {s : TreeState} {t : STree} {r : RecState} {n : Nat}
    (h : WFt s t) (hr : snapsOk r) (hn : n ∈ treeIds t)
    {res : TreeState × RecState × Nat} (he : fixInsertStep s r n = .inr res) :
    ∃ t', WFt res.1 t' ∧ (treeIds t').Perm (treeIds t) ∧ snapsOk res.2.1 ∧
      res.2.2 ∈ treeIds t' ∧ res.1.nodeCounter = s.nodeCounter := by
  unfold fixInsertStep at he
  repeat' split at he
  all_goals try (exact Sum.noConfusion he)
  all_goals injection he with h2
  all_goals subst h2
  all_goals first
    | (with_reducible exact fiRecolor_inv h hr ((memb_chain h hn (by assumption) (by assumption) (by assumption)).2))
    | (with_reducible exact fiRotCaseL_inv h hr hn ((memb_chain h hn (by assumption) (by assumption) (by assumption)).1) ((memb_chain h hn (by assumption) (by assumption) (by assumption)).2))
    | (with_reducible exact fiRotCaseR_inv h hr hn ((memb_chain h hn (by assumption) (by assumption) (by assumption)).1) ((memb_chain h hn (by assumption) (by assumption) (by assumption)).2))

theorem fixInsertGo_inv :
    ∀ (fuel : Nat) (s : TreeState) (t : STree) (r : RecState) (n : Nat),
      WFt s t → snapsOk r → n ∈ treeIds t →
      ∃ t', WFt (fixInsertGo fuel s r n).1 t' ∧
        (treeIds t').Perm (treeIds t) ∧ snapsOk (fixInsertGo fuel s r n).2 ∧
        (fixInsertGo fuel s r n).1.nodeCounter = s.nodeCounter := by
  intro fuel
  induction fuel with
  | zero => intro s t r n h hr hn; exact ⟨t, h, List.Perm.refl _, hr, rfl⟩
  | succ k ih =>
    intro s t r n h hr hn
    rw [fixInsertGo]
    cases hstep : fixInsertStep s r n with
    | inl res =>
      have hres := fixInsertStep_inl hstep
      subst hres
      exact ⟨t, h, List.Perm.refl _, hr, rfl⟩
    | inr res =>
      obtain ⟨t', h', hperm, hr', hn', hcnt⟩ := fixInsertStep_inr h hr hn hstep
      obtain ⟨t'', h'', hperm2, hr'', hcnt2⟩ := ih res.1 t' res.2.1 res.2.2 h' hr' hn'
      exact ⟨t'', h'', hperm2.trans hperm, hr'', by rw [hcnt2, hcnt]⟩

end RBViz

namespace RBViz

theorem findParentGo_none {s : TreeState} {v : Int} (fuel : Nat)
    (par : Option Nat) : findParentGo s v fuel par none = par := by
  cases fuel <;> rfl

theorem findParentGo_attach {s : TreeState} {v : Int} :
    ∀ (u : STree) (fuel : Nat) (pu : Option Nat) (c : Nat) (par : Option Nat),
      ReprT s pu (some c) u → sHeight u < fuel →
      ∃ p pd, findParentGo s v fuel par (some c) = some p ∧ p ∈ treeIds u ∧
        s.nodes p = some pd ∧
        ((v < pd.value ∧ pd.left = none) ∨
          (¬ v < pd.value ∧ pd.right = none)) := by
  intro u
  induction u with
  | leaf =>
    intro fuel pu c par h hf
    exact absurd h.topId_eq (by simp [topId])
  | node n l r ihl ihr =>
    intro fuel pu c par h hf
    obtain ⟨d, hoid, hn, hp, hl, hr⟩ := h.node_inv
    injection hoid with hoid
    subst hoid
    cases fuel with
    | zero => simp [sHeight] at hf
    | succ f =>
      simp only [findParentGo, hn]
      by_cases hv : v < d.value
      · rw [if_pos hv]
        cases hdl : d.left with
        | none =>
          refine ⟨c, d, ?_, by simp [treeIds], hn, Or.inl ⟨hv, hdl⟩⟩
          cases f <;> rfl
        | some cl =>
          rw [hdl] at hl
          have hfl : sHeight l < f := by
            simp only [sHeight] at hf
            omega
          obtain ⟨p, pd, hfind, hpmem, hpd, hside⟩ :=
            ihl f (some c) cl (some c) hl hfl
          exact ⟨p, pd, hdl ▸ hfind, by simp [treeIds, hpmem], hpd, hside⟩
      · rw [if_neg hv]
        cases hdr : d.right with
        | none =>
          refine ⟨c, d, ?_, by simp [treeIds], hn, Or.inr ⟨hv, hdr⟩⟩
          cases f <;> rfl
        | some cr =>
          rw [hdr] at hr
          have hfr : sHeight r < f := by
            simp only [sHeight] at hf
            omega
          obtain ⟨p, pd, hfind, hpmem, hpd, hside⟩ :=
            ihr f (some c) cr (some c) hr hfr
          exact ⟨p, pd, hdr ▸ hfind, by simp [treeIds, hpmem], hpd, hside⟩

theorem insert_attachL {s1 : TreeState} {t : STree} {p newId : Nat}
    {pd : RBNodeData} {v : Int}
    (ht1 : ReprT s1 none s1.root t) (hnd : (treeIds t).Nodup)
    (hbound : ∀ i ∈ treeIds t, i < s1.nodeCounter) (hnew : newId ∉ treeIds t)
    (hnlt : newId < s1.nodeCounter)
    (hnid : s1.nodes newId = some ⟨v, NodeColor.red, none, none, none⟩)
    (hpmem : p ∈ treeIds t) (hpd : s1.nodes p = some pd) (hpl : pd.left = none) :
    WFt (updNode (updNode s1 newId (fun d => { d with parent := some p })) p
      (fun d => { d with left := some newId })) (graftL t p newId) ∧
    (updNode (updNode s1 newId (fun d => { d with parent := some p })) p
      (fun d => { d with left := some newId })).nodeCounter = s1.nodeCounter := by
  have hpnew : p ≠ newId := fun hh => hnew (hh ▸ hpmem)
  have hS1 : (updNode (updNode s1 newId (fun d => { d with parent := some p })) p
      (fun d => { d with left := some newId })).nodes p =
      some { pd with left := some newId } := by
    rw [nodes_updNode, if_pos rfl, nodes_updNode, if_neg hpnew, hpd]
    rfl
  have hS2 : (updNode (updNode s1 newId (fun d => { d with parent := some p })) p
      (fun d => { d with left := some newId })).nodes newId =
      some ⟨v, NodeColor.red, none, none, some p⟩ := by
    rw [nodes_updNode, if_neg (fun hh => hpnew hh.symm), nodes_updNode,
      if_pos rfl, hnid]
    rfl
  have hS5 : ∀ j, j ≠ p → j ≠ newId →
      (updNode (updNode s1 newId (fun d => { d with parent := some p })) p
        (fun d => { d with left := some newId })).nodes j = s1.nodes j := by
    intro j hjp hjn
    rw [nodes_updNode, if_neg hjp, nodes_updNode, if_neg hjn]
  refine ⟨⟨?_, treeIds_graftL_nodup hnew hnd, ?_⟩, ?_⟩
  · rw [root_updNode, root_updNode]
    exact ReprT.graftL_aux hpd hpl hS1
      ⟨⟨v, NodeColor.red, none, none, some p⟩, hS2, rfl, rfl, rfl⟩ hS5 ht1 hnd hnew
  · intro i hi
    rw [counter_updNode, counter_updNode]
    have hsub := treeIds_graftL_subset t p newId hi
    simp only [List.mem_cons] at hsub
    rcases hsub with rfl | hsub
    · exact hnlt
    · exact hbound i hsub
  · rw [counter_updNode, counter_updNode]

theorem insert_attachR {s1 : TreeState} {t : STree} {p newId : Nat}
    {pd : RBNodeData} {v : Int}
    (ht1 : ReprT s1 none s1.root t) (hnd : (treeIds t).Nodup)
    (hbound : ∀ i ∈ treeIds t, i < s1.nodeCounter) (hnew : newId ∉ treeIds t)
    (hnlt : newId < s1.nodeCounter)
    (hnid : s1.nodes newId = some ⟨v, NodeColor.red, none, none, none⟩)
    (hpmem : p ∈ treeIds t) (hpd : s1.nodes p = some pd) (hpr : pd.right = none) :
    WFt (updNode (updNode s1 newId (fun d => { d with parent := some p })) p
      (fun d => { d with right := some newId })) (graftR t p newId) ∧
    (updNode (updNode s1 newId (fun d => { d with parent := some p })) p
      (fun d => { d with right := some newId })).nodeCounter = s1.nodeCounter := by
  have hpnew : p ≠ newId := fun hh => hnew (hh ▸ hpmem)
  have hS1 : (updNode (updNode s1 newId (fun d => { d with parent := some p })) p
      (fun d => { d with right := some newId })).nodes p =
      some { pd with right := some newId } := by
    rw [nodes_updNode, if_pos rfl, nodes_updNode, if_neg hpnew, hpd]
    rfl
  have hS2 : (updNode (updNode s1 newId (fun d => { d with parent := some p })) p
      (fun d => { d with right := some newId })).nodes newId =
      some ⟨v, NodeColor.red, none, none, some p⟩ := by
    rw [nodes_updNode, if_neg (fun hh => hpnew hh.symm), nodes_updNode,
      if_pos rfl, hnid]
    rfl
  have hS5 : ∀ j, j ≠ p → j ≠ newId →
      (updNode (updNode s1 newId (fun d => { d with parent := some p })) p
        (fun d => { d with right := some newId })).nodes j = s1.nodes j := by
    intro j hjp hjn
    rw [nodes_updNode, if_neg hjp, nodes_updNode, if_neg hjn]
  refine ⟨⟨?_, treeIds_graftR_nodup hnew hnd, ?_⟩, ?_⟩
  · rw [root_updNode, root_updNode]
    exact ReprT.graftR_aux hpd hpr hS1
      ⟨⟨v, NodeColor.red, none, none, some p⟩, hS2, rfl, rfl, rfl⟩ hS5 ht1 hnd hnew
  · intro i hi
    rw [counter_updNode, counter_updNode]
    have hsub := treeIds_graftR_subset t p newId hi
    simp only [List.mem_cons] at hsub
    rcases hsub with rfl | hsub
    · exact hnlt
    · exact hbound i hsub
  · rw [counter_updNode, counter_updNode]

end RBViz

namespace RBViz

theorem insertOp_none_eq {s0 : TreeState} {v : Int} (hfind : find s0 v = none) :
    insertOp s0 v = insFinish v
      (fixInsertGo ((insAttach s0 v).1.nodeCounter + 1) (insAttach s0 v).1
        (insAttach s0 v).2 s0.nodeCounter) := by
  unfold insertOp insFinish insAttach insParent insFreshState
  rw [hfind]

theorem insFreshState_nodes (s0 : TreeState) (v : Int) (j : Nat) :
    (insFreshState s0 v).nodes j =
      if j = s0.nodeCounter then some ⟨v, NodeColor.red, none, none, none⟩
      else s0.nodes j := rfl

theorem insFreshState_root (s0 : TreeState) (v : Int) :
    (insFreshState s0 v).root = s0.root := rfl

theorem insFreshState_cnt (s0 : TreeState) (v : Int) :
    (insFreshState s0 v).nodeCounter = s0.nodeCounter + 1 := rfl

theorem insFreshState_wft {s0 : TreeState} {t : STree} (v : Int)
    (ht : WFt s0 t) : WFt (insFreshState s0 v) t := by
  refine ⟨?_, ht.2.1, ?_⟩
  · rw [insFreshState_root]
    refine ht.1.frame ?_
    intro i hi
    have hilt := ht.2.2 i hi
    rw [insFreshState_nodes, if_neg (by omega)]
  · intro i hi
    have := ht.2.2 i hi
    rw [insFreshState_cnt]
    omega

theorem insAttach_inv {s0 : TreeState} {t : STree} (v : Int) (ht : WFt s0 t) :
    ∃ t', WFt (insAttach s0 v).1 t' ∧ s0.nodeCounter ∈ treeIds t' ∧
      snapsOk (insAttach s0 v).2 ∧
      (insAttach s0 v).1.nodeCounter = s0.nodeCounter + 1 := by
  have hr0 : snapsOk (⟨[], serializeTree s0⟩ : RecState) := by
    intro sn hsn
    simp [RecState.snapshots] at hsn
  have hts1 : WFt (insFreshState s0 v) t := insFreshState_wft v ht
  have hnewm : s0.nodeCounter ∉ treeIds t := by
    intro hh
    have := ht.2.2 _ hh
    omega
  have hnidm : (insFreshState s0 v).nodes s0.nodeCounter =
      some ⟨v, NodeColor.red, none, none, none⟩ := by
    rw [insFreshState_nodes, if_pos rfl]
  unfold insAttach
  dsimp only
  cases hroot : s0.root with
  | none =>
    have hpar : insParent s0 v = none := by
      unfold insParent
      rw [insFreshState_root, hroot]
      exact findParentGo_none _ _
    simp only [hpar]
    have hts3 : WFt
        { updNode (insFreshState s0 v) s0.nodeCounter
            (fun d => { d with parent := none }) with
          root := some s0.nodeCounter }
        (.node s0.nodeCounter .leaf .leaf) := by
      refine ⟨?_, by simp [treeIds], ?_⟩
      · show ReprT _ none (some s0.nodeCounter) _
        refine .node none s0.nodeCounter ⟨v, NodeColor.red, none, none, none⟩
          .leaf .leaf ?_ rfl (.leaf _) (.leaf _)
        show (updNode (insFreshState s0 v) s0.nodeCounter _).nodes
          s0.nodeCounter = _
        rw [nodes_updNode, if_pos rfl, hnidm]
        rfl
      · intro i hi
        simp only [treeIds, List.append_nil, List.mem_cons,
          List.not_mem_nil, or_false] at hi
        subst hi
        show s0.nodeCounter < (updNode (insFreshState s0 v) s0.nodeCounter
          (fun d => { d with parent := none })).nodeCounter
        rw [counter_updNode, insFreshState_cnt]
        omega
    refine ⟨.node s0.nodeCounter .leaf .leaf, hts3, by simp [treeIds], ?_, ?_⟩
    · intro sn hsn
      exact snapsOk_recordStep hts3.wfs hr0 sn hsn
    · show ({ updNode (insFreshState s0 v) s0.nodeCounter
          (fun d => { d with parent := none }) with
          root := some s0.nodeCounter } : TreeState).nodeCounter = _
      show (updNode (insFreshState s0 v) s0.nodeCounter
          (fun d => { d with parent := none })).nodeCounter = _
      rw [counter_updNode, insFreshState_cnt]
  | some rt0 =>
    have hts1' : ReprT (insFreshState s0 v) none (some rt0) t := by
      have h1 := hts1.1
      rw [insFreshState_root, hroot] at h1
      exact h1
    have hheight : sHeight t < (insFreshState s0 v).nodeCounter + 1 := by
      have h1 := sHeight_le_length t
      have h2 := nodup_bound_length ht.2.1 ht.2.2
      rw [insFreshState_cnt]
      omega
    obtain ⟨p, pd, hfp, hpmem, hpd, hside⟩ :=
      findParentGo_attach t ((insFreshState s0 v).nodeCounter + 1) none rt0
        none hts1' hheight
    have hpar : insParent s0 v = some p := by
      unfold insParent
      rw [insFreshState_root, hroot]
      exact hfp
    simp only [hpar]
    have hpnc : p ≠ s0.nodeCounter := by
      have := ht.2.2 p hpmem
      omega
    have hs2p : (updNode (insFreshState s0 v) s0.nodeCounter
        (fun d => { d with parent := some p })).nodes p = some pd := by
      rw [nodes_updNode, if_neg hpnc, hpd]
    simp only [hs2p]
    have hbound1 : ∀ i ∈ treeIds t, i < (insFreshState s0 v).nodeCounter := by
      intro i hi
      have := ht.2.2 i hi
      rw [insFreshState_cnt]
      omega
    have hnlt1 : s0.nodeCounter < (insFreshState s0 v).nodeCounter := by
      rw [insFreshState_cnt]
      omega
    rcases hside with ⟨hv, hpl⟩ | ⟨hv, hpr⟩
    · rw [if_pos hv]
      obtain ⟨hwft3, hcnt3⟩ := insert_attachL hts1.1 ht.2.1 hbound1 hnewm
        hnlt1 hnidm hpmem hpd hpl
      refine ⟨graftL t p s0.nodeCounter, hwft3, mem_graftL hpmem _, ?_, ?_⟩
      · intro sn hsn
        exact snapsOk_recordStep hwft3.wfs hr0 sn hsn
      · show (updNode (updNode (insFreshState s0 v) s0.nodeCounter
            (fun d => { d with parent := some p })) p
            (fun d => { d with left := some s0.nodeCounter })).nodeCounter = _
        rw [hcnt3, insFreshState_cnt]
    · rw [if_neg hv]
      obtain ⟨hwft3, hcnt3⟩ := insert_attachR hts1.1 ht.2.1 hbound1 hnewm
        hnlt1 hnidm hpmem hpd hpr
      refine ⟨graftR t p s0.nodeCounter, hwft3, mem_graftR hpmem _, ?_, ?_⟩
      · intro sn hsn
        exact snapsOk_recordStep hwft3.wfs hr0 sn hsn
      · show (updNode (updNode (insFreshState s0 v) s0.nodeCounter
            (fun d => { d with parent := some p })) p
            (fun d => { d with right := some s0.nodeCounter })).nodeCounter = _
        rw [hcnt3, insFreshState_cnt]

theorem insertOp_inv (s0 : TreeState) (v : Int) (h : WFs s0) :
    WFs (insertOp s0 v).1 ∧
      ∀ sn ∈ (insertOp s0 v).2.snapshots, exportOk sn.nodes := by
  obtain ⟨t, htt⟩ := h
  have ht : WFt s0 t := htt
  have hr0 : snapsOk (⟨[], serializeTree s0⟩ : RecState) := by
    intro sn hsn
    simp [RecState.snapshots] at hsn
  cases hfind : find s0 v with
  | some existing =>
    unfold insertOp
    simp only [hfind]
    exact ⟨ht.wfs, fun sn hsn => snapsOk_recordStep ht.wfs hr0 sn hsn⟩
  | none =>
    rw [insertOp_none_eq hfind]
    obtain ⟨t', ht', hmem, hsnaps, hcnt⟩ := insAttach_inv v ht
    obtain ⟨t2, ht2, hperm2, hr2, hcnt2⟩ :=
      fixInsertGo_inv ((insAttach s0 v).1.nodeCounter + 1) (insAttach s0 v).1
        t' (insAttach s0 v).2 s0.nodeCounter ht' hsnaps hmem
    unfold insFinish
    cases hfr : (fixInsertGo ((insAttach s0 v).1.nodeCounter + 1)
        (insAttach s0 v).1 (insAttach s0 v).2 s0.nodeCounter).1.root with
    | none =>
      simp only [hfr]
      exact ⟨ht2.wfs, fun sn hsn => hr2 sn hsn⟩
    | some rt =>
      simp only [hfr]
      have ht5 := ht2.updShape rt (fun d => { d with color := NodeColor.black })
        (fun d => ⟨rfl, rfl, rfl⟩)
      exact ⟨ht5.wfs, fun sn hsn => snapsOk_recordStep ht5.wfs hr2 sn hsn⟩

end RBViz

namespace RBViz

theorem parentOf_eq {s : TreeState} {u : Nat} {ud : RBNodeData}
    (hu : s.nodes u = some ud) : parentOf s (some u) = ud.parent := by
  simp [parentOf, getN, hu]

theorem leftOf_eq {s : TreeState} {u : Nat} {ud : RBNodeData}
    (hu : s.nodes u = some ud) : leftOf s (some u) = ud.left := by
  simp [leftOf, getN, hu]

theorem rightOf_eq {s : TreeState} {u : Nat} {ud : RBNodeData}
    (hu : s.nodes u = some ud) : rightOf s (some u) = ud.right := by
  simp [rightOf, getN, hu]

theorem colorOf_eq {s : TreeState} {u : Nat} {ud : RBNodeData}
    (hu : s.nodes u = some ud) : colorOf s (some u) = some ud.color := by
  simp [colorOf, getN, hu]

theorem topId_spliceAt_ne {u : STree} {z : Nat} (h : topId u ≠ some z) :
    topId (spliceAt u z) = topId u := by
  cases u with
  | leaf => rfl
  | node m l r =>
    have hm : m ≠ z := by
      intro hh
      subst hh
      exact h rfl
    simp only [spliceAt, if_neg hm]
    rfl

theorem mem_spliceAt {u : STree} {i z : Nat} (hi : i ∈ treeIds u)
    (hiz : i ≠ z) : i ∈ treeIds (spliceAt u z) := by
  induction u with
  | leaf => simp [treeIds] at hi
  | node n l r ihl ihr =>
    simp only [treeIds, List.mem_cons, List.mem_append] at hi
    by_cases hn : n = z
    · subst hn
      rcases hi with rfl | hi | hi
      · exact absurd rfl hiz
      · cases l with
        | leaf => simp [treeIds] at hi
        | node a b c =>
          cases r with
          | leaf =>
            simp only [spliceAt, if_pos rfl]
            exact hi
          | node a2 b2 c2 =>
            simp only [spliceAt, if_pos rfl]
            exact List.mem_cons_of_mem _ (List.mem_append_left _ hi)
      · cases l with
        | leaf =>
          simp only [spliceAt, if_pos rfl]
          exact hi
        | node a b c =>
          cases r with
          | leaf => simp [treeIds] at hi
          | node a2 b2 c2 =>
            simp only [spliceAt, if_pos rfl]
            exact List.mem_cons_of_mem _ (List.mem_append_right _ hi)
    · simp only [spliceAt, if_neg hn]
      rcases hi with rfl | hi | hi
      · exact List.mem_cons_self _ _
      · exact List.mem_cons_of_mem _ (List.mem_append_left _ (ihl hi))
      · exact List.mem_cons_of_mem _ (List.mem_append_right _ (ihr hi))

theorem transplant_spec {s : TreeState} {z : Nat} {zd : RBNodeData}
    (hz : s.nodes z = some zd) (v : Option Nat)
    (hvp : ∀ vid p, v = some vid → zd.parent = some p → vid ≠ p) :
    (transplant s z v).nodeCounter = s.nodeCounter ∧
    (zd.parent = none → (transplant s z v).root = v) ∧
    (∀ p, zd.parent = some p → (transplant s z v).root = s.root) ∧
    (∀ p pd, zd.parent = some p → s.nodes p = some pd →
      (transplant s z v).nodes p =
        some (if pd.left = some z then { pd with left := v }
          else { pd with right := v })) ∧
    (∀ vid vd, v = some vid → s.nodes vid = some vd →
      (transplant s z v).nodes vid = some { vd with parent := zd.parent }) ∧
    (∀ j, zd.parent ≠ some j → v ≠ some j →
      (transplant s z v).nodes j = s.nodes j) := by
  unfold transplant
  rw [parentOf_eq hz]
  cases hzp : zd.parent with
  | none =>
    cases hv : v with
    | none =>
      dsimp only
      exact ⟨rfl, fun _ => rfl, fun p hp => Option.noConfusion hp,
        fun p pd hp => Option.noConfusion hp,
        fun vid vd hveq => Option.noConfusion hveq, fun j _ _ => rfl⟩
    | some vid =>
      dsimp only
      refine ⟨?_, fun _ => ?_, fun p hp => Option.noConfusion hp,
        fun p pd hp => Option.noConfusion hp, ?_, ?_⟩
      · rw [counter_updNode]
      · rw [root_updNode]
      · intro vid0 vd hveq hvd
        injection hveq with hveq
        subst hveq
        rw [nodes_updNode, if_pos rfl]
        show Option.map _ (s.nodes vid) = _
        rw [hvd]
        rfl
      · intro j _ hj
        rw [nodes_updNode, if_neg (fun hh => hj (by rw [hh]))]
  | some p =>
    cases hv : v with
    | none =>
      dsimp only
      refine ⟨?_, fun hh => Option.noConfusion hh, fun q hq => ?_, ?_,
        fun vid vd hveq => Option.noConfusion hveq, ?_⟩
      · split
        · rw [counter_updNode]
        · rw [counter_updNode]
      · split
        · rw [root_updNode]
        · rw [root_updNode]
      · intro q pd hq hpd
        injection hq with hq
        subst hq
        rw [leftOf_eq hpd]
        split
        · rw [nodes_updNode, if_pos rfl, hpd]
          rfl
        · rw [nodes_updNode, if_pos rfl, hpd]
          rfl
      · intro j hjp _
        have hjp2 : j ≠ p := fun hh => hjp (by rw [hh])
        split
        · rw [nodes_updNode, if_neg hjp2]
        · rw [nodes_updNode, if_neg hjp2]
    | some vid =>
      dsimp only
      have hvidp : vid ≠ p := hvp vid p hv hzp
      refine ⟨?_, fun hh => Option.noConfusion hh, fun q hq => ?_, ?_, ?_, ?_⟩
      · rw [counter_updNode]
        split
        · rw [counter_updNode]
        · rw [counter_updNode]
      · rw [root_updNode]
        split
        · rw [root_updNode]
        · rw [root_updNode]
      · intro q pd hq hpd
        injection hq with hq
        subst hq
        rw [nodes_updNode, if_neg (Ne.symm hvidp), leftOf_eq hpd]
        split
        · rw [nodes_updNode, if_pos rfl, hpd]
          rfl
        · rw [nodes_updNode, if_pos rfl, hpd]
          rfl
      · intro vid0 vd hveq hvd
        injection hveq with hveq
        subst hveq
        rw [nodes_updNode, if_pos rfl]
        split
        · rw [show (updNode s p (fun d => { d with left := some vid })).nodes vid = s.nodes vid from by rw [nodes_updNode, if_neg hvidp], hvd]
          rfl
        · rw [show (updNode s p (fun d => { d with right := some vid })).nodes vid = s.nodes vid from by rw [nodes_updNode, if_neg hvidp], hvd]
          rfl
      · intro j hjp hjv
        have hjp2 : j ≠ p := fun hh => hjp (by rw [hh])
        have hjv2 : j ≠ vid := fun hh => hjv (by rw [hh])
        rw [nodes_updNode, if_neg hjv2]
        split
        · rw [nodes_updNode, if_neg hjp2]
        · rw [nodes_updNode, if_neg hjp2]


end RBViz

namespace RBViz

theorem ReprT.spliceL_top {s : TreeState} {par : Option Nat} {u : STree}
    {z : Nat} {zd : RBNodeData} (hz : s.nodes z = some zd)
    (hzl : zd.left = none) (h : ReprT s par (some z) u) :
    topId (spliceAt u z) = zd.right := by
  obtain ⟨zd2, tl, tr, rfl, hz2, hzp, hl, hr⟩ := h.some_inv
  rw [hz] at hz2
  injection hz2 with hz2
  subst hz2
  rw [hzl] at hl
  have hleaf := hl.none_inv
  subst hleaf
  simp only [spliceAt, if_pos rfl]
  exact hr.topId_eq.symm

theorem ReprT.spliceR_top {s : TreeState} {par : Option Nat} {u : STree}
    {z : Nat} {zd : RBNodeData} (hz : s.nodes z = some zd)
    (hzr : zd.right = none) (h : ReprT s par (some z) u) :
    topId (spliceAt u z) = zd.left := by
  obtain ⟨zd2, tl, tr, rfl, hz2, hzp, hl, hr⟩ := h.some_inv
  rw [hz] at hz2
  injection hz2 with hz2
  subst hz2
  rw [hzr] at hr
  have hleaf := hr.none_inv
  subst hleaf
  have hrwt : spliceAt (STree.node z tl .leaf) z = tl := by
    cases tl <;> simp [spliceAt]
  rw [hrwt]
  exact hl.topId_eq.symm

theorem ReprT.spliceL_aux {s s' : TreeState} {z : Nat} {zd : RBNodeData}
    (hz : s.nodes z = some zd) (hzl : zd.left = none)
    (SC : ∀ c cd, zd.right = some c → s.nodes c = some cd →
      s'.nodes c = some { cd with parent := zd.parent })
    (SP : ∀ p pd, zd.parent = some p → s.nodes p = some pd →
      s'.nodes p = some (if pd.left = some z then { pd with left := zd.right }
        else { pd with right := zd.right }))
    (S5 : ∀ j, j ≠ z → zd.right ≠ some j → zd.parent ≠ some j →
      s'.nodes j = s.nodes j) :
    ∀ {u : STree} {par oid : Option Nat}, ReprT s par oid u → (treeIds u).Nodup →
      z ∈ treeIds u → (∀ q, par = some q → q ∉ treeIds u) →
      ReprT s' par (topId (spliceAt u z)) (spliceAt u z) := by
  intro u
  induction u with
  | leaf => intro par oid h hnd hzu hpar; simp [treeIds] at hzu
  | node n ul ur ihl ihr =>
    intro par oid h hnd hzu hpar
    obtain ⟨d, hoid, hn, hp, hl, hr⟩ := h.node_inv
    obtain ⟨hndl, hndr, hnl, hnr, hdisj⟩ := treeIds_nodup_node hnd
    by_cases hnz : n = z
    · subst hnz
      rw [hz] at hn
      injection hn with hn
      subst hn
      rw [hzl] at hl
      have hleaf := hl.none_inv
      subst hleaf
      have hrwt : spliceAt (STree.node n .leaf ur) n = ur := by
        simp [spliceAt]
      rw [hrwt, ← hr.topId_eq]
      refine hr.reparent hndr ?_ ?_
      · intro i dd hi hdd
        rw [← hp]
        exact SC i dd hi hdd
      · intro i hi hne
        refine S5 i (fun hh => hnr (hh ▸ hi)) hne ?_
        intro hh
        rw [hp] at hh
        exact hpar i hh (by simp [treeIds, hi])
    · have hzu' : z ∈ treeIds ul ∨ z ∈ treeIds ur := by
        simp only [treeIds, List.mem_cons, List.mem_append] at hzu
        rcases hzu with rfl | hzu | hzu
        · exact absurd rfl hnz
        · exact Or.inl hzu
        · exact Or.inr hzu
      rcases hzu' with hzl' | hzr'
      · obtain ⟨zpar, sl, sr, hsub, hsubnd, hsubmem, hsubpar, hloc⟩ :=
          hl.subtree hndl (by intro q hq; cases hq; exact hnl) hzl'
        obtain ⟨zd2, sl2, sr2, hsubeq, hz2, hzp2, _, _⟩ := hsub.some_inv
        rw [hz] at hz2
        injection hz2 with hz2
        subst hz2
        have hcmem : ∀ c, zd.right = some c → c ∈ treeIds ul := by
          intro c hc
          exact hl.child_mem2 hzl' hz (Or.inr hc)
        have hrwt : spliceAt (STree.node n ul ur) z =
            .node n (spliceAt ul z) (spliceAt ur z) := by
          simp [spliceAt, hnz]
        have hurz : spliceAt ur z = ur :=
          spliceAt_not_mem (fun hh => hdisj z hzl' hh)
        rw [hrwt, hurz]
        simp only [topId]
        have hframe_ur : ReprT s' (some n) d.right ur := by
          refine hr.frame ?_
          intro i hi
          refine S5 i (fun hh => hdisj z hzl' (hh ▸ hi)) ?_ ?_
          · intro hh
            exact hdisj i (hcmem i hh) hi
          · intro hh
            rw [hzp2] at hh
            rcases hloc with ⟨hzp3, _⟩ | ⟨q, hq, hqm⟩
            · rw [hzp3] at hh
              cases hh
              exact hnr hi
            · rw [hq] at hh
              cases hh
              exact hdisj i hqm hi
        have hih : ReprT s' (some n) (topId (spliceAt ul z)) (spliceAt ul z) :=
          ihl hl hndl hzl' (by intro q hq; cases hq; exact hnl)
        rcases hloc with ⟨hzp3, hdl⟩ | ⟨q, hq, hqm⟩
        · have hzpn : zd.parent = some n := hzp2.trans hzp3
          have hrecn := SP n d hzpn hn
          rw [if_pos hdl] at hrecn
          have htop2 : topId (spliceAt ul z) = zd.right := by
            rw [hdl] at hl
            exact ReprT.spliceL_top hz hzl hl
          refine .node par n { d with left := zd.right } (spliceAt ul z) ur
            hrecn (by simpa using hp) ?_ (by simpa using hframe_ur)
          rw [htop2] at hih
          exact hih
        · have hzpq : zd.parent = some q := hzp2.trans hq
          have hqn : q ≠ n := fun hh => hnl (hh ▸ hqm)
          have hzpn' : zd.parent ≠ some n := by
            rw [hzpq]
            intro hh
            injection hh with hh
            exact hqn hh
          have htop1 : topId (spliceAt ul z) = topId ul := by
            refine topId_spliceAt_ne ?_
            intro hh
            have htl := hl.topId_eq
            rw [hh] at htl
            rw [htl] at hl
            obtain ⟨zd3, _, _, _, hz3, hzp3b, _, _⟩ := hl.some_inv
            rw [hz] at hz3
            injection hz3 with hz3
            subst hz3
            rw [hzpq] at hzp3b
            injection hzp3b with hzp3b
            exact hqn hzp3b
          have hrecn : s'.nodes n = some d := by
            rw [S5 n (fun hh => hnz hh) (fun hh => hnl (hcmem n hh)) hzpn']
            exact hn
          refine .node par n d (spliceAt ul z) ur hrecn (by simpa using hp) ?_
            (by simpa using hframe_ur)
          rw [htop1, ← hl.topId_eq] at hih
          exact hih
      · obtain ⟨zpar, sl, sr, hsub, hsubnd, hsubmem, hsubpar, hloc⟩ :=
          hr.subtree hndr (by intro q hq; cases hq; exact hnr) hzr'
        obtain ⟨zd2, sl2, sr2, hsubeq, hz2, hzp2, _, _⟩ := hsub.some_inv
        rw [hz] at hz2
        injection hz2 with hz2
        subst hz2
        have hcmem : ∀ c, zd.right = some c → c ∈ treeIds ur := by
          intro c hc
          exact hr.child_mem2 hzr' hz (Or.inr hc)
        have hrwt : spliceAt (STree.node n ul ur) z =
            .node n (spliceAt ul z) (spliceAt ur z) := by
          simp [spliceAt, hnz]
        have hulz : spliceAt ul z = ul :=
          spliceAt_not_mem (fun hh => hdisj z hh hzr')
        rw [hrwt, hulz]
        simp only [topId]
        have hframe_ul : ReprT s' (some n) d.left ul := by
          refine hl.frame ?_
          intro i hi
          refine S5 i (fun hh => hdisj i hi (hh ▸ hzr')) ?_ ?_
          · intro hh
            exact hdisj i hi (hcmem i hh)
          · intro hh
            rw [hzp2] at hh
            rcases hloc with ⟨hzp3, _⟩ | ⟨q, hq, hqm⟩
            · rw [hzp3] at hh
              cases hh
              exact hnl hi
            · rw [hq] at hh
              cases hh
              exact hdisj i hi hqm
        have hih : ReprT s' (some n) (topId (spliceAt ur z)) (spliceAt ur z) :=
          ihr hr hndr hzr' (by intro q hq; cases hq; exact hnr)
        rcases hloc with ⟨hzp3, hdr⟩ | ⟨q, hq, hqm⟩
        · have hzpn : zd.parent = some n := hzp2.trans hzp3
          have hdlnz : d.left ≠ some z := by
            intro hh
            have := topId_mem (show topId ul = some z from by
              rw [← hl.topId_eq, hh])
            exact hdisj z this hzr'
          have hrecn := SP n d hzpn hn
          rw [if_neg hdlnz] at hrecn
          have htop2 : topId (spliceAt ur z) = zd.right := by
            rw [hdr] at hr
            exact ReprT.spliceL_top hz hzl hr
          refine .node par n { d with right := zd.right } ul (spliceAt ur z)
            hrecn (by simpa using hp) (by simpa using hframe_ul) ?_
          rw [htop2] at hih
          exact hih
        · have hzpq : zd.parent = some q := hzp2.trans hq
          have hqn : q ≠ n := fun hh => hnr (hh ▸ hqm)
          have hzpn' : zd.parent ≠ some n := by
            rw [hzpq]
            intro hh
            injection hh with hh
            exact hqn hh
          have htop1 : topId (spliceAt ur z) = topId ur := by
            refine topId_spliceAt_ne ?_
            intro hh
            have htl := hr.topId_eq
            rw [hh] at htl
            rw [htl] at hr
            obtain ⟨zd3, _, _, _, hz3, hzp3b, _, _⟩ := hr.some_inv
            rw [hz] at hz3
            injection hz3 with hz3
            subst hz3
            rw [hzpq] at hzp3b
            injection hzp3b with hzp3b
            exact hqn hzp3b
          have hrecn : s'.nodes n = some d := by
            rw [S5 n (fun hh => hnz hh) (fun hh => hnr (hcmem n hh)) hzpn']
            exact hn
          refine .node par n d ul (spliceAt ur z) hrecn (by simpa using hp)
            (by simpa using hframe_ul) ?_
          rw [htop1, ← hr.topId_eq] at hih
          exact hih

end RBViz

namespace RBViz

theorem ReprT.spliceR_aux {s s' : TreeState} {z : Nat} {zd : RBNodeData}
    (hz : s.nodes z = some zd) (hzr : zd.right = none)
    (SC : ∀ c cd, zd.left = some c → s.nodes c = some cd →
      s'.nodes c = some { cd with parent := zd.parent })
    (SP : ∀ p pd, zd.parent = some p → s.nodes p = some pd →
      s'.nodes p = some (if pd.left = some z then { pd with left := zd.left }
        else { pd with right := zd.left }))
    (S5 : ∀ j, j ≠ z → zd.left ≠ some j → zd.parent ≠ some j →
      s'.nodes j = s.nodes j) :
    ∀ {u : STree} {par oid : Option Nat}, ReprT s par oid u → (treeIds u).Nodup →
      z ∈ treeIds u → (∀ q, par = some q → q ∉ treeIds u) →
      ReprT s' par (topId (spliceAt u z)) (spliceAt u z) := by
  intro u
  induction u with
  | leaf => intro par oid h hnd hzu hpar; simp [treeIds] at hzu
  | node n ul ur ihl ihr =>
    intro par oid h hnd hzu hpar
    obtain ⟨d, hoid, hn, hp, hl, hr⟩ := h.node_inv
    obtain ⟨hndl, hndr, hnl, hnr, hdisj⟩ := treeIds_nodup_node hnd
    by_cases hnz : n = z
    · subst hnz
      rw [hz] at hn
      injection hn with hn
      subst hn
      rw [hzr] at hr
      have hleaf := hr.none_inv
      subst hleaf
      have hrwt : spliceAt (STree.node n ul .leaf) n = ul := by
        cases ul <;> simp [spliceAt]
      rw [hrwt, ← hl.topId_eq]
      refine hl.reparent hndl ?_ ?_
      · intro i dd hi hdd
        rw [← hp]
        exact SC i dd hi hdd
      · intro i hi hne
        refine S5 i (fun hh => hnl (hh ▸ hi)) hne ?_
        intro hh
        rw [hp] at hh
        exact hpar i hh (by simp [treeIds, hi])
    · have hzu' : z ∈ treeIds ul ∨ z ∈ treeIds ur := by
        simp only [treeIds, List.mem_cons, List.mem_append] at hzu
        rcases hzu with rfl | hzu | hzu
        · exact absurd rfl hnz
        · exact Or.inl hzu
        · exact Or.inr hzu
      rcases hzu' with hzl' | hzr'
      · obtain ⟨zpar, sl, sr, hsub, hsubnd, hsubmem, hsubpar, hloc⟩ :=
          hl.subtree hndl (by intro q hq; cases hq; exact hnl) hzl'
        obtain ⟨zd2, sl2, sr2, hsubeq, hz2, hzp2, _, _⟩ := hsub.some_inv
        rw [hz] at hz2
        injection hz2 with hz2
        subst hz2
        have hcmem : ∀ c, zd.left = some c → c ∈ treeIds ul := by
          intro c hc
          exact hl.child_mem2 hzl' hz (Or.inl hc)
        have hrwt : spliceAt (STree.node n ul ur) z =
            .node n (spliceAt ul z) (spliceAt ur z) := by
          simp [spliceAt, hnz]
        have hurz : spliceAt ur z = ur :=
          spliceAt_not_mem (fun hh => hdisj z hzl' hh)
        rw [hrwt, hurz]
        simp only [topId]
        have hframe_ur : ReprT s' (some n) d.right ur := by
          refine hr.frame ?_
          intro i hi
          refine S5 i (fun hh => hdisj z hzl' (hh ▸ hi)) ?_ ?_
          · intro hh
            exact hdisj i (hcmem i hh) hi
          · intro hh
            rw [hzp2] at hh
            rcases hloc with ⟨hzp3, _⟩ | ⟨q, hq, hqm⟩
            · rw [hzp3] at hh
              cases hh
              exact hnr hi
            · rw [hq] at hh
              cases hh
              exact hdisj i hqm hi
        have hih : ReprT s' (some n) (topId (spliceAt ul z)) (spliceAt ul z) :=
          ihl hl hndl hzl' (by intro q hq; cases hq; exact hnl)
        rcases hloc with ⟨hzp3, hdl⟩ | ⟨q, hq, hqm⟩
        · have hzpn : zd.parent = some n := hzp2.trans hzp3
          have hrecn := SP n d hzpn hn
          rw [if_pos hdl] at hrecn
          have htop2 : topId (spliceAt ul z) = zd.left := by
            rw [hdl] at hl
            exact ReprT.spliceR_top hz hzr hl
          refine .node par n { d with left := zd.left } (spliceAt ul z) ur
            hrecn (by simpa using hp) ?_ (by simpa using hframe_ur)
          rw [htop2] at hih
          exact hih
        · have hzpq : zd.parent = some q := hzp2.trans hq
          have hqn : q ≠ n := fun hh => hnl (hh ▸ hqm)
          have hzpn' : zd.parent ≠ some n := by
            rw [hzpq]
            intro hh
            injection hh with hh
            exact hqn hh
          have htop1 : topId (spliceAt ul z) = topId ul := by
            refine topId_spliceAt_ne ?_
            intro hh
            have htl := hl.topId_eq
            rw [hh] at htl
            rw [htl] at hl
            obtain ⟨zd3, _, _, _, hz3, hzp3b, _, _⟩ := hl.some_inv
            rw [hz] at hz3
            injection hz3 with hz3
            subst hz3
            rw [hzpq] at hzp3b
            injection hzp3b with hzp3b
            exact hqn hzp3b
          have hrecn : s'.nodes n = some d := by
            rw [S5 n (fun hh => hnz hh) (fun hh => hnl (hcmem n hh)) hzpn']
            exact hn
          refine .node par n d (spliceAt ul z) ur hrecn (by simpa using hp) ?_
            (by simpa using hframe_ur)
          rw [htop1, ← hl.topId_eq] at hih
          exact hih
      · obtain ⟨zpar, sl, sr, hsub, hsubnd, hsubmem, hsubpar, hloc⟩ :=
          hr.subtree hndr (by intro q hq; cases hq; exact hnr) hzr'
        obtain ⟨zd2, sl2, sr2, hsubeq, hz2, hzp2, _, _⟩ := hsub.some_inv
        rw [hz] at hz2
        injection hz2 with hz2
        subst hz2
        have hcmem : ∀ c, zd.left = some c → c ∈ treeIds ur := by
          intro c hc
          exact hr.child_mem2 hzr' hz (Or.inl hc)
        have hrwt : spliceAt (STree.node n ul ur) z =
            .node n (spliceAt ul z) (spliceAt ur z) := by
          simp [spliceAt, hnz]
        have hulz : spliceAt ul z = ul :=
          spliceAt_not_mem (fun hh => hdisj z hh hzr')
        rw [hrwt, hulz]
        simp only [topId]
        have hframe_ul : ReprT s' (some n) d.left ul := by
          refine hl.frame ?_
          intro i hi
          refine S5 i (fun hh => hdisj i hi (hh ▸ hzr')) ?_ ?_
          · intro hh
            exact hdisj i hi (hcmem i hh)
          · intro hh
            rw [hzp2] at hh
            rcases hloc with ⟨hzp3, _⟩ | ⟨q, hq, hqm⟩
            · rw [hzp3] at hh
              cases hh
              exact hnl hi
            · rw [hq] at hh
              cases hh
              exact hdisj i hi hqm
        have hih : ReprT s' (some n) (topId (spliceAt ur z)) (spliceAt ur z) :=
          ihr hr hndr hzr' (by intro q hq; cases hq; exact hnr)
        rcases hloc with ⟨hzp3, hdr⟩ | ⟨q, hq, hqm⟩
        · have hzpn : zd.parent = some n := hzp2.trans hzp3
          have hdlnz : d.left ≠ some z := by
            intro hh
            have := topId_mem (show topId ul = some z from by
              rw [← hl.topId_eq, hh])
            exact hdisj z this hzr'
          have hrecn := SP n d hzpn hn
          rw [if_neg hdlnz] at hrecn
          have htop2 : topId (spliceAt ur z) = zd.left := by
            rw [hdr] at hr
            exact ReprT.spliceR_top hz hzr hr
          refine .node par n { d with right := zd.left } ul (spliceAt ur z)
            hrecn (by simpa using hp) (by simpa using hframe_ul) ?_
          rw [htop2] at hih
          exact hih
        · have hzpq : zd.parent = some q := hzp2.trans hq
          have hqn : q ≠ n := fun hh => hnr (hh ▸ hqm)
          have hzpn' : zd.parent ≠ some n := by
            rw [hzpq]
            intro hh
            injection hh with hh
            exact hqn hh
          have htop1 : topId (spliceAt ur z) = topId ur := by
            refine topId_spliceAt_ne ?_
            intro hh
            have htl := hr.topId_eq
            rw [hh] at htl
            rw [htl] at hr
            obtain ⟨zd3, _, _, _, hz3, hzp3b, _, _⟩ := hr.some_inv
            rw [hz] at hz3
            injection hz3 with hz3
            subst hz3
            rw [hzpq] at hzp3b
            injection hzp3b with hzp3b
            exact hqn hzp3b
          have hrecn : s'.nodes n = some d := by
            rw [S5 n (fun hh => hnz hh) (fun hh => hnr (hcmem n hh)) hzpn']
            exact hn
          refine .node par n d ul (spliceAt ur z) hrecn (by simpa using hp)
            (by simpa using hframe_ul) ?_
          rw [htop1, ← hr.topId_eq] at hih
          exact hih

end RBViz

namespace RBViz

theorem WFt.root_inT {s : TreeState} {t : STree} (h : WFt s t) : inT s.root t := by
  intro c hc
  exact h.root_mem hc

theorem WFt.parentOf_inT {s : TreeState} {t : STree} (h : WFt s t)
    {o : Option Nat} (ho : inT o t) : inT (parentOf s o) t := by
  intro c hc
  cases o with
  | none => simp [parentOf, getN] at hc
  | some i =>
    have hi := ho i rfl
    obtain ⟨d, hd⟩ := h.1.mem_record hi
    rw [parentOf_eq hd] at hc
    exact h.parent_mem2 hi hd hc

theorem WFt.leftOf_inT {s : TreeState} {t : STree} (h : WFt s t)
    {o : Option Nat} (ho : inT o t) : inT (leftOf s o) t := by
  intro c hc
  cases o with
  | none => simp [leftOf, getN] at hc
  | some i =>
    have hi := ho i rfl
    obtain ⟨d, hd⟩ := h.1.mem_record hi
    rw [leftOf_eq hd] at hc
    exact h.child_mem hi hd (Or.inl hc)

theorem WFt.rightOf_inT {s : TreeState} {t : STree} (h : WFt s t)
    {o : Option Nat} (ho : inT o t) : inT (rightOf s o) t := by
  intro c hc
  cases o with
  | none => simp [rightOf, getN] at hc
  | some i =>
    have hi := ho i rfl
    obtain ⟨d, hd⟩ := h.1.mem_record hi
    rw [rightOf_eq hd] at hc
    exact h.child_mem hi hd (Or.inr hc)

theorem inT_perm {t t' : STree} (hperm : (treeIds t').Perm (treeIds t))
    {o : Option Nat} (ho : inT o t) : inT o t' := by
  intro c hc
  exact hperm.mem_iff.mpr (ho c hc)

theorem WFt.transplantL {s : TreeState} {t : STree} {z : Nat} {zd : RBNodeData}
    (ht : WFt s t) (hz : s.nodes z = some zd) (hzm : z ∈ treeIds t)
    (hzl : zd.left = none) :
    WFt (transplant s z zd.right) (spliceAt t z) ∧
    (transplant s z zd.right).nodeCounter = s.nodeCounter := by
  obtain ⟨zpar, sl, sr, hsub, hsubnd, hsubmem, hsubpar, hloc⟩ :=
    ht.1.subtree ht.2.1 (by simp) hzm
  obtain ⟨zd2, sl2, sr2, hsubeq, hz2, hzp2, hsl, hsr⟩ := hsub.some_inv
  injection hsubeq with e1 e2 e3
  subst e2
  subst e3
  rw [hz] at hz2
  injection hz2 with hz2
  subst hz2
  have hzsub : z ∈ treeIds (STree.node z sl sr) := by simp [treeIds]
  have hvp : ∀ vid p, zd.right = some vid → zd.parent = some p → vid ≠ p := by
    intro vid p hvid hp
    have hvmem : vid ∈ treeIds (STree.node z sl sr) :=
      hsub.child_mem2 hzsub hz (Or.inr hvid)
    rw [hzp2] at hp
    intro hh
    subst hh
    exact hsubpar vid hp hvmem
  obtain ⟨SCnt, SRn, SRs, SPsl, SV, SF⟩ := transplant_spec hz zd.right hvp
  have hrep : ReprT (transplant s z zd.right) none
      (topId (spliceAt t z)) (spliceAt t z) := by
    refine ReprT.spliceL_aux hz hzl (fun c cd hc hcd => SV c cd hc hcd)
      (fun p pd hp hpd => SPsl p pd hp hpd)
      (fun j _ hjr hjp => SF j hjp hjr) ht.1 ht.2.1 hzm (by simp)
  have hroot : (transplant s z zd.right).root = topId (spliceAt t z) := by
    rcases hloc with ⟨hzp3, hoid⟩ | ⟨q, hq, hqm⟩
    · have hzpn : zd.parent = none := by rw [hzp2, hzp3]
      rw [SRn hzpn]
      have h1 := ht.1
      rw [hoid] at h1
      exact (ReprT.spliceL_top hz hzl h1).symm
    · have hzpq : zd.parent = some q := by rw [hzp2, hq]
      rw [SRs q hzpq]
      have htne : topId t ≠ some z := by
        intro hh
        have h1 := ht.1
        have htl := h1.topId_eq
        rw [hh] at htl
        rw [htl] at h1
        obtain ⟨zd3, _, _, _, hz3, hzp3b, _, _⟩ := h1.some_inv
        rw [hz] at hz3
        injection hz3 with hz3
        subst hz3
        rw [hzpq] at hzp3b
        cases hzp3b
      rw [topId_spliceAt_ne htne, ← ht.1.topId_eq]
  rw [← hroot] at hrep
  refine ⟨⟨hrep, (treeIds_spliceAt_sublist t z).nodup ht.2.1, ?_⟩, SCnt⟩
  intro i hi
  rw [SCnt]
  exact ht.2.2 i ((treeIds_spliceAt_sublist t z).subset hi)

theorem WFt.transplantR {s : TreeState} {t : STree} {z : Nat} {zd : RBNodeData}
    (ht : WFt s t) (hz : s.nodes z = some zd) (hzm : z ∈ treeIds t)
    (hzr : zd.right = none) :
    WFt (transplant s z zd.left) (spliceAt t z) ∧
    (transplant s z zd.left).nodeCounter = s.nodeCounter := by
  obtain ⟨zpar, sl, sr, hsub, hsubnd, hsubmem, hsubpar, hloc⟩ :=
    ht.1.subtree ht.2.1 (by simp) hzm
  obtain ⟨zd2, sl2, sr2, hsubeq, hz2, hzp2, hsl, hsr⟩ := hsub.some_inv
  injection hsubeq with e1 e2 e3
  subst e2
  subst e3
  rw [hz] at hz2
  injection hz2 with hz2
  subst hz2
  have hzsub : z ∈ treeIds (STree.node z sl sr) := by simp [treeIds]
  have hvp : ∀ vid p, zd.left = some vid → zd.parent = some p → vid ≠ p := by
    intro vid p hvid hp
    have hvmem : vid ∈ treeIds (STree.node z sl sr) :=
      hsub.child_mem2 hzsub hz (Or.inl hvid)
    rw [hzp2] at hp
    intro hh
    subst hh
    exact hsubpar vid hp hvmem
  obtain ⟨SCnt, SRn, SRs, SPsl, SV, SF⟩ := transplant_spec hz zd.left hvp
  have hrep : ReprT (transplant s z zd.left) none
      (topId (spliceAt t z)) (spliceAt t z) := by
    refine ReprT.spliceR_aux hz hzr (fun c cd hc hcd => SV c cd hc hcd)
      (fun p pd hp hpd => SPsl p pd hp hpd)
      (fun j _ hjr hjp => SF j hjp hjr) ht.1 ht.2.1 hzm (by simp)
  have hroot : (transplant s z zd.left).root = topId (spliceAt t z) := by
    rcases hloc with ⟨hzp3, hoid⟩ | ⟨q, hq, hqm⟩
    · have hzpn : zd.parent = none := by rw [hzp2, hzp3]
      rw [SRn hzpn]
      have h1 := ht.1
      rw [hoid] at h1
      exact (ReprT.spliceR_top hz hzr h1).symm
    · have hzpq : zd.parent = some q := by rw [hzp2, hq]
      rw [SRs q hzpq]
      have htne : topId t ≠ some z := by
        intro hh
        have h1 := ht.1
        have htl := h1.topId_eq
        rw [hh] at htl
        rw [htl] at h1
        obtain ⟨zd3, _, _, _, hz3, hzp3b, _, _⟩ := h1.some_inv
        rw [hz] at hz3
        injection hz3 with hz3
        subst hz3
        rw [hzpq] at hzp3b
        cases hzp3b
      rw [topId_spliceAt_ne htne, ← ht.1.topId_eq]
  rw [← hroot] at hrep
  refine ⟨⟨hrep, (treeIds_spliceAt_sublist t z).nodup ht.2.1, ?_⟩, SCnt⟩
  intro i hi
  rw [SCnt]
  exact ht.2.2 i ((treeIds_spliceAt_sublist t z).subset hi)

theorem findAux_mem_tree {s : TreeState} {v : Int} :
    ∀ (fuel : Nat) (u : STree) (pu oid : Option Nat) (z : Nat),
      ReprT s pu oid u → findAux s v fuel oid = some z →
      z ∈ treeIds u ∧ ∃ zd, s.nodes z = some zd := by
  intro fuel
  induction fuel with
  | zero =>
    intro u pu oid z h hf
    simp [findAux] at hf
  | succ f ih =>
    intro u pu oid z h hf
    cases oid with
    | none => simp [findAux] at hf
    | some c =>
      obtain ⟨d0, tl, tr, rfl, hc, hcp, hl, hr⟩ := h.some_inv
      simp only [findAux, hc] at hf
      by_cases hveq : v = d0.value
      · rw [if_pos hveq] at hf
        injection hf with hf
        subst hf
        exact ⟨by simp [treeIds], d0, hc⟩
      · rw [if_neg hveq] at hf
        by_cases hvlt : v < d0.value
        · rw [if_pos hvlt] at hf
          obtain ⟨hmem, hrec⟩ := ih tl (some c) d0.left z hl hf
          exact ⟨by simp [treeIds, hmem], hrec⟩
        · rw [if_neg hvlt] at hf
          obtain ⟨hmem, hrec⟩ := ih tr (some c) d0.right z hr hf
          exact ⟨by simp [treeIds, hmem], hrec⟩

theorem find_mem {s : TreeState} {t : STree} (h : WFt s t) {v : Int} {z : Nat}
    (hf : find s v = some z) :
    z ∈ treeIds t ∧ ∃ zd, s.nodes z = some zd :=
  findAux_mem_tree (s.nodeCounter + 1) t none s.root z h.1 hf

theorem minimumGo_spec {s : TreeState} :
    ∀ (u : STree) (fuel : Nat) (pu : Option Nat) (c : Nat),
      ReprT s pu (some c) u → sHeight u < fuel →
      minimumGo s fuel c ∈ treeIds u ∧
      ∃ yd, s.nodes (minimumGo s fuel c) = some yd ∧ yd.left = none := by
  intro u
  induction u with
  | leaf =>
    intro fuel pu c h hf
    exact absurd h.topId_eq (by simp [topId])
  | node n l r ihl ihr =>
    intro fuel pu c h hf
    obtain ⟨d, hoid, hn, hp, hl, hr⟩ := h.node_inv
    injection hoid with hoid
    subst hoid
    cases fuel with
    | zero => simp [sHeight] at hf
    | succ f =>
      rw [minimumGo, hn]
      simp only [Option.some_bind]
      cases hdl : d.left with
      | none =>
        exact ⟨by simp [treeIds], d, hn, hdl⟩
      | some cl =>
        rw [hdl] at hl
        have hfl : sHeight l < f := by
          simp only [sHeight] at hf
          omega
        obtain ⟨hmem, hrec⟩ := ihl f (some c) cl hl hfl
        exact ⟨by simp [treeIds, hmem], hrec⟩

end RBViz

namespace RBViz

theorem WFt.recolor {s : TreeState} {t : STree} (h : WFt s t) (j : Nat)
    (c : NodeColor) : WFt (updNode s j (fun d => { d with color := c })) t :=
  h.updShape j _ (fun d => ⟨rfl, rfl, rfl⟩)

theorem fdRedSibling_inv {s : TreeState} {t : STree} {r : RecState}
    {curP : Option Nat} {sib0 : Nat} {side : Bool} (h : WFt s t)
    (hr : snapsOk r) (hcp : inT curP t) (hsb : sib0 ∈ treeIds t) :
    ∃ t', WFt (fdRedSibling s r curP sib0 side).1 t' ∧
      (treeIds t').Perm (treeIds t) ∧
      snapsOk (fdRedSibling s r curP sib0 side).2 ∧
      (fdRedSibling s r curP sib0 side).1.nodeCounter = s.nodeCounter := by
  unfold fdRedSibling
  by_cases hcol : colorOf s (some sib0) = some NodeColor.red
  · rw [if_pos hcol]
    cases curP with
    | none =>
      dsimp only
      exact ⟨t, h.recolor sib0 NodeColor.black, List.Perm.refl _, hr,
        by rw [counter_updNode]⟩
    | some cp =>
      dsimp only
      have hcpt := hcp cp rfl
      have h2 := (h.recolor sib0 NodeColor.black).recolor cp NodeColor.red
      by_cases hside : side = true
      · simp only [if_pos hside]
        obtain ⟨h3, hc3⟩ := h2.rotL hcpt
        refine ⟨rotAtL t cp, h3, treeIds_rotAtL_perm t cp, ?_, ?_⟩
        · intro sn hsn
          exact snapsOk_recordStep h3.wfs
            (fun sn2 hsn2 => snapsOk_recordStep h2.wfs hr sn2 hsn2) sn hsn
        · rw [hc3, counter_updNode, counter_updNode]
      · simp only [if_neg hside]
        obtain ⟨h3, hc3⟩ := h2.rotR hcpt
        refine ⟨rotAtR t cp, h3, treeIds_rotAtR_perm t cp, ?_, ?_⟩
        · intro sn hsn
          exact snapsOk_recordStep h3.wfs
            (fun sn2 hsn2 => snapsOk_recordStep h2.wfs hr sn2 hsn2) sn hsn
        · rw [hc3, counter_updNode, counter_updNode]
  · rw [if_neg hcol]
    exact ⟨t, h, List.Perm.refl _, hr, rfl⟩

theorem fdBothBlack_inv {s : TreeState} {t : STree} {r : RecState}
    {curP sib1 : Option Nat} (h : WFt s t) (hr : snapsOk r)
    (hcp : inT curP t) :
    ∃ t', WFt (fdBothBlack s r curP sib1).1 t' ∧
      (treeIds t').Perm (treeIds t) ∧
      snapsOk (fdBothBlack s r curP sib1).2.1 ∧
      inT (fdBothBlack s r curP sib1).2.2.1 t' ∧
      inT (fdBothBlack s r curP sib1).2.2.2 t' ∧
      (fdBothBlack s r curP sib1).1.nodeCounter = s.nodeCounter := by
  unfold fdBothBlack
  cases sib1 with
  | some sb =>
    dsimp only
    have h1 := h.recolor sb NodeColor.red
    refine ⟨t, h1, List.Perm.refl _,
      fun sn hsn => snapsOk_recordStep h1.wfs hr sn hsn, hcp,
      h1.parentOf_inT hcp, by rw [counter_updNode]⟩
  | none =>
    dsimp only
    exact ⟨t, h, List.Perm.refl _, hr, hcp, h.parentOf_inT hcp, rfl⟩

theorem fdNearChild_inv {s : TreeState} {t : STree} {r : RecState}
    {curP sib1 : Option Nat} {side : Bool} (h : WFt s t) (hr : snapsOk r)
    (hcp : inT curP t) (hsb : inT sib1 t) :
    ∃ t', WFt (fdNearChild s r curP sib1 side).1 t' ∧
      (treeIds t').Perm (treeIds t) ∧
      snapsOk (fdNearChild s r curP sib1 side).2.1 ∧
      inT (fdNearChild s r curP sib1 side).2.2 t' ∧
      (fdNearChild s r curP sib1 side).1.nodeCounter = s.nodeCounter := by
  unfold fdNearChild
  by_cases hout : isBlackO s (if side then rightOf s sib1 else leftOf s sib1) = true
  · rw [if_pos hout]
    cases hnear : (if side then leftOf s sib1 else rightOf s sib1) with
    | some near =>
      simp only [hnear]
      cases sib1 with
      | some sb =>
        dsimp only
        have hsbt := hsb sb rfl
        have h2 := ((h.recolor near NodeColor.black).recolor sb NodeColor.red)
        by_cases hside : side = true
        · simp only [if_pos hside]
          obtain ⟨h3, hc3⟩ := h2.rotR hsbt
          refine ⟨rotAtR t sb, h3, treeIds_rotAtR_perm t sb, ?_, ?_, ?_⟩
          · intro sn hsn
            exact snapsOk_recordStep h2.wfs hr sn hsn
          · exact h3.rightOf_inT (inT_perm (treeIds_rotAtR_perm t sb) hcp)
          · rw [hc3, counter_updNode, counter_updNode]
        · simp only [if_neg hside]
          obtain ⟨h3, hc3⟩ := h2.rotL hsbt
          refine ⟨rotAtL t sb, h3, treeIds_rotAtL_perm t sb, ?_, ?_, ?_⟩
          · intro sn hsn
            exact snapsOk_recordStep h2.wfs hr sn hsn
          · exact h3.leftOf_inT (inT_perm (treeIds_rotAtL_perm t sb) hcp)
          · rw [hc3, counter_updNode, counter_updNode]
      | none =>
        dsimp only
        have h1 := h.recolor near NodeColor.black
        by_cases hside : side = true
        · simp only [if_pos hside]
          exact ⟨t, h1, List.Perm.refl _, hr, h1.rightOf_inT hcp,
            by rw [counter_updNode]⟩
        · simp only [if_neg hside]
          exact ⟨t, h1, List.Perm.refl _, hr, h1.leftOf_inT hcp,
            by rw [counter_updNode]⟩
    | none =>
      simp only [hnear]
      cases sib1 with
      | some sb =>
        dsimp only
        have hsbt := hsb sb rfl
        have h2 := h.recolor sb NodeColor.red
        by_cases hside : side = true
        · simp only [if_pos hside]
          obtain ⟨h3, hc3⟩ := h2.rotR hsbt
          refine ⟨rotAtR t sb, h3, treeIds_rotAtR_perm t sb, ?_, ?_, ?_⟩
          · intro sn hsn
            exact snapsOk_recordStep h2.wfs hr sn hsn
          · exact h3.rightOf_inT (inT_perm (treeIds_rotAtR_perm t sb) hcp)
          · rw [hc3, counter_updNode]
        · simp only [if_neg hside]
          obtain ⟨h3, hc3⟩ := h2.rotL hsbt
          refine ⟨rotAtL t sb, h3, treeIds_rotAtL_perm t sb, ?_, ?_, ?_⟩
          · intro sn hsn
            exact snapsOk_recordStep h2.wfs hr sn hsn
          · exact h3.leftOf_inT (inT_perm (treeIds_rotAtL_perm t sb) hcp)
          · rw [hc3, counter_updNode]
      | none =>
        dsimp only
        by_cases hside : side = true
        · simp only [if_pos hside]
          exact ⟨t, h, List.Perm.refl _, hr, h.rightOf_inT hcp, by trivial⟩
        · simp only [if_neg hside]
          exact ⟨t, h, List.Perm.refl _, hr, h.leftOf_inT hcp, by trivial⟩
  · rw [if_neg hout]
    exact ⟨t, h, List.Perm.refl _, hr, hsb, rfl⟩

theorem fdFarChild_inv {s : TreeState} {t : STree} {r : RecState}
    {curP sib2 : Option Nat} {side : Bool} (h : WFt s t) (hr : snapsOk r)
    (hcp : inT curP t) :
    ∃ t', WFt (fdFarChild s r curP sib2 side).1 t' ∧
      (treeIds t').Perm (treeIds t) ∧
      snapsOk (fdFarChild s r curP sib2 side).2 ∧
      (fdFarChild s r curP sib2 side).1.nodeCounter = s.nodeCounter := by
  unfold fdFarChild
  cases sib2 with
  | none =>
    dsimp only
    cases curP with
    | none => exact ⟨t, h, List.Perm.refl _, hr, rfl⟩
    | some cp =>
      dsimp only
      have h2 := h.recolor cp NodeColor.black
      by_cases hside : side = true
      · simp only [if_pos hside]
        obtain ⟨h3, hc3⟩ := h2.rotL (hcp cp rfl)
        exact ⟨rotAtL t cp, h3, treeIds_rotAtL_perm t cp,
          fun sn hsn => snapsOk_recordStep h2.wfs hr sn hsn,
          by rw [hc3, counter_updNode]⟩
      · simp only [if_neg hside]
        obtain ⟨h3, hc3⟩ := h2.rotR (hcp cp rfl)
        exact ⟨rotAtR t cp, h3, treeIds_rotAtR_perm t cp,
          fun sn hsn => snapsOk_recordStep h2.wfs hr sn hsn,
          by rw [hc3, counter_updNode]⟩
  | some sb =>
    dsimp only
    have hA := h.recolor sb ((colorOf s curP).getD NodeColor.black)
    cases hfar : (if side then
        rightOf (updNode s sb (fun d =>
          { d with color := (colorOf s curP).getD NodeColor.black })) (some sb)
      else
        leftOf (updNode s sb (fun d =>
          { d with color := (colorOf s curP).getD NodeColor.black })) (some sb)) with
    | some far =>
      simp only [hfar]
      have hB := hA.recolor far NodeColor.black
      cases curP with
      | none =>
        exact ⟨t, hB, List.Perm.refl _, hr,
          by rw [counter_updNode, counter_updNode]⟩
      | some cp =>
        dsimp only
        have h2 := hB.recolor cp NodeColor.black
        by_cases hside : side = true
        · simp only [if_pos hside]
          obtain ⟨h3, hc3⟩ := h2.rotL (hcp cp rfl)
          exact ⟨rotAtL t cp, h3, treeIds_rotAtL_perm t cp,
            fun sn hsn => snapsOk_recordStep h2.wfs hr sn hsn,
            by rw [hc3, counter_updNode, counter_updNode, counter_updNode]⟩
        · simp only [if_neg hside]
          obtain ⟨h3, hc3⟩ := h2.rotR (hcp cp rfl)
          exact ⟨rotAtR t cp, h3, treeIds_rotAtR_perm t cp,
            fun sn hsn => snapsOk_recordStep h2.wfs hr sn hsn,
            by rw [hc3, counter_updNode, counter_updNode, counter_updNode]⟩
    | none =>
      simp only [hfar]
      cases curP with
      | none =>
        exact ⟨t, hA, List.Perm.refl _, hr, by rw [counter_updNode]⟩
      | some cp =>
        dsimp only
        have h2 := hA.recolor cp NodeColor.black
        by_cases hside : side = true
        · simp only [if_pos hside]
          obtain ⟨h3, hc3⟩ := h2.rotL (hcp cp rfl)
          exact ⟨rotAtL t cp, h3, treeIds_rotAtL_perm t cp,
            fun sn hsn => snapsOk_recordStep h2.wfs hr sn hsn,
            by rw [hc3, counter_updNode, counter_updNode]⟩
        · simp only [if_neg hside]
          obtain ⟨h3, hc3⟩ := h2.rotR (hcp cp rfl)
          exact ⟨rotAtR t cp, h3, treeIds_rotAtR_perm t cp,
            fun sn hsn => snapsOk_recordStep h2.wfs hr sn hsn,
            by rw [hc3, counter_updNode, counter_updNode]⟩

end RBViz

namespace RBViz

theorem fixDeleteStep_inv {s : TreeState} {t : STree} {r : RecState}
    {cur curP : Option Nat} (h : WFt s t) (hr : snapsOk r) (hcp : inT curP t) :
    (∀ res, fixDeleteStep s r cur curP = .inl res →
      ∃ t', WFt res.1 t' ∧ (treeIds t').Perm (treeIds t) ∧
        snapsOk res.2.1 ∧ res.1.nodeCounter = s.nodeCounter) ∧
    (∀ res, fixDeleteStep s r cur curP = .inr res →
      ∃ t', WFt res.1 t' ∧ (treeIds t').Perm (treeIds t) ∧ snapsOk res.2.1 ∧
        inT res.2.2.1 t' ∧ inT res.2.2.2 t' ∧
        res.1.nodeCounter = s.nodeCounter) := by
  unfold fixDeleteStep
  by_cases hdir : cur = leftOf s curP
  · rw [if_pos hdir]
    cases hsib : rightOf s curP with
    | none =>
      refine ⟨fun res he => Sum.noConfusion he, fun res he => ?_⟩
      injection he with h2
      subst h2
      exact ⟨t, h, List.Perm.refl _, hr, hcp, h.parentOf_inT hcp, by trivial⟩
    | some sib0 =>
      dsimp only
      have hsb0 : sib0 ∈ treeIds t := h.rightOf_inT hcp sib0 hsib
      obtain ⟨t1, ht1, hperm1, hr1, hcnt1⟩ :=
        @fdRedSibling_inv s t r curP sib0 true h hr hcp hsb0
      have hcp1 : inT curP t1 := inT_perm hperm1 hcp
      have hsb1 : inT (rightOf (fdRedSibling s r curP sib0 true).1 curP) t1 :=
        ht1.rightOf_inT hcp1
      by_cases hbb : isBlackO (fdRedSibling s r curP sib0 true).1
          (leftOf (fdRedSibling s r curP sib0 true).1
            (rightOf (fdRedSibling s r curP sib0 true).1 curP)) = true ∧
          isBlackO (fdRedSibling s r curP sib0 true).1
            (rightOf (fdRedSibling s r curP sib0 true).1
              (rightOf (fdRedSibling s r curP sib0 true).1 curP)) = true
      · rw [if_pos hbb]
        refine ⟨fun res he => Sum.noConfusion he, fun res he => ?_⟩
        injection he with h2
        subst h2
        obtain ⟨t2, ht2, hperm2, hr2, hin1, hin2, hcnt2⟩ :=
          fdBothBlack_inv ht1 hr1 hcp1
        exact ⟨t2, ht2, hperm2.trans hperm1, hr2, hin1, hin2,
          by rw [hcnt2, hcnt1]⟩
      · rw [if_neg hbb]
        refine ⟨fun res he => ?_, fun res he => Sum.noConfusion he⟩
        injection he with h2
        subst h2
        obtain ⟨t2, ht2, hperm2, hr2, hin2, hcnt2⟩ :=
          @fdNearChild_inv (fdRedSibling s r curP sib0 true).1 t1
            (fdRedSibling s r curP sib0 true).2 curP
            (rightOf (fdRedSibling s r curP sib0 true).1 curP) true
            ht1 hr1 hcp1 hsb1
        obtain ⟨t3, ht3, hperm3, hr3, hcnt3⟩ :=
          @fdFarChild_inv _ t2 _ curP _ true ht2 hr2 (inT_perm hperm2 hcp1)
        exact ⟨t3, ht3, hperm3.trans (hperm2.trans hperm1), hr3,
          by rw [hcnt3, hcnt2, hcnt1]⟩
  · rw [if_neg hdir]
    cases hsib : leftOf s curP with
    | none =>
      refine ⟨fun res he => Sum.noConfusion he, fun res he => ?_⟩
      injection he with h2
      subst h2
      exact ⟨t, h, List.Perm.refl _, hr, hcp, h.parentOf_inT hcp, by trivial⟩
    | some sib0 =>
      dsimp only
      have hsb0 : sib0 ∈ treeIds t := h.leftOf_inT hcp sib0 hsib
      obtain ⟨t1, ht1, hperm1, hr1, hcnt1⟩ :=
        @fdRedSibling_inv s t r curP sib0 false h hr hcp hsb0
      have hcp1 : inT curP t1 := inT_perm hperm1 hcp
      have hsb1 : inT (leftOf (fdRedSibling s r curP sib0 false).1 curP) t1 :=
        ht1.leftOf_inT hcp1
      by_cases hbb : isBlackO (fdRedSibling s r curP sib0 false).1
          (rightOf (fdRedSibling s r curP sib0 false).1
            (leftOf (fdRedSibling s r curP sib0 false).1 curP)) = true ∧
          isBlackO (fdRedSibling s r curP sib0 false).1
            (leftOf (fdRedSibling s r curP sib0 false).1
              (leftOf (fdRedSibling s r curP sib0 false).1 curP)) = true
      · rw [if_pos hbb]
        refine ⟨fun res he => Sum.noConfusion he, fun res he => ?_⟩
        injection he with h2
        subst h2
        obtain ⟨t2, ht2, hperm2, hr2, hin1, hin2, hcnt2⟩ :=
          fdBothBlack_inv ht1 hr1 hcp1
        exact ⟨t2, ht2, hperm2.trans hperm1, hr2, hin1, hin2,
          by rw [hcnt2, hcnt1]⟩
      · rw [if_neg hbb]
        refine ⟨fun res he => ?_, fun res he => Sum.noConfusion he⟩
        injection he with h2
        subst h2
        obtain ⟨t2, ht2, hperm2, hr2, hin2, hcnt2⟩ :=
          @fdNearChild_inv (fdRedSibling s r curP sib0 false).1 t1
            (fdRedSibling s r curP sib0 false).2 curP
            (leftOf (fdRedSibling s r curP sib0 false).1 curP) false
            ht1 hr1 hcp1 hsb1
        obtain ⟨t3, ht3, hperm3, hr3, hcnt3⟩ :=
          @fdFarChild_inv _ t2 _ curP _ false ht2 hr2 (inT_perm hperm2 hcp1)
        exact ⟨t3, ht3, hperm3.trans (hperm2.trans hperm1), hr3,
          by rw [hcnt3, hcnt2, hcnt1]⟩

theorem fixDeleteGo_inv :
    ∀ (fuel : Nat) (s : TreeState) (t : STree) (r : RecState)
      (cur curP : Option Nat), WFt s t → snapsOk r → inT curP t →
      ∃ t', WFt (fixDeleteGo fuel s r cur curP).1 t' ∧
        (treeIds t').Perm (treeIds t) ∧
        snapsOk (fixDeleteGo fuel s r cur curP).2.1 ∧
        (fixDeleteGo fuel s r cur curP).1.nodeCounter = s.nodeCounter := by
  intro fuel
  induction fuel with
  | zero =>
    intro s t r cur curP h hr hcp
    exact ⟨t, h, List.Perm.refl _, hr, rfl⟩
  | succ k ih =>
    intro s t r cur curP h hr hcp
    rw [fixDeleteGo]
    by_cases h1 : cur = s.root
    · rw [if_pos h1]
      exact ⟨t, h, List.Perm.refl _, hr, rfl⟩
    · rw [if_neg h1]
      by_cases h2 : isBlackO s cur = true
      · rw [if_pos h2]
        cases hstep : fixDeleteStep s r cur curP with
        | inl res =>
          obtain ⟨t', ht', hperm, hr', hcnt⟩ :=
            (fixDeleteStep_inv h hr hcp).1 res hstep
          exact ⟨t', ht', hperm, hr', hcnt⟩
        | inr res =>
          obtain ⟨t', ht', hperm, hr', hin1, hin2, hcnt⟩ :=
            (fixDeleteStep_inv h hr hcp).2 res hstep
          obtain ⟨t'', ht'', hperm2, hr'', hcnt2⟩ :=
            ih res.1 t' res.2.1 res.2.2.1 res.2.2.2 ht' hr' hin2
          exact ⟨t'', ht'', hperm2.trans hperm, hr'', by rw [hcnt2, hcnt]⟩
      · rw [if_neg h2]
        exact ⟨t, h, List.Perm.refl _, hr, rfl⟩

theorem fixDelete_inv {s : TreeState} {t : STree} {r : RecState}
    (x xP : Option Nat) (h : WFt s t) (hr : snapsOk r) (hxp : inT xP t) :
    ∃ t', WFt (fixDelete s r x xP).1 t' ∧ (treeIds t').Perm (treeIds t) ∧
      snapsOk (fixDelete s r x xP).2 ∧
      (fixDelete s r x xP).1.nodeCounter = s.nodeCounter := by
  unfold fixDelete
  obtain ⟨t', ht', hperm, hr', hcnt⟩ :=
    fixDeleteGo_inv (s.nodeCounter + 1) s t r x xP h hr hxp
  cases hres : (fixDeleteGo (s.nodeCounter + 1) s r x xP).2.2 with
  | none =>
    simp only [hres]
    exact ⟨t', ht', hperm, hr', hcnt⟩
  | some c =>
    simp only [hres]
    have ht2 := ht'.recolor c NodeColor.black
    refine ⟨t', ht2, hperm, ?_, ?_⟩
    · intro sn hsn
      exact snapsOk_recordStep ht2.wfs hr' sn hsn
    · rw [counter_updNode, hcnt]

theorem deleteFinish_inv {s : TreeState} {t : STree} {r : RecState}
    (v : Int) (c : NodeColor) (x xP : Option Nat) (h : WFt s t)
    (hr : snapsOk r) (hxp : inT xP t) :
    WFs (deleteFinish s r v c x xP).1 ∧
      ∀ sn ∈ (deleteFinish s r v c x xP).2.snapshots, exportOk sn.nodes := by
  unfold deleteFinish
  have hfr : ∃ t', WFt (if c = NodeColor.black then fixDelete s r x xP
      else (s, r)).1 t' ∧
      snapsOk (if c = NodeColor.black then fixDelete s r x xP else (s, r)).2 := by
    by_cases hc : c = NodeColor.black
    · rw [if_pos hc]
      obtain ⟨t', ht', _, hr', _⟩ := fixDelete_inv x xP h hr hxp
      exact ⟨t', ht', hr'⟩
    · rw [if_neg hc]
      exact ⟨t, h, hr⟩
  obtain ⟨t', ht', hr'⟩ := hfr
  cases hroot : (if c = NodeColor.black then fixDelete s r x xP
      else (s, r)).1.root with
  | some rt =>
    simp only [hroot]
    have ht2 := ht'.recolor rt NodeColor.black
    exact ⟨ht2.wfs, fun sn hsn => snapsOk_recordStep ht2.wfs hr' sn hsn⟩
  | none =>
    simp only [hroot]
    exact ⟨ht'.wfs, fun sn hsn => snapsOk_recordStep ht'.wfs hr' sn hsn⟩

end RBViz

namespace RBViz

theorem topId_substAt_top {u : STree} {z : Nat} (h : topId u = some z)
    (y : Nat) : topId (substAt u z y) = some y := by
  cases u with
  | leaf => cases h
  | node m l r =>
    injection h with h
    subst h
    simp [substAt, topId]

theorem topId_substAt_ne {u : STree} {z : Nat} (h : topId u ≠ some z)
    (y : Nat) : topId (substAt u z y) = topId u := by
  cases u with
  | leaf => rfl
  | node m l r =>
    have hm : m ≠ z := by
      intro hh
      subst hh
      exact h rfl
    simp [substAt, hm, topId]

theorem treeIds_substAt_mem {u : STree} {z y i : Nat}
    (hi : i ∈ treeIds (substAt u z y)) :
    (i = y ∧ z ∈ treeIds u) ∨ i ∈ treeIds u := by
  induction u with
  | leaf => simp [substAt, treeIds] at hi
  | node n l r ihl ihr =>
    by_cases hnz : n = z
    · subst hnz
      simp only [substAt, if_pos rfl, treeIds, List.mem_cons,
        List.mem_append] at hi
      rcases hi with rfl | hi | hi
      · exact Or.inl ⟨rfl, by simp [treeIds]⟩
      · exact Or.inr (by simp [treeIds, hi])
      · exact Or.inr (by simp [treeIds, hi])
    · simp only [substAt, if_neg hnz, treeIds, List.mem_cons,
        List.mem_append] at hi
      rcases hi with rfl | hi | hi
      · exact Or.inr (by simp [treeIds])
      · rcases ihl hi with ⟨rfl, hz⟩ | hmem
        · exact Or.inl ⟨rfl, by simp [treeIds, hz]⟩
        · exact Or.inr (by simp [treeIds, hmem])
      · rcases ihr hi with ⟨rfl, hz⟩ | hmem
        · exact Or.inl ⟨rfl, by simp [treeIds, hz]⟩
        · exact Or.inr (by simp [treeIds, hmem])

theorem treeIds_substAt_nodup {u : STree} {z y : Nat} (hy : y ∉ treeIds u)
    (hnd : (treeIds u).Nodup) : (treeIds (substAt u z y)).Nodup := by
  induction u with
  | leaf => simp [substAt, treeIds]
  | node n l r ihl ihr =>
    obtain ⟨hndl, hndr, hnl, hnr, hdisj⟩ := treeIds_nodup_node hnd
    simp only [treeIds, List.mem_cons, List.mem_append] at hy
    push_neg at hy
    obtain ⟨hyn, hyl, hyr⟩ := hy
    by_cases hnz : n = z
    · subst hnz
      simp only [substAt, if_pos rfl, treeIds]
      refine List.nodup_cons.mpr ⟨?_, List.Nodup.append hndl hndr hdisj⟩
      simp only [List.mem_append]
      rintro (h1 | h1)
      · exact hyl h1
      · exact hyr h1
    · simp only [substAt, if_neg hnz, treeIds]
      refine List.nodup_cons.mpr ⟨?_, ?_⟩
      · simp only [List.mem_append]
        rintro (h1 | h1)
        · rcases treeIds_substAt_mem h1 with ⟨rfl, _⟩ | this
          · exact hyn rfl
          · exact hnl this
        · rcases treeIds_substAt_mem h1 with ⟨rfl, _⟩ | this
          · exact hyn rfl
          · exact hnr this
      · refine List.Nodup.append (ihl hyl hndl) (ihr hyr hndr) ?_
        intro a ha hb
        rcases treeIds_substAt_mem ha with ⟨rfl, hz1⟩ | h1
        · rcases treeIds_substAt_mem hb with ⟨_, hz2⟩ | h2
          · exact hdisj z hz1 hz2
          · exact hyr h2
        · rcases treeIds_substAt_mem hb with ⟨rfl, _⟩ | h2
          · exact hyl h1
          · exact hdisj a h1 h2

theorem ReprT.spliceL_self_not_mem {s : TreeState} {y : Nat} {yd : RBNodeData}
    (hy : s.nodes y = some yd) (hyl : yd.left = none) :
    ∀ {u : STree} {par oid : Option Nat}, ReprT s par oid u →
      (treeIds u).Nodup → y ∉ treeIds (spliceAt u y) := by
  intro u
  induction u with
  | leaf => intro par oid h hnd; simp [spliceAt, treeIds]
  | node n l r ihl ihr =>
    intro par oid h hnd
    obtain ⟨d, hoid, hn, hp, hl, hr⟩ := h.node_inv
    obtain ⟨hndl, hndr, hnl, hnr, hdisj⟩ := treeIds_nodup_node hnd
    by_cases hny : n = y
    · subst hny
      rw [hy] at hn
      injection hn with hn
      subst hn
      rw [hyl] at hl
      have hleaf := hl.none_inv
      subst hleaf
      have hrwt : spliceAt (STree.node n .leaf r) n = r := by
        simp [spliceAt]
      rw [hrwt]
      exact hnr
    · simp only [spliceAt, if_neg hny, treeIds, List.mem_cons, List.mem_append]
      push_neg
      refine ⟨fun hh => hny hh.symm, ?_, ?_⟩
      · intro hh
        exact (ihl hl hndl) hh
      · intro hh
        exact (ihr hr hndr) hh

end RBViz

namespace RBViz

theorem ReprT.subst_aux {s s' : TreeState} {z y : Nat} {zd : RBNodeData}
    (hz : s.nodes z = some zd)
    (S1 : ∃ yfin, s'.nodes y = some yfin ∧ yfin.parent = zd.parent ∧
      yfin.left = zd.left ∧ yfin.right = zd.right)
    (S2 : ∀ c cd, zd.left = some c → s.nodes c = some cd →
      s'.nodes c = some { cd with parent := some y })
    (S3 : ∀ c cd, zd.right = some c → s.nodes c = some cd →
      s'.nodes c = some { cd with parent := some y })
    (S4 : ∀ p pd, zd.parent = some p → s.nodes p = some pd →
      s'.nodes p = some (if pd.left = some z then { pd with left := some y }
        else { pd with right := some y }))
    (S5 : ∀ j, j ≠ y → j ≠ z → zd.left ≠ some j → zd.right ≠ some j →
      zd.parent ≠ some j → s'.nodes j = s.nodes j) :
    ∀ {u : STree} {par oid : Option Nat}, ReprT s par oid u →
      (treeIds u).Nodup → z ∈ treeIds u → y ∉ treeIds u →
      (∀ q, par = some q → q ∉ treeIds u) →
      ReprT s' par (topId (substAt u z y)) (substAt u z y) := by
  intro u
  induction u with
  | leaf => intro par oid h hnd hzu hyu hpar; simp [treeIds] at hzu
  | node n ul ur ihl ihr =>
    intro par oid h hnd hzu hyu hpar
    obtain ⟨d, hoid, hn, hp, hl, hr⟩ := h.node_inv
    obtain ⟨hndl, hndr, hnl, hnr, hdisj⟩ := treeIds_nodup_node hnd
    simp only [treeIds, List.mem_cons, List.mem_append] at hyu
    push_neg at hyu
    obtain ⟨hyn, hyl, hyr⟩ := hyu
    by_cases hnz : n = z
    · subst hnz
      rw [hz] at hn
      injection hn with hn
      subst hn
      obtain ⟨yfin, hyfin, hyfp, hyfl, hyfr⟩ := S1
      simp only [substAt, if_pos rfl, topId]
      have hlmem : ∀ c, zd.left = some c → c ∈ treeIds ul := by
        intro c hc
        rw [hc] at hl
        exact topId_mem hl.topId_eq.symm
      have hrmem : ∀ c, zd.right = some c → c ∈ treeIds ur := by
        intro c hc
        rw [hc] at hr
        exact topId_mem hr.topId_eq.symm
      refine .node par y yfin ul ur hyfin (by rw [hyfp, hp]) ?_ ?_
      · rw [hyfl]
        refine hl.reparent hndl (fun i dd hi hdd => S2 i dd hi hdd) ?_
        intro i hi hne
        refine S5 i (fun hh => hyl (hh ▸ hi)) (fun hh => hnl (hh ▸ hi))
          (fun hh => hne hh) ?_ ?_
        · intro hh
          exact hdisj i hi (hrmem i hh)
        · intro hh
          rw [hp] at hh
          exact hpar i hh (by simp [treeIds, hi])
      · rw [hyfr]
        refine hr.reparent hndr (fun i dd hi hdd => S3 i dd hi hdd) ?_
        intro i hi hne
        refine S5 i (fun hh => hyr (hh ▸ hi)) (fun hh => hnr (hh ▸ hi))
          ?_ (fun hh => hne hh) ?_
        · intro hh
          exact hdisj i (hlmem i hh) hi
        · intro hh
          rw [hp] at hh
          exact hpar i hh (by simp [treeIds, hi])
    · have hzu' : z ∈ treeIds ul ∨ z ∈ treeIds ur := by
        simp only [treeIds, List.mem_cons, List.mem_append] at hzu
        rcases hzu with rfl | hzu | hzu
        · exact absurd rfl hnz
        · exact Or.inl hzu
        · exact Or.inr hzu
      rcases hzu' with hzl' | hzr'
      · obtain ⟨zpar, sl, sr, hsub, hsubnd, hsubmem, hsubpar, hloc⟩ :=
          hl.subtree hndl (by intro q hq; cases hq; exact hnl) hzl'
        obtain ⟨zd2, sl2, sr2, hsubeq, hz2, hzp2, _, _⟩ := hsub.some_inv
        rw [hz] at hz2
        injection hz2 with hz2
        subst hz2
        have hcmem : ∀ c, zd.left = some c ∨ zd.right = some c →
            c ∈ treeIds ul := by
          intro c hc
          exact hl.child_mem2 hzl' hz hc
        have hrwt : substAt (STree.node n ul ur) z y =
            .node n (substAt ul z y) (substAt ur z y) := by
          simp [substAt, hnz]
        have hurz : substAt ur z y = ur :=
          substAt_not_mem (fun hh => hdisj z hzl' hh) y
        rw [hrwt, hurz]
        simp only [topId]
        have hframe_ur : ReprT s' (some n) d.right ur := by
          refine hr.frame ?_
          intro i hi
          refine S5 i (fun hh => hyr (hh ▸ hi)) (fun hh => hdisj z hzl' (hh ▸ hi))
            ?_ ?_ ?_
          · intro hh
            exact hdisj i (hcmem i (Or.inl hh)) hi
          · intro hh
            exact hdisj i (hcmem i (Or.inr hh)) hi
          · intro hh
            rw [hzp2] at hh
            rcases hloc with ⟨hzp3, _⟩ | ⟨q, hq, hqm⟩
            · rw [hzp3] at hh
              cases hh
              exact hnr hi
            · rw [hq] at hh
              cases hh
              exact hdisj i hqm hi
        have hih : ReprT s' (some n) (topId (substAt ul z y)) (substAt ul z y) :=
          ihl hl hndl hzl' hyl (by intro q hq; cases hq; exact hnl)
        rcases hloc with ⟨hzp3, hdl⟩ | ⟨q, hq, hqm⟩
        · have hzpn : zd.parent = some n := hzp2.trans hzp3
          have hrecn := S4 n d hzpn hn
          rw [if_pos hdl] at hrecn
          have htop2 : topId (substAt ul z y) = some y := by
            refine topId_substAt_top ?_ y
            rw [← hl.topId_eq, hdl]
          refine .node par n { d with left := some y } (substAt ul z y) ur
            hrecn (by simpa using hp) ?_ (by simpa using hframe_ur)
          rw [htop2] at hih
          exact hih
        · have hzpq : zd.parent = some q := hzp2.trans hq
          have hqn : q ≠ n := fun hh => hnl (hh ▸ hqm)
          have hzpn' : zd.parent ≠ some n := by
            rw [hzpq]
            intro hh
            injection hh with hh
            exact hqn hh
          have htop1 : topId (substAt ul z y) = topId ul := by
            refine topId_substAt_ne ?_ y
            intro hh
            have htl := hl.topId_eq
            rw [hh] at htl
            rw [htl] at hl
            obtain ⟨zd3, _, _, _, hz3, hzp3b, _, _⟩ := hl.some_inv
            rw [hz] at hz3
            injection hz3 with hz3
            subst hz3
            rw [hzpq] at hzp3b
            injection hzp3b with hzp3b
            exact hqn hzp3b
          have hrecn : s'.nodes n = some d := by
            rw [S5 n (fun hh => hyn hh.symm) (fun hh => hnz hh)
              (fun hh => hnl (hcmem n (Or.inl hh)))
              (fun hh => hnl (hcmem n (Or.inr hh))) hzpn']
            exact hn
          refine .node par n d (substAt ul z y) ur hrecn (by simpa using hp) ?_
            (by simpa using hframe_ur)
          rw [htop1, ← hl.topId_eq] at hih
          exact hih
      · obtain ⟨zpar, sl, sr, hsub, hsubnd, hsubmem, hsubpar, hloc⟩ :=
          hr.subtree hndr (by intro q hq; cases hq; exact hnr) hzr'
        obtain ⟨zd2, sl2, sr2, hsubeq, hz2, hzp2, _, _⟩ := hsub.some_inv
        rw [hz] at hz2
        injection hz2 with hz2
        subst hz2
        have hcmem : ∀ c, zd.left = some c ∨ zd.right = some c →
            c ∈ treeIds ur := by
          intro c hc
          exact hr.child_mem2 hzr' hz hc
        have hrwt : substAt (STree.node n ul ur) z y =
            .node n (substAt ul z y) (substAt ur z y) := by
          simp [substAt, hnz]
        have hulz : substAt ul z y = ul :=
          substAt_not_mem (fun hh => hdisj z hh hzr') y
        rw [hrwt, hulz]
        simp only [topId]
        have hframe_ul : ReprT s' (some n) d.left ul := by
          refine hl.frame ?_
          intro i hi
          refine S5 i (fun hh => hyl (hh ▸ hi)) (fun hh => hdisj i hi (hh ▸ hzr'))
            ?_ ?_ ?_
          · intro hh
            exact hdisj i hi (hcmem i (Or.inl hh))
          · intro hh
            exact hdisj i hi (hcmem i (Or.inr hh))
          · intro hh
            rw [hzp2] at hh
            rcases hloc with ⟨hzp3, _⟩ | ⟨q, hq, hqm⟩
            · rw [hzp3] at hh
              cases hh
              exact hnl hi
            · rw [hq] at hh
              cases hh
              exact hdisj i hi hqm
        have hih : ReprT s' (some n) (topId (substAt ur z y)) (substAt ur z y) :=
          ihr hr hndr hzr' hyr (by intro q hq; cases hq; exact hnr)
        rcases hloc with ⟨hzp3, hdr⟩ | ⟨q, hq, hqm⟩
        · have hzpn : zd.parent = some n := hzp2.trans hzp3
          have hdlnz : d.left ≠ some z := by
            intro hh
            have := topId_mem (show topId ul = some z from by
              rw [← hl.topId_eq, hh])
            exact hdisj z this hzr'
          have hrecn := S4 n d hzpn hn
          rw [if_neg hdlnz] at hrecn
          have htop2 : topId (substAt ur z y) = some y := by
            refine topId_substAt_top ?_ y
            rw [← hr.topId_eq, hdr]
          refine .node par n { d with right := some y } ul (substAt ur z y)
            hrecn (by simpa using hp) (by simpa using hframe_ul) ?_
          rw [htop2] at hih
          exact hih
        · have hzpq : zd.parent = some q := hzp2.trans hq
          have hqn : q ≠ n := fun hh => hnr (hh ▸ hqm)
          have hzpn' : zd.parent ≠ some n := by
            rw [hzpq]
            intro hh
            injection hh with hh
            exact hqn hh
          have htop1 : topId (substAt ur z y) = topId ur := by
            refine topId_substAt_ne ?_ y
            intro hh
            have htl := hr.topId_eq
            rw [hh] at htl
            rw [htl] at hr
            obtain ⟨zd3, _, _, _, hz3, hzp3b, _, _⟩ := hr.some_inv
            rw [hz] at hz3
            injection hz3 with hz3
            subst hz3
            rw [hzpq] at hzp3b
            injection hzp3b with hzp3b
            exact hqn hzp3b
          have hrecn : s'.nodes n = some d := by
            rw [S5 n (fun hh => hyn hh.symm) (fun hh => hnz hh)
              (fun hh => hnr (hcmem n (Or.inl hh)))
              (fun hh => hnr (hcmem n (Or.inr hh))) hzpn']
            exact hn
          refine .node par n d ul (substAt ur z y) hrecn (by simpa using hp)
            (by simpa using hframe_ul) ?_
          rw [htop1, ← hr.topId_eq] at hih
          exact hih

end RBViz

namespace RBViz

theorem ReprT.delDirect_aux {s s' : TreeState} {z y : Nat} {zd yd : RBNodeData}
    (hz : s.nodes z = some zd) (hzr : zd.right = some y)
    (hy : s.nodes y = some yd) (hyl : yd.left = none)
    (hypz : yd.parent = some z)
    (S1 : ∃ yfin, s'.nodes y = some yfin ∧ yfin.parent = zd.parent ∧
      yfin.left = zd.left ∧ yfin.right = yd.right)
    (S2 : ∀ c cd, zd.left = some c → s.nodes c = some cd →
      s'.nodes c = some { cd with parent := some y })
    (S4 : ∀ p pd, zd.parent = some p → s.nodes p = some pd →
      s'.nodes p = some (if pd.left = some z then { pd with left := some y }
        else { pd with right := some y }))
    (S5 : ∀ j, j ≠ y → j ≠ z → zd.left ≠ some j → zd.parent ≠ some j →
      s'.nodes j = s.nodes j) :
    ∀ {u : STree} {par oid : Option Nat}, ReprT s par oid u →
      (treeIds u).Nodup → z ∈ treeIds u →
      (∀ q, par = some q → q ∉ treeIds u) →
      ReprT s' par (topId (substAt (spliceAt u y) z y))
        (substAt (spliceAt u y) z y) := by
  intro u
  induction u with
  | leaf => intro par oid h hnd hzu hpar; simp [treeIds] at hzu
  | node n ul ur ihl ihr =>
    intro par oid h hnd hzu hpar
    obtain ⟨d, hoid, hn, hp, hl, hr⟩ := h.node_inv
    obtain ⟨hndl, hndr, hnl, hnr, hdisj⟩ := treeIds_nodup_node hnd
    by_cases hnz : n = z
    · subst hnz
      rw [hz] at hn
      injection hn with hn
      subst hn
      rw [hzr] at hr
      obtain ⟨yd2, trl, trr, rfl, hy2, hyp2, hyll, hyrr⟩ := hr.some_inv
      rw [hy] at hy2
      injection hy2 with hy2
      subst hy2
      rw [hyl] at hyll
      have hleaf := hyll.none_inv
      subst hleaf
      obtain ⟨hndrl, hndrr, hynrl, hynrr, hdisjr⟩ := treeIds_nodup_node hndr
      have hymem : y ∈ treeIds (STree.node y .leaf trr) := by simp [treeIds]
      have hny : n ≠ y := fun hh => hnr (hh ▸ hymem)
      have hlmem : ∀ c, zd.left = some c → c ∈ treeIds ul := by
        intro c hc
        rw [hc] at hl
        exact topId_mem hl.topId_eq.symm
      have hrwt : substAt (spliceAt (STree.node n ul (STree.node y .leaf trr)) y)
          n y = .node y ul trr := by
        have h1 : spliceAt (STree.node n ul (STree.node y .leaf trr)) y =
            .node n ul trr := by
          have h2 : spliceAt ul y = ul :=
            spliceAt_not_mem (fun hh => hdisj y hh hymem)
          have h3 : spliceAt (STree.node y .leaf trr) y = trr := by
            simp [spliceAt]
          simp only [spliceAt, if_neg hny, h2, h3]
          simp
        rw [h1]
        simp [substAt]
      rw [hrwt]
      obtain ⟨yfin, hyfin, hyfp, hyfl, hyfr⟩ := S1
      simp only [topId]
      refine .node par y yfin ul trr hyfin (by rw [hyfp, hp]) ?_ ?_
      · rw [hyfl]
        refine hl.reparent hndl (fun i dd hi hdd => S2 i dd hi hdd) ?_
        intro i hi hne
        refine S5 i (fun hh => hdisj i hi (hh ▸ hymem))
          (fun hh => hnl (hh ▸ hi)) (fun hh => hne hh) ?_
        intro hh
        rw [hp] at hh
        exact hpar i hh (by simp [treeIds, hi])
      · rw [hyfr]
        refine hyrr.frame ?_
        intro i hi
        refine S5 i (fun hh => hynrr (hh ▸ hi)) ?_ ?_ ?_
        · intro hh
          exact hnr (hh ▸ (by simp [treeIds, hi] :
            i ∈ treeIds (STree.node y .leaf trr)))
        · intro hh
          exact hdisj i (hlmem i hh) (by simp [treeIds, hi])
        · intro hh
          rw [hp] at hh
          exact hpar i hh (by simp [treeIds, hi])
    · have hzu' : z ∈ treeIds ul ∨ z ∈ treeIds ur := by
        simp only [treeIds, List.mem_cons, List.mem_append] at hzu
        rcases hzu with rfl | hzu | hzu
        · exact absurd rfl hnz
        · exact Or.inl hzu
        · exact Or.inr hzu
      rcases hzu' with hzl' | hzr'
      · obtain ⟨zpar, sl, sr, hsub, hsubnd, hsubmem, hsubpar, hloc⟩ :=
          hl.subtree hndl (by intro q hq; cases hq; exact hnl) hzl'
        obtain ⟨zd2, sl2, sr2, hsubeq, hz2, hzp2, _, _⟩ := hsub.some_inv
        rw [hz] at hz2
        injection hz2 with hz2
        subst hz2
        have hzsub : z ∈ treeIds (STree.node z sl sr) := by simp [treeIds]
        have hymem : y ∈ treeIds ul :=
          hsubmem y (hsub.child_mem2 hzsub hz (Or.inr hzr))
        have hcmem : ∀ c, zd.left = some c → c ∈ treeIds ul := by
          intro c hc
          exact hl.child_mem2 hzl' hz (Or.inl hc)
        have hny : n ≠ y := fun hh => hnl (hh ▸ hymem)
        have hrwt : substAt (spliceAt (STree.node n ul ur) y) z y =
            .node n (substAt (spliceAt ul y) z y) ur := by
          have h2 : spliceAt ur y = ur :=
            spliceAt_not_mem (fun hh => hdisj y hymem hh)
          have h3 : substAt ur z y = ur :=
            substAt_not_mem (fun hh => hdisj z hzl' hh) y
          simp only [spliceAt, if_neg hny, h2, substAt, if_neg hnz, h3]
        rw [hrwt]
        simp only [topId]
        have hframe_ur : ReprT s' (some n) d.right ur := by
          refine hr.frame ?_
          intro i hi
          refine S5 i (fun hh => hdisj y hymem (hh ▸ hi))
            (fun hh => hdisj z hzl' (hh ▸ hi)) ?_ ?_
          · intro hh
            exact hdisj i (hcmem i hh) hi
          · intro hh
            rw [hzp2] at hh
            rcases hloc with ⟨hzp3, _⟩ | ⟨q, hq, hqm⟩
            · rw [hzp3] at hh
              cases hh
              exact hnr hi
            · rw [hq] at hh
              cases hh
              exact hdisj i hqm hi
        have hih : ReprT s' (some n) (topId (substAt (spliceAt ul y) z y))
            (substAt (spliceAt ul y) z y) :=
          ihl hl hndl hzl' (by intro q hq; cases hq; exact hnl)
        have htopul : topId (spliceAt ul y) = topId ul := by
          refine topId_spliceAt_ne ?_
          intro hh
          have htl := hl.topId_eq
          rw [hh] at htl
          rw [htl] at hl
          obtain ⟨yd3, _, _, _, hy3, hyp3, _, _⟩ := hl.some_inv
          rw [hy] at hy3
          injection hy3 with hy3
          subst hy3
          rw [hypz] at hyp3
          injection hyp3 with hyp3
          exact hnz hyp3.symm
        rcases hloc with ⟨hzp3, hdl⟩ | ⟨q, hq, hqm⟩
        · have hzpn : zd.parent = some n := hzp2.trans hzp3
          have hrecn := S4 n d hzpn hn
          rw [if_pos hdl] at hrecn
          have htop2 : topId (substAt (spliceAt ul y) z y) = some y := by
            refine topId_substAt_top ?_ y
            rw [htopul, ← hl.topId_eq, hdl]
          refine .node par n { d with left := some y }
            (substAt (spliceAt ul y) z y) ur hrecn (by simpa using hp) ?_
            (by simpa using hframe_ur)
          rw [htop2] at hih
          exact hih
        · have hzpq : zd.parent = some q := hzp2.trans hq
          have hqn : q ≠ n := fun hh => hnl (hh ▸ hqm)
          have hzpn' : zd.parent ≠ some n := by
            rw [hzpq]
            intro hh
            injection hh with hh
            exact hqn hh
          have htop1 : topId (substAt (spliceAt ul y) z y) = topId ul := by
            rw [topId_substAt_ne ?_ y, htopul]
            rw [htopul]
            intro hh
            have htl := hl.topId_eq
            rw [hh] at htl
            rw [htl] at hl
            obtain ⟨zd3, _, _, _, hz3, hzp3b, _, _⟩ := hl.some_inv
            rw [hz] at hz3
            injection hz3 with hz3
            subst hz3
            rw [hzpq] at hzp3b
            injection hzp3b with hzp3b
            exact hqn hzp3b
          have hrecn : s'.nodes n = some d := by
            rw [S5 n (fun hh => hny hh) (fun hh => hnz hh)
              (fun hh => hnl (hcmem n hh)) hzpn']
            exact hn
          refine .node par n d (substAt (spliceAt ul y) z y) ur hrecn
            (by simpa using hp) ?_ (by simpa using hframe_ur)
          rw [htop1, ← hl.topId_eq] at hih
          exact hih
      · obtain ⟨zpar, sl, sr, hsub, hsubnd, hsubmem, hsubpar, hloc⟩ :=
          hr.subtree hndr (by intro q hq; cases hq; exact hnr) hzr'
        obtain ⟨zd2, sl2, sr2, hsubeq, hz2, hzp2, _, _⟩ := hsub.some_inv
        rw [hz] at hz2
        injection hz2 with hz2
        subst hz2
        have hzsub : z ∈ treeIds (STree.node z sl sr) := by simp [treeIds]
        have hymem : y ∈ treeIds ur :=
          hsubmem y (hsub.child_mem2 hzsub hz (Or.inr hzr))
        have hcmem : ∀ c, zd.left = some c → c ∈ treeIds ur := by
          intro c hc
          exact hr.child_mem2 hzr' hz (Or.inl hc)
        have hny : n ≠ y := fun hh => hnr (hh ▸ hymem)
        have hrwt : substAt (spliceAt (STree.node n ul ur) y) z y =
            .node n ul (substAt (spliceAt ur y) z y) := by
          have h2 : spliceAt ul y = ul :=
            spliceAt_not_mem (fun hh => hdisj y hh hymem)
          have h3 : substAt ul z y = ul :=
            substAt_not_mem (fun hh => hdisj z hh hzr') y
          simp only [spliceAt, if_neg hny, h2, substAt, if_neg hnz, h3]
        rw [hrwt]
        simp only [topId]
        have hframe_ul : ReprT s' (some n) d.left ul := by
          refine hl.frame ?_
          intro i hi
          refine S5 i (fun hh => hdisj i hi (hh ▸ hymem))
            (fun hh => hdisj i hi (hh ▸ hzr')) ?_ ?_
          · intro hh
            exact hdisj i hi (hcmem i hh)
          · intro hh
            rw [hzp2] at hh
            rcases hloc with ⟨hzp3, _⟩ | ⟨q, hq, hqm⟩
            · rw [hzp3] at hh
              cases hh
              exact hnl hi
            · rw [hq] at hh
              cases hh
              exact hdisj i hi hqm
        have hih : ReprT s' (some n) (topId (substAt (spliceAt ur y) z y))
            (substAt (spliceAt ur y) z y) :=
          ihr hr hndr hzr' (by intro q hq; cases hq; exact hnr)
        have htopur : topId (spliceAt ur y) = topId ur := by
          refine topId_spliceAt_ne ?_
          intro hh
          have htl := hr.topId_eq
          rw [hh] at htl
          rw [htl] at hr
          obtain ⟨yd3, _, _, _, hy3, hyp3, _, _⟩ := hr.some_inv
          rw [hy] at hy3
          injection hy3 with hy3
          subst hy3
          rw [hypz] at hyp3
          injection hyp3 with hyp3
          exact hnz hyp3.symm
        rcases hloc with ⟨hzp3, hdr⟩ | ⟨q, hq, hqm⟩
        · have hzpn : zd.parent = some n := hzp2.trans hzp3
          have hdlnz : d.left ≠ some z := by
            intro hh
            have := topId_mem (show topId ul = some z from by
              rw [← hl.topId_eq, hh])
            exact hdisj z this hzr'
          have hrecn := S4 n d hzpn hn
          rw [if_neg hdlnz] at hrecn
          have htop2 : topId (substAt (spliceAt ur y) z y) = some y := by
            refine topId_substAt_top ?_ y
            rw [htopur, ← hr.topId_eq, hdr]
          refine .node par n { d with right := some y } ul
            (substAt (spliceAt ur y) z y) hrecn (by simpa using hp)
            (by simpa using hframe_ul) ?_
          rw [htop2] at hih
          exact hih
        · have hzpq : zd.parent = some q := hzp2.trans hq
          have hqn : q ≠ n := fun hh => hnr (hh ▸ hqm)
          have hzpn' : zd.parent ≠ some n := by
            rw [hzpq]
            intro hh
            injection hh with hh
            exact hqn hh
          have htop1 : topId (substAt (spliceAt ur y) z y) = topId ur := by
            rw [topId_substAt_ne ?_ y, htopur]
            rw [htopur]
            intro hh
            have htl := hr.topId_eq
            rw [hh] at htl
            rw [htl] at hr
            obtain ⟨zd3, _, _, _, hz3, hzp3b, _, _⟩ := hr.some_inv
            rw [hz] at hz3
            injection hz3 with hz3
            subst hz3
            rw [hzpq] at hzp3b
            injection hzp3b with hzp3b
            exact hqn hzp3b
          have hrecn : s'.nodes n = some d := by
            rw [S5 n (fun hh => hny hh) (fun hh => hnz hh)
              (fun hh => hnr (hcmem n hh)) hzpn']
            exact hn
          refine .node par n d ul (substAt (spliceAt ur y) z y) hrecn
            (by simpa using hp) (by simpa using hframe_ul) ?_
          rw [htop1, ← hr.topId_eq] at hih
          exact hih

end RBViz

namespace RBViz

theorem mem_substAt_self {u : STree} {z : Nat} (hz : z ∈ treeIds u) (y : Nat) :
    y ∈ treeIds (substAt u z y) := by
  induction u with
  | leaf => simp [treeIds] at hz
  | node n l r ihl ihr =>
    by_cases hnz : n = z
    · subst hnz
      simp [substAt, treeIds]
    · simp only [treeIds, List.mem_cons, List.mem_append] at hz
      rcases hz with rfl | hz | hz
      · exact absurd rfl hnz
      · simp only [substAt, if_neg hnz, treeIds, List.mem_cons, List.mem_append]
        exact Or.inr (Or.inl (ihl hz))
      · simp only [substAt, if_neg hnz, treeIds, List.mem_cons, List.mem_append]
        exact Or.inr (Or.inr (ihr hz))

theorem WFt.delFinalTree {s0 s7 : TreeState} {t : STree} {z y : Nat}
    {zd0 : RBNodeData} (ht : WFt s0 t) (hzrec : s0.nodes z = some zd0)
    (hzm : z ∈ treeIds t) (hzy : z ≠ y) (hynotsp : y ∉ treeIds (spliceAt t y))
    (hrep : ReprT s7 none (topId (substAt (spliceAt t y) z y))
      (substAt (spliceAt t y) z y))
    (hroot : s7.root = topId (substAt (spliceAt t y) z y))
    (hcnt : s7.nodeCounter = s0.nodeCounter) (hylt : y < s0.nodeCounter) :
    WFt s7 (substAt (spliceAt t y) z y) := by
  refine ⟨by rw [hroot]; exact hrep, ?_, ?_⟩
  · exact treeIds_substAt_nodup hynotsp
      ((treeIds_spliceAt_sublist t y).nodup ht.2.1)
  · intro i hi
    rw [hcnt]
    rcases treeIds_substAt_mem hi with ⟨rfl, _⟩ | hi2
    · exact hylt
    · exact ht.2.2 i ((treeIds_spliceAt_sublist t y).subset hi2)

end RBViz

namespace RBViz

theorem mem_substAt_of_ne {u : STree} {z y i : Nat} (hi : i ∈ treeIds u)
    (hiz : i ≠ z) : i ∈ treeIds (substAt u z y) := by
  induction u with
  | leaf => simp [treeIds] at hi
  | node n l r ihl ihr =>
    simp only [treeIds, List.mem_cons, List.mem_append] at hi
    by_cases hnz : n = z
    · subst hnz
      rcases hi with rfl | hi | hi
      · exact absurd rfl hiz
      · simp only [substAt, if_pos rfl, treeIds, List.mem_cons, List.mem_append]
        exact Or.inr (Or.inl hi)
      · simp only [substAt, if_pos rfl, treeIds, List.mem_cons, List.mem_append]
        exact Or.inr (Or.inr hi)
    · simp only [substAt, if_neg hnz, treeIds, List.mem_cons, List.mem_append]
      rcases hi with rfl | hi | hi
      · exact Or.inl rfl
      · exact Or.inr (Or.inl (ihl hi))
      · exact Or.inr (Or.inr (ihr hi))

theorem ReprT.root_parent_none {s : TreeState} {t : STree} {w : Nat}
    (h : ReprT s none s.root t) (hw : topId t = some w) :
    ∃ wd, s.nodes w = some wd ∧ wd.parent = none := by
  have he := h.topId_eq
  rw [hw] at he
  rw [he] at h
  obtain ⟨wd, _, _, _, hweq, hwp, _, _⟩ := h.some_inv
  exact ⟨wd, hweq, hwp⟩

theorem delPullDirect_spec {s0 : TreeState} {y : Nat} {yd : RBNodeData}
    (hy : s0.nodes y = some yd)
    (hx : ∀ xi, yd.right = some xi →
      ∃ xd, s0.nodes xi = some xd ∧ xd.parent = some y) :
    (∀ j, (delPullDirect s0 y).nodes j = s0.nodes j) ∧
    (delPullDirect s0 y).root = s0.root ∧
    (delPullDirect s0 y).nodeCounter = s0.nodeCounter := by
  unfold delPullDirect
  rw [rightOf_eq hy]
  cases hxr : yd.right with
  | none => exact ⟨fun j => rfl, rfl, rfl⟩
  | some xi =>
    obtain ⟨xd, hxd, hxp⟩ := hx xi hxr
    refine ⟨fun j => ?_, root_updNode _ _ _, counter_updNode _ _ _⟩
    rw [nodes_updNode]
    by_cases hj : j = xi
    · subst hj
      rw [if_pos rfl, hxd, Option.map_some', ← hxp]
    · rw [if_neg hj]

theorem delPullDeep_spec {s0 : TreeState} {y z zr0 : Nat} {zd1 yd1 : RBNodeData}
    (hz1 : (delPullDeep1 s0 y).nodes z = some zd1)
    (hy1 : (delPullDeep1 s0 y).nodes y = some yd1)
    (hzr : zd1.right = some zr0) (hzr0y : zr0 ≠ y) :
    (delPullDeep s0 y z).nodes y = some { yd1 with right := some zr0 } ∧
    (delPullDeep s0 y z).nodes zr0 =
      Option.map (fun d => { d with parent := some y })
        ((delPullDeep1 s0 y).nodes zr0) ∧
    (∀ j, j ≠ y → j ≠ zr0 →
      (delPullDeep s0 y z).nodes j = (delPullDeep1 s0 y).nodes j) ∧
    (delPullDeep s0 y z).root = (delPullDeep1 s0 y).root ∧
    (delPullDeep s0 y z).nodeCounter = (delPullDeep1 s0 y).nodeCounter := by
  have hrz : rightOf (delPullDeep1 s0 y) (some z) = some zr0 := by
    rw [rightOf_eq hz1, hzr]
  have h2y : (updNode (delPullDeep1 s0 y) y
      (fun d => { d with right := rightOf (delPullDeep1 s0 y) (some z) })).nodes y =
      some { yd1 with right := some zr0 } := by
    rw [nodes_updNode, if_pos rfl, hy1, Option.map_some', hrz]
  have hr2y : rightOf (updNode (delPullDeep1 s0 y) y
      (fun d => { d with right := rightOf (delPullDeep1 s0 y) (some z) }))
      (some y) = some zr0 := by
    rw [rightOf_eq h2y]
  unfold delPullDeep
  simp only [hr2y]
  refine ⟨?_, ?_, fun j hjy hjr => ?_, ?_, ?_⟩
  · rw [nodes_updNode, if_neg (fun he => hzr0y he.symm), h2y]
  · rw [nodes_updNode, if_pos rfl, nodes_updNode, if_neg hzr0y]
  · rw [nodes_updNode, if_neg hjr, nodes_updNode, if_neg hjy]
  · rw [root_updNode, root_updNode]
  · rw [counter_updNode, counter_updNode]

theorem delSubst_spec {sP : TreeState} {z y zl0 : Nat} {zdP ydP : RBNodeData}
    (hz : sP.nodes z = some zdP) (hy : sP.nodes y = some ydP)
    (hzl : zdP.left = some zl0) (hzy : z ≠ y) (hzl0y : zl0 ≠ y) (hzl0z : zl0 ≠ z)
    (hvp : ∀ p, zdP.parent = some p → y ≠ p ∧ zl0 ≠ p ∧ z ≠ p) :
    ((delSubst sP z y).nodes y =
      some { ydP with
        parent := zdP.parent, left := some zl0, color := zdP.color }) ∧
    ((delSubst sP z y).nodes zl0 =
      Option.map (fun d => { d with parent := some y }) (sP.nodes zl0)) ∧
    (∀ p pd, zdP.parent = some p → sP.nodes p = some pd →
      (delSubst sP z y).nodes p =
        some (if pd.left = some z then { pd with left := some y }
          else { pd with right := some y })) ∧
    (∀ j, j ≠ y → j ≠ zl0 → zdP.parent ≠ some j →
      (delSubst sP z y).nodes j = sP.nodes j) ∧
    (zdP.parent = none → (delSubst sP z y).root = some y) ∧
    (∀ p, zdP.parent = some p → (delSubst sP z y).root = sP.root) ∧
    (delSubst sP z y).nodeCounter = sP.nodeCounter := by
  have hvpT : ∀ vid p, some y = some vid → zdP.parent = some p → vid ≠ p := by
    intro vid p hv hp
    injection hv with hv
    subst hv
    exact (hvp p hp).1
  obtain ⟨hT1, hT2, hT3, hT4, hT5, hT6⟩ := transplant_spec hz (some y) hvpT
  have hpz : zdP.parent ≠ some z := fun he => (hvp z he).2.2 rfl
  have hpy : zdP.parent ≠ some y := fun he => (hvp y he).1 rfl
  have hpzl : zdP.parent ≠ some zl0 := fun he => (hvp zl0 he).2.1 rfl
  have hs4z : (transplant sP z (some y)).nodes z = some zdP :=
    (hT6 z hpz (fun he => hzy (Option.some.inj he).symm)).trans hz
  have hlf4 : leftOf (transplant sP z (some y)) (some z) = some zl0 := by
    rw [leftOf_eq hs4z, hzl]
  have hs4y : (transplant sP z (some y)).nodes y =
      some { ydP with parent := zdP.parent } := hT5 y ydP rfl hy
  unfold delSubst
  simp only [hlf4]
  have hs5y : (updNode (transplant sP z (some y)) y
      (fun d => { d with left := some zl0 })).nodes y =
      some { ydP with parent := zdP.parent, left := some zl0 } := by
    rw [nodes_updNode, if_pos rfl, hs4y, Option.map_some']
  have hlf5 : leftOf (updNode (transplant sP z (some y)) y
      (fun d => { d with left := some zl0 })) (some y) = some zl0 := by
    rw [leftOf_eq hs5y]
  simp only [hlf5]
  have hs6z : (updNode (updNode (transplant sP z (some y)) y
      (fun d => { d with left := some zl0 })) zl0
      (fun d => { d with parent := some y })).nodes z = some zdP := by
    rw [nodes_updNode, if_neg (fun he => hzl0z he.symm),
      nodes_updNode, if_neg hzy, hs4z]
  have hcol6 : colorOf (updNode (updNode (transplant sP z (some y)) y
      (fun d => { d with left := some zl0 })) zl0
      (fun d => { d with parent := some y })) (some z) = some zdP.color := by
    rw [colorOf_eq hs6z]
  simp only [hcol6, Option.getD_some]
  refine ⟨?_, ?_, fun p pd hp hpd => ?_, fun j hjy hjzl hjp => ?_,
    fun hn => ?_, fun p hp => ?_, ?_⟩
  · rw [nodes_updNode, if_pos rfl, nodes_updNode,
      if_neg (fun he => hzl0y he.symm), hs5y, Option.map_some']
  · rw [nodes_updNode, if_neg hzl0y, nodes_updNode, if_pos rfl,
      nodes_updNode, if_neg hzl0y,
      hT6 zl0 hpzl (fun he => hzl0y (Option.some.inj he).symm)]
  · have hyp : y ≠ p := (hvp p hp).1
    have hzlp : zl0 ≠ p := (hvp p hp).2.1
    rw [nodes_updNode, if_neg (fun he => hyp he.symm),
      nodes_updNode, if_neg (fun he => hzlp he.symm),
      nodes_updNode, if_neg (fun he => hyp he.symm)]
    exact hT4 p pd hp hpd
  · rw [nodes_updNode, if_neg hjy, nodes_updNode, if_neg hjzl,
      nodes_updNode, if_neg hjy]
    exact hT6 j hjp (fun he => hjy (Option.some.inj he).symm)
  · rw [root_updNode, root_updNode, root_updNode]
    exact hT2 hn
  · rw [root_updNode, root_updNode, root_updNode]
    exact hT3 p hp
  · rw [counter_updNode, counter_updNode, counter_updNode]
    exact hT1

theorem delTwoFinish_inv {s0 : TreeState} {t : STree} {r1 : RecState} (v : Int)
    {z zl0 zr0 : Nat} {zd0 : RBNodeData} (ht : WFt s0 t) (hr1 : snapsOk r1)
    (hzrec : s0.nodes z = some zd0) (hzm : z ∈ treeIds t)
    (hzl : zd0.left = some zl0) (hzr2 : zd0.right = some zr0) :
    WFs (delTwoFinish s0 r1 v z zr0).1 ∧
      ∀ sn ∈ (delTwoFinish s0 r1 v z zr0).2.snapshots, exportOk sn.nodes := by
  obtain ⟨zpar, sl, sr, hsub, hsubnd, hsubmem, hsubpar, hloc⟩ :=
    ht.1.subtree ht.2.1 (by simp) hzm
  obtain ⟨zd2, hoid2, hz2, hzp2, hsl, hsr⟩ := hsub.node_inv
  rw [hzrec] at hz2
  injection hz2 with hz2e
  subst hz2e
  obtain ⟨hndl, hndr, hznl, hznr, hdisj⟩ := treeIds_nodup_node hsubnd
  rw [hzr2] at hsr
  rw [hzl] at hsl
  obtain ⟨zld, slL, slR, hsleq, hzlrec, hzlpar, _, _⟩ := hsl.some_inv
  have hzl0sl : zl0 ∈ treeIds sl := by rw [hsleq]; simp [treeIds]
  obtain ⟨zrd, srL, srR, hsreq, hzrrec, hzrpar, _, _⟩ := hsr.some_inv
  have hzr0sr : zr0 ∈ treeIds sr := by rw [hsreq]; simp [treeIds]
  have hpnot : ∀ p, zd0.parent = some p →
      p ∉ treeIds (STree.node z sl sr) := fun p hp =>
    hsubpar p (by rw [← hzp2]; exact hp)
  unfold delTwoFinish
  generalize hy : delY s0 zr0 = y
  have hfuel : sHeight sr < s0.nodeCounter + 1 := by
    have h1 := sHeight_le_length sr
    have h2 : (treeIds sr).length ≤ s0.nodeCounter :=
      nodup_bound_length hndr (fun i hi => ht.2.2 i (hsubmem i (by
        simp only [treeIds, List.mem_cons, List.mem_append]
        exact Or.inr (Or.inr hi))))
    omega
  obtain ⟨hymem_sr, yd, hyrec, hyl⟩ := by
    have hspec := minimumGo_spec sr (s0.nodeCounter + 1) (some z) zr0 hsr hfuel
    rw [show minimumGo s0 (s0.nodeCounter + 1) zr0 = y from hy] at hspec
    exact hspec
  have hymem_t : y ∈ treeIds t := hsubmem y (by
    simp only [treeIds, List.mem_cons, List.mem_append]
    exact Or.inr (Or.inr hymem_sr))
  have hzy : z ≠ y := fun he => hznr (by rw [he]; exact hymem_sr)
  have hylt : y < s0.nodeCounter := ht.2.2 y hymem_t
  have hzl0y : zl0 ≠ y := fun he =>
    hdisj zl0 hzl0sl (by rw [he]; exact hymem_sr)
  have hzl0z : zl0 ≠ z := fun he => hznl (by rw [← he]; exact hzl0sl)
  have hzl0zr : zl0 ≠ zr0 := fun he =>
    hdisj zl0 hzl0sl (by rw [he]; exact hzr0sr)
  have hzrz : zr0 ≠ z := fun he => hznr (by rw [← he]; exact hzr0sr)
  have hvpP : ∀ p, zd0.parent = some p → y ≠ p ∧ zl0 ≠ p ∧ z ≠ p := by
    intro p hp
    have hpn := hpnot p hp
    refine ⟨fun he => hpn ?_, fun he => hpn ?_, fun he => hpn ?_⟩
    · rw [← he]
      simp only [treeIds, List.mem_cons, List.mem_append]
      exact Or.inr (Or.inr hymem_sr)
    · rw [← he]
      simp only [treeIds, List.mem_cons, List.mem_append]
      exact Or.inr (Or.inl hzl0sl)
    · rw [← he]
      simp [treeIds]
  have hpzr0 : zd0.parent ≠ some zr0 := fun he => hpnot zr0 he (by
    simp only [treeIds, List.mem_cons, List.mem_append]
    exact Or.inr (Or.inr hzr0sr))
  have hynotsp : y ∉ treeIds (spliceAt t y) :=
    ReprT.spliceL_self_not_mem hyrec hyl ht.1 ht.2.1
  have hzsp : z ∈ treeIds (spliceAt t y) := mem_spliceAt hzm hzy
  obtain ⟨ypar, ysl, ysr, hysub, hysubnd, hysubmem, hysubpar, hyloc⟩ :=
    hsr.subtree hndr
      (fun q hq => by injection hq with e; rw [← e]; exact hznr) hymem_sr
  obtain ⟨yd2, _, hy2, hyp2, hysl, hysr⟩ := hysub.node_inv
  rw [hyrec] at hy2
  injection hy2 with hy2e
  subst hy2e
  obtain ⟨hyndl, hyndr, hynysl, hynysr, hydisj⟩ := treeIds_nodup_node hysubnd
  have hyRight : ∀ xi, yd.right = some xi →
      ∃ xd, s0.nodes xi = some xd ∧ xd.parent = some y ∧ xi ∈ treeIds ysr := by
    intro xi hxi
    rw [hxi] at hysr
    obtain ⟨xd, xtl, xtr, hxeq, hxrec, hxp, _, _⟩ := hysr.some_inv
    exact ⟨xd, hxrec, hxp, by rw [hxeq]; simp [treeIds]⟩
  have hyrne : yd.right ≠ some y := by
    intro he
    obtain ⟨_, _, _, hxmem⟩ := hyRight y he
    exact hynysr hxmem
  by_cases hdir : yd.parent = some z
  · -- direct case: y is z's right child
    have hpulled : delPulled s0 r1 z y = (delPullDirect s0 y, r1, some y) := by
      unfold delPulled
      rw [parentOf_eq hyrec, if_pos hdir]
    rw [hpulled]
    have hyzr0 : zr0 = y := by
      rcases hyloc with ⟨hype, hoide⟩ | ⟨q, hype, hqmem⟩
      · exact Option.some.inj hoide
      · exfalso
        rw [hyp2] at hdir
        rw [hdir] at hype
        injection hype with he
        rw [← he] at hqmem
        exact hznr hqmem
    have hzry : zd0.right = some y := by rw [hzr2, hyzr0]
    obtain ⟨hPn, hPr, hPc⟩ := delPullDirect_spec hyrec (fun xi hxi => by
      obtain ⟨xd, hxrec, hxp, _⟩ := hyRight xi hxi
      exact ⟨xd, hxrec, hxp⟩)
    have hzP : (delPullDirect s0 y).nodes z = some zd0 := (hPn z).trans hzrec
    have hyP : (delPullDirect s0 y).nodes y = some yd := (hPn y).trans hyrec
    obtain ⟨hSy, hSzl, hSp, hSj, hRn, hRs, hCnt⟩ :=
      delSubst_spec hzP hyP hzl hzy hzl0y hzl0z hvpP
    have hrep : ReprT (delSubst (delPullDirect s0 y) z y) none
        (topId (substAt (spliceAt t y) z y)) (substAt (spliceAt t y) z y) := by
      refine ReprT.delDirect_aux hzrec hzry hyrec hyl hdir
        ⟨_, hSy, rfl, hzl.symm, rfl⟩ ?_ ?_ ?_ ht.1 ht.2.1 hzm
        (fun q hq => Option.noConfusion hq)
      · intro c cd hc hcd
        rw [hzl] at hc
        injection hc with hce
        subst hce
        rw [hSzl, hPn zl0, hcd, Option.map_some']
      · intro p pd hp hpd
        exact hSp p pd hp ((hPn p).trans hpd)
      · intro j hjy hjz hjl hjp
        have hjzl : j ≠ zl0 := fun he => hjl (by rw [he]; exact hzl)
        exact (hSj j hjy hjzl hjp).trans (hPn j)
    have hroot : (delSubst (delPullDirect s0 y) z y).root =
        topId (substAt (spliceAt t y) z y) := by
      cases hzp : zd0.parent with
      | none =>
        rw [hRn hzp]
        have hrootz : s0.root = some z := by
          rcases hloc with ⟨_, ho⟩ | ⟨q, hq, _⟩
          · exact ho
          · exfalso
            rw [← hzp2, hzp] at hq
            exact Option.noConfusion hq
        have htop : topId t = some z := by
          rw [← ht.1.topId_eq]
          exact hrootz
        have h1 : topId (spliceAt t y) = some z := by
          rw [topId_spliceAt_ne (by
            rw [htop]
            exact fun he => hzy (Option.some.inj he))]
          exact htop
        rw [topId_substAt_top h1 y]
      | some p =>
        rw [hRs p hzp, hPr]
        have hztop : topId t ≠ some z := by
          intro he
          obtain ⟨wd, hwrec, hwp⟩ := ht.1.root_parent_none he
          rw [hzrec] at hwrec
          injection hwrec with hwe
          rw [← hwe, hzp] at hwp
          exact Option.noConfusion hwp
        have hytop : topId t ≠ some y := by
          intro he
          obtain ⟨wd, hwrec, hwp⟩ := ht.1.root_parent_none he
          rw [hyrec] at hwrec
          injection hwrec with hwe
          rw [← hwe, hdir] at hwp
          exact Option.noConfusion hwp
        rw [topId_substAt_ne (by rw [topId_spliceAt_ne hytop]; exact hztop) y,
          topId_spliceAt_ne hytop, ← ht.1.topId_eq]
    have hcnt7 : (delSubst (delPullDirect s0 y) z y).nodeCounter =
        s0.nodeCounter := hCnt.trans hPc
    have htS7 := WFt.delFinalTree ht hzrec hzm hzy hynotsp hrep hroot hcnt7 hylt
    refine deleteFinish_inv v _ _ _ htS7 (snapsOk_recordStep htS7.wfs hr1) ?_
    intro c hc
    injection hc with hce
    rw [← hce]
    exact mem_substAt_self hzsp y
  · -- deep case: y is pulled up by transplant(y, y.right)
    obtain ⟨q, hypq, hqsr⟩ : ∃ q, ypar = some q ∧ q ∈ treeIds sr := by
      rcases hyloc with ⟨hype, hoide⟩ | h
      · exact absurd (by rw [hyp2, hype] : yd.parent = some z) hdir
      · exact h
    have hydpq : yd.parent = some q := by rw [hyp2, hypq]
    have hqny : q ∉ treeIds (STree.node y ysl ysr) := hysubpar q hypq
    have hqy : q ≠ y := fun he => hqny (by rw [he]; simp [treeIds])
    have hqz : q ≠ z := fun he => hznr (by rw [← he]; exact hqsr)
    have hqt : q ∈ treeIds t := hsubmem q (by
      simp only [treeIds, List.mem_cons, List.mem_append]
      exact Or.inr (Or.inr hqsr))
    have hzr0y : zr0 ≠ y := by
      intro he
      rw [he, hyrec] at hzrrec
      injection hzrrec with hee
      exact hdir (by rw [hee]; exact hzrpar)
    have hpulled : delPulled s0 r1 z y =
        (delPullDeep s0 y z,
          recordStep (delPullDeep1 s0 y) r1
            (toString (valueOf (delPullDeep1 s0 y) y) ++
              "를 오른쪽 서브트리에서 끌어올림")
            (compact [some y, rightOf (delPullDeep1 s0 y) (some y),
              parentOf (delPullDeep1 s0 y) (some y)]),
          yd.parent) := by
      unfold delPulled
      rw [parentOf_eq hyrec, if_neg hdir]
    rw [hpulled]
    have hs1eq : delPullDeep1 s0 y = transplant s0 y yd.right := by
      unfold delPullDeep1
      rw [rightOf_eq hyrec]
    obtain ⟨hts1, hcnt1⟩ := by
      have h0 := ht.transplantL hyrec hymem_t hyl
      rw [← hs1eq] at h0
      exact h0
    have hvpy : ∀ vid p, yd.right = some vid → yd.parent = some p →
        vid ≠ p := by
      intro vid p hvid hp
      obtain ⟨_, _, _, hxmem⟩ := hyRight vid hvid
      rw [hydpq] at hp
      injection hp with hpe
      subst hpe
      intro he
      apply hqny
      rw [← he]
      simp only [treeIds, List.mem_cons, List.mem_append]
      exact Or.inr (Or.inr hxmem)
    obtain ⟨hT1, hT2, hT3, hT4, hT5, hT6⟩ := by
      have h0 := transplant_spec hyrec yd.right hvpy
      rw [← hs1eq] at h0
      exact h0
    have hyrnz : yd.right ≠ some z := by
      intro he
      obtain ⟨_, _, _, hxmem⟩ := hyRight z he
      exact hznr (hysubmem z (by
        simp only [treeIds, List.mem_cons, List.mem_append]
        exact Or.inr (Or.inr hxmem)))
    have hz1 : (delPullDeep1 s0 y).nodes z = some zd0 := by
      rw [hT6 z (by rw [hydpq]; exact fun he => hqz (Option.some.inj he)) hyrnz]
      exact hzrec
    have hy1 : (delPullDeep1 s0 y).nodes y = some yd := by
      rw [hT6 y (by rw [hydpq]; exact fun he => hqy (Option.some.inj he)) hyrne]
      exact hyrec
    obtain ⟨hDy, hDzr, hDj, hDroot, hDcnt⟩ := delPullDeep_spec hz1 hy1 hzr2 hzr0y
    have hzP : (delPullDeep s0 y z).nodes z = some zd0 :=
      (hDj z hzy (fun he => hzrz he.symm)).trans hz1
    obtain ⟨hSy, hSzl, hSp, hSj, hRn, hRs, hCnt⟩ :=
      delSubst_spec hzP hDy hzl hzy hzl0y hzl0z hvpP
    have hrep : ReprT (delSubst (delPullDeep s0 y z) z y) none
        (topId (substAt (spliceAt t y) z y)) (substAt (spliceAt t y) z y) := by
      refine ReprT.subst_aux hz1 ⟨_, hSy, rfl, hzl.symm, by
          show some zr0 = zd0.right
          exact hzr2.symm⟩ ?_ ?_ ?_ ?_ hts1.1 hts1.2.1 hzsp hynotsp
        (fun q' hq' => Option.noConfusion hq')
      · intro c cd hc hcd
        rw [hzl] at hc
        injection hc with hce
        subst hce
        rw [hSzl, hDj zl0 hzl0y hzl0zr, hcd, Option.map_some']
      · intro c cd hc hcd
        rw [hzr2] at hc
        injection hc with hce
        subst hce
        rw [hSj zr0 hzr0y (fun he => hzl0zr he.symm) hpzr0, hDzr, hcd,
          Option.map_some']
      · intro p pd hp hpd
        refine hSp p pd hp ?_
        rw [hDj p (fun he => (hvpP p hp).1 he.symm) (fun he => hpzr0 (by
          rw [hp, he]))]
        exact hpd
      · intro j hjy hjz hjl hjr hjp
        have hjzl : j ≠ zl0 := fun he => hjl (by rw [he]; exact hzl)
        have hjzr : j ≠ zr0 := fun he => hjr (by rw [he]; exact hzr2)
        exact (hSj j hjy hjzl hjp).trans (hDj j hjy hjzr)
    have hytop : topId t ≠ some y := by
      intro he
      obtain ⟨wd, hwrec, hwp⟩ := ht.1.root_parent_none he
      rw [hyrec] at hwrec
      injection hwrec with hwe
      rw [← hwe, hydpq] at hwp
      exact Option.noConfusion hwp
    have hroot : (delSubst (delPullDeep s0 y z) z y).root =
        topId (substAt (spliceAt t y) z y) := by
      cases hzp : zd0.parent with
      | none =>
        rw [hRn hzp]
        have hrootz : s0.root = some z := by
          rcases hloc with ⟨_, ho⟩ | ⟨q2, hq2, _⟩
          · exact ho
          · exfalso
            rw [← hzp2, hzp] at hq2
            exact Option.noConfusion hq2
        have htop : topId t = some z := by
          rw [← ht.1.topId_eq]
          exact hrootz
        have h1 : topId (spliceAt t y) = some z := by
          rw [topId_spliceAt_ne (by
            rw [htop]
            exact fun he => hzy (Option.some.inj he))]
          exact htop
        rw [topId_substAt_top h1 y]
      | some p =>
        rw [hRs p hzp, hDroot, hT3 q hydpq]
        have hztop : topId t ≠ some z := by
          intro he
          obtain ⟨wd, hwrec, hwp⟩ := ht.1.root_parent_none he
          rw [hzrec] at hwrec
          injection hwrec with hwe
          rw [← hwe, hzp] at hwp
          exact Option.noConfusion hwp
        rw [topId_substAt_ne (by rw [topId_spliceAt_ne hytop]; exact hztop) y,
          topId_spliceAt_ne hytop, ← ht.1.topId_eq]
    have hcnt7 : (delSubst (delPullDeep s0 y z) z y).nodeCounter =
        s0.nodeCounter := hCnt.trans (hDcnt.trans hcnt1)
    have htS7 := WFt.delFinalTree ht hzrec hzm hzy hynotsp hrep hroot hcnt7 hylt
    refine deleteFinish_inv v _ _ _ htS7 (snapsOk_recordStep htS7.wfs
      (snapsOk_recordStep hts1.wfs hr1)) ?_
    intro c hc
    rw [hydpq] at hc
    injection hc with hce
    rw [← hce]
    exact mem_substAt_of_ne (mem_spliceAt hqt hqy) hqz

theorem deleteOp_inv (s0 : TreeState) (v : Int) (h : WFs s0) :
    WFs (deleteOp s0 v).1 ∧
      ∀ sn ∈ (deleteOp s0 v).2.snapshots, exportOk sn.nodes := by
  obtain ⟨t, htt⟩ := h
  have ht : WFt s0 t := htt
  have hr0 : snapsOk (⟨[], serializeTree s0⟩ : RecState) := by
    intro sn hsn
    simp [RecState.snapshots] at hsn
  unfold deleteOp
  cases hfind : find s0 v with
  | none =>
    simp only [hfind]
    exact ⟨ht.wfs, fun sn hsn => snapsOk_recordStep ht.wfs hr0 sn hsn⟩
  | some z =>
    simp only [hfind]
    obtain ⟨hzm, zd0, hzrec⟩ := find_mem ht hfind
    have hr1 : snapsOk (recordStep s0 (⟨[], serializeTree s0⟩ : RecState)
        (toString v ++ " 노드를 삭제합니다.") [z]) :=
      snapsOk_recordStep ht.wfs hr0
    simp only [hzrec]
    obtain ⟨zpar, sl, sr, hsub, hsubnd, hsubmem, hsubpar, hloc⟩ :=
      ht.1.subtree ht.2.1 (by simp) hzm
    obtain ⟨zd2, hoid2, hz2, hzp2, hsl, hsr⟩ := hsub.node_inv
    rw [hzrec] at hz2
    injection hz2 with hz2e
    subst hz2e
    have hparT : inT zd0.parent (spliceAt t z) := by
      intro p hp
      rw [hzp2] at hp
      rcases hloc with ⟨hze, _⟩ | ⟨q, hq, hqt⟩
      · rw [hze] at hp; cases hp
      · rw [hq] at hp
        injection hp with hpe
        subst hpe
        have hqz : q ≠ z := fun he => hsubpar q hq (by rw [he]; simp [treeIds])
        exact mem_spliceAt hqt hqz
    cases hzl : zd0.left with
    | none =>
      simp only [hzl]
      obtain ⟨hts1, hcnt1⟩ := ht.transplantL hzrec hzm hzl
      have hr2 : snapsOk (recordStep (transplant s0 z zd0.right)
          (recordStep s0 (⟨[], serializeTree s0⟩ : RecState)
            (toString v ++ " 노드를 삭제합니다.") [z])
          (toString v ++ "의 오른쪽 자식으로 대체")
          (compact [some z, rightOf (transplant s0 z zd0.right) (some z),
            parentOf (transplant s0 z zd0.right) (some z)])) :=
        snapsOk_recordStep hts1.wfs hr1
      exact deleteFinish_inv v zd0.color zd0.right zd0.parent hts1 hr2 hparT
    | some zl0 =>
      cases hzr2 : zd0.right with
      | none =>
        simp only [hzl, hzr2]
        obtain ⟨hts1, hcnt1⟩ := ht.transplantR hzrec hzm hzr2
        rw [hzl] at hts1
        have hr2 : snapsOk (recordStep (transplant s0 z (some zl0))
            (recordStep s0 (⟨[], serializeTree s0⟩ : RecState)
              (toString v ++ " 노드를 삭제합니다.") [z])
            (toString v ++ "의 왼쪽 자식으로 대체")
            (compact [some z, leftOf (transplant s0 z (some zl0)) (some z),
              parentOf (transplant s0 z (some zl0)) (some z)])) :=
          snapsOk_recordStep hts1.wfs hr1
        exact deleteFinish_inv v zd0.color (some zl0) zd0.parent hts1 hr2 hparT
      | some zr0 =>
        simp only [hzl, hzr2]
        show WFs (delTwoFinish s0 (recordStep s0 (⟨[], serializeTree s0⟩ : RecState)
            (toString v ++ " 노드를 삭제합니다.") [z]) v z zr0).1 ∧
          ∀ sn ∈ (delTwoFinish s0 (recordStep s0 (⟨[], serializeTree s0⟩ : RecState)
            (toString v ++ " 노드를 삭제합니다.") [z]) v z zr0).2.snapshots,
            exportOk sn.nodes
        exact delTwoFinish_inv v ht hr1 hzrec hzm hzl hzr2

end RBViz

namespace RBViz

theorem WFs_emptyTree : WFs emptyTree :=
  ⟨.leaf, ReprT.leaf none, by simp [treeIds], by simp [treeIds]⟩

theorem traceFold_inv (ops : List TreeOp) :
    ∀ (s : TreeState) (acc : List TreeSnapshot), WFs s →
      (∀ sn ∈ acc, exportOk sn.nodes) →
      ∀ sn ∈ (ops.foldl
        (fun acc2 op =>
          match op with
          | .ins v =>
            let res := insertOp acc2.1 v
            (res.1, acc2.2 ++ res.2.snapshots)
          | .del v =>
            let res := deleteOp acc2.1 v
            (res.1, acc2.2 ++ res.2.snapshots))
        (s, acc)).2, exportOk sn.nodes := by
  induction ops with
  | nil =>
    intro s acc hs hacc sn hsn
    rw [List.foldl_nil] at hsn
    exact hacc sn hsn
  | cons op rest ih =>
    intro s acc hs hacc
    rw [List.foldl_cons]
    cases op with
    | ins v =>
      refine ih ((insertOp s v).1) (acc ++ (insertOp s v).2.snapshots)
        (insertOp_inv s v hs).1 ?_
      intro sn hsn
      rw [List.mem_append] at hsn
      rcases hsn with h1 | h2
      · exact hacc sn h1
      · exact (insertOp_inv s v hs).2 sn h2
    | del v =>
      refine ih ((deleteOp s v).1) (acc ++ (deleteOp s v).2.snapshots)
        (deleteOp_inv s v hs).1 ?_
      intro sn hsn
      rw [List.mem_append] at hsn
      rcases hsn with h1 | h2
      · exact hacc sn h1
      · exact (deleteOp_inv s v hs).2 sn h2

end RBViz

namespace RBViz

/-- C10: for any sequence of insert/delete operations run from the empty
tree, every recorded snapshot's exported node list is structurally
well-formed (`exportOk`): node ids are pairwise distinct; whenever a
record's `leftId` or `rightId` names an id, that id belongs to a record of
the same list whose `parentId` equals the first record's id; and a
non-empty list has exactly one record with `parentId` null. -/
theorem c10_snapshot_export_wellformed (ops : List TreeOp) :
    ∀ sn ∈ traceSnapshots ops, exportOk sn.nodes := by
  unfold traceSnapshots
  exact traceFold_inv ops emptyTree [] WFs_emptyTree
    (fun sn hsn => absurd hsn (by simp))

theorem c10_witness :
    exportOk ((traceSnapshots [TreeOp.ins 10]).get ⟨0, by decide⟩).nodes :=
  c10_snapshot_export_wellformed [TreeOp.ins 10] _ (List.get_mem _ _ _)

end RBViz

namespace RBViz

/-- Claim C1, counterexample: the call sequence `insert(10)`, `insert(30)`,
`insert(20)` leaves a tree that violates the red-black invariants.  The
first two calls still leave a valid tree; after the third the exported
tree is `20 (black)` with children `10 (red)` and `30 (black)`, whose two
root-to-null paths carry different numbers of black nodes.  The cause is
the inner-rotation branch of `fixInsert`: after `node = parent;
rotateLeft/rotateRight(node)` it runs `parent.color = 'black'` on the
stale `parent` binding (which is now the lower node) instead of the
post-rotation `node.parent`, so the node that rose out of the rotation
keeps its red color. -/
theorem c1_counterexample :
    rbValid (extractTree (applyOps emptyTree
      [TreeOp.ins 10, TreeOp.ins 30])) = true ∧
    rbValid (extractTree (applyOps emptyTree
      [TreeOp.ins 10, TreeOp.ins 30, TreeOp.ins 20])) = false := by
  decide

end RBViz
